import Mathlib

/-!
# PintOS threads: scheduler, priority donation and the donations list

A shallow embedding of `src/threads/thread.c`.  Pointers to `struct thread` and to
`struct lock` are natural numbers (addresses); the kernel's global variables are the
fields of `Kernel`.  A failed `ASSERT` or a NULL dereference is the result `none`.

Interrupt levels are not modelled: a function is one atomic step of the running thread,
and a context switch makes the next thread the running one.  The kernel list library and
`threads/synch.c` are not among the sources; what `thread.c` uses of them is modelled under
the doc comments that start with "Modelled from the spec".
-/

namespace Pintos

/-! ## Data model (`src/include/threads/thread.h`) -/

/-- States in a thread's life cycle (`enum thread_status`). -/
inductive thread_status where
  | THREAD_RUNNING
  | THREAD_READY
  | THREAD_BLOCKED
  | THREAD_DYING
  deriving DecidableEq, Repr

open thread_status

/-- The fields of `struct thread` that `thread.c` reads and writes.  `wait_lock` is the
address of the awaited lock (`none` is NULL); `donations` is the donations list, front
first, as the addresses of the donor threads (a donor is linked through its `d_elem`). -/
structure thread where
  tid : Int
  status : thread_status
  priority : Int
  wakeup : Int
  init_priority : Int
  wait_lock : Option Nat
  donations : List Nat
  deriving DecidableEq, Repr

/-- The field of `struct lock` that `thread.c` reads: the holder (`none` is NULL). -/
structure lock where
  holder : Option Nat
  deriving DecidableEq, Repr

/-- The kernel state: the thread pages, the locks and the static variables of `thread.c`.
`running` is the thread `running_thread ()` returns; `freed` logs the pages given back
with `palloc_free_page`, oldest first. -/
structure Kernel where
  threads : Nat → thread
  locks : Nat → lock
  ready_list : List Nat
  sleep_list : List Nat
  destruction_req : List Nat
  idle_thread : Option Nat
  initial_thread : Nat
  running : Nat
  thread_ticks : Nat
  next_tid : Int
  freed : List Nat

/-- Lowest priority. -/
def PRI_MIN : Int := 0
/-- Default priority. -/
def PRI_DEFAULT : Int := 31
/-- Highest priority. -/
def PRI_MAX : Int := 63

/-- Write `f (old record)` to the thread at address `t`. -/
def Kernel.modify (k : Kernel) (t : Nat) (f : thread → thread) : Kernel :=
  { k with threads := Function.update k.threads t (f (k.threads t)) }

/-- The assignment `t->status = s`. -/
def Kernel.set_status (k : Kernel) (t : Nat) (s : thread_status) : Kernel :=
  k.modify t (fun r => { r with status := s })

/-- The assignment `t->priority = p`. -/
def Kernel.set_priority (k : Kernel) (t : Nat) (p : Int) : Kernel :=
  k.modify t (fun r => { r with priority := p })

/-- The field `t->priority`. -/
def Kernel.prio (k : Kernel) (t : Nat) : Int := (k.threads t).priority

/-! ## The kernel list library, on sequences

`lib/kernel/list.c` is not among the sources.  A list is the sequence of its elements,
front first; an element is the address of the thread that embeds it. -/

/-- Modelled from the spec: `list_insert_ordered` of the kernel list library (its file
`lib/kernel/list.c` is missing), the "ordered insertion primitive [that] takes a
comparator and inserts in O(n)": walk from the front, stop at the first element `e` with
`less (elem, e)` and insert `elem` before it, at the back when there is none. -/
def list_insert_ordered (less : Nat → Nat → Bool) (elem : Nat) : List Nat → List Nat
  | [] => [elem]
  | e :: rest =>
    if less elem e then elem :: e :: rest
    else e :: list_insert_ordered less elem rest

/-- Modelled from the spec: `list_push_back` of the kernel list library (missing):
"inserted at the tail". -/
def list_push_back (l : List Nat) (elem : Nat) : List Nat := l ++ [elem]

/-- Modelled from the spec: `list_empty` of the kernel list library (missing). -/
def list_empty (l : List Nat) : Bool := l.isEmpty

/-- Modelled from the spec: `list_pop_front` of the kernel list library (missing): removes
and returns the front element; the library asserts that the list is not empty. -/
def list_pop_front : List Nat → Option (Nat × List Nat)
  | [] => none
  | e :: rest => some (e, rest)

/-- Modelled from the spec: `list_front` of the kernel list library (missing): the front
element; the library asserts that the list is not empty. -/
def list_front : List Nat → Option Nat
  | [] => none
  | e :: _ => some e

/-- Modelled from the spec: `list_sort` of the kernel list library (missing): a stable
sort by `less`; the donations list is "ordered by donor priority desc".  As an insertion
sort: each element goes before the first element of the sorted rest that is `less`
than it (so after the elements it ties with). -/
def list_sort (less : Nat → Nat → Bool) : List Nat → List Nat
  | [] => []
  | e :: rest => List.orderedInsert (fun a b => less b a = false) e (list_sort less rest)

/-! ## `thread.c` -/

/-- The comparator `thread_compare_priority`: `a->priority > b->priority`. -/
def thread_compare_priority (k : Kernel) (a b : Nat) : Bool :=
  decide ((k.threads a).priority > (k.threads b).priority)

/-- The comparator `thread_compare_donate_priority`: `a->priority > b->priority`, on
`d_elem`. -/
def thread_compare_donate_priority (k : Kernel) (a b : Nat) : Bool :=
  decide ((k.threads a).priority > (k.threads b).priority)

/-- The function `thread_current`: `running_thread ()`, with the assertion that its status
is `THREAD_RUNNING`. -/
def thread_current (k : Kernel) : Option Nat :=
  if (k.threads k.running).status = THREAD_RUNNING then some k.running else none

/-- The function `thread_unblock`: asserts `t->status == THREAD_BLOCKED`, inserts `t` in
the ready list with `list_insert_ordered (.., thread_compare_priority, 0)` and sets
`t->status = THREAD_READY`. -/
def thread_unblock (k : Kernel) (t : Nat) : Option Kernel :=
  if (k.threads t).status = THREAD_BLOCKED then
    let k1 : Kernel :=
      { k with ready_list := list_insert_ordered (thread_compare_priority k) t k.ready_list }
    some (k1.set_status t THREAD_READY)
  else none

/-- The function `next_thread_to_run`: `idle_thread` when the ready list is empty,
otherwise the thread popped from its front.  Returns the chosen pointer (`none` is NULL)
and the state. -/
def next_thread_to_run (k : Kernel) : Option Nat × Kernel :=
  if list_empty k.ready_list then (k.idle_thread, k)
  else
    match list_pop_front k.ready_list with
    | some (e, rest) => (some e, { k with ready_list := rest })
    | none => (none, k)

/-- The function `schedule`: picks `next`, asserts `curr->status != THREAD_RUNNING` and
`is_thread (next)`, marks `next` running, restarts the time slice and, when
`curr != next`, queues a dying `curr` (unless it is `initial_thread`) on
`destruction_req` and switches to `next`. -/
def schedule (k : Kernel) : Option Kernel :=
  let curr := k.running
  match next_thread_to_run k with
  | (none, _) => none
  | (some next, k1) =>
    if (k1.threads curr).status = THREAD_RUNNING then none
    else
      let k2 := k1.set_status next THREAD_RUNNING
      let k3 : Kernel := { k2 with thread_ticks := 0 }
      if curr ≠ next then
        let k4 : Kernel :=
          if (k3.threads curr).status = THREAD_DYING ∧ curr ≠ k3.initial_thread then
            { k3 with destruction_req := list_push_back k3.destruction_req curr }
          else k3
        some { k4 with running := next }
      else some k3

/-- The function `do_schedule`: asserts that the current thread is running, frees every
page queued on `destruction_req`, sets the current thread's status and calls `schedule`. -/
def do_schedule (k : Kernel) (status : thread_status) : Option Kernel :=
  match thread_current k with
  | none => none
  | some cur =>
    let k1 : Kernel := { k with freed := k.freed ++ k.destruction_req, destruction_req := [] }
    schedule (k1.set_status cur status)

/-- The function `thread_block`: `thread_current ()->status = THREAD_BLOCKED; schedule ()`. -/
def thread_block (k : Kernel) : Option Kernel :=
  match thread_current k with
  | none => none
  | some cur => schedule (k.set_status cur THREAD_BLOCKED)

/-- The function `thread_yield`: unless the current thread is the idle thread, inserts it
in the ready list by priority; then `do_schedule (THREAD_READY)`. -/
def thread_yield (k : Kernel) : Option Kernel :=
  match thread_current k with
  | none => none
  | some curr =>
    let k1 : Kernel :=
      if some curr ≠ k.idle_thread then
        { k with ready_list := list_insert_ordered (thread_compare_priority k) curr k.ready_list }
      else k
    do_schedule k1 THREAD_READY

/-- The function `thread_preemption`: when the ready list is not empty and the current
thread's priority is below that of the thread at its front, `thread_yield ()`. -/
def thread_preemption (k : Kernel) : Option Kernel :=
  if list_empty k.ready_list then some k
  else
    match thread_current k, list_front k.ready_list with
    | some cur, some front =>
      if (k.threads cur).priority < (k.threads front).priority then thread_yield k
      else some k
    | _, _ => none

/-- The function `refresh_priority`: resets the current thread's priority to
`init_priority`; when its donations list is not empty, sorts the list with
`thread_compare_donate_priority` and takes the front donor's priority if it is higher. -/
def refresh_priority (k : Kernel) : Option Kernel :=
  match thread_current k with
  | none => none
  | some cur =>
    let k1 := k.set_priority cur (k.threads cur).init_priority
    if list_empty (k1.threads cur).donations then some k1
    else
      let k2 := k1.modify cur (fun r =>
        { r with donations := list_sort (thread_compare_donate_priority k1) r.donations })
      match list_front (k2.threads cur).donations with
      | none => none
      | some front =>
        if (k2.threads cur).priority < (k2.threads front).priority then
          some (k2.set_priority cur (k2.threads front).priority)
        else some k2

/-- The loop of `donate_priority`, with `depth` iterations left: stop when `cur` awaits no
lock; otherwise `holder->priority = cur->priority; cur = holder`.  A lock without holder
makes `holder` NULL, and the assignment a NULL dereference (`none`). -/
def donate_priority_loop : Nat → Kernel → Nat → Option Kernel
  | 0, k, _ => some k
  | depth + 1, k, cur =>
    match (k.threads cur).wait_lock with
    | none => some k
    | some l =>
      match (k.locks l).holder with
      | none => none
      | some holder =>
        donate_priority_loop depth (k.set_priority holder (k.threads cur).priority) holder

/-- The function `donate_priority`: the loop `for (depth = 0; depth < 8; depth++)` from
`thread_current ()`. -/
def donate_priority (k : Kernel) : Option Kernel :=
  match thread_current k with
  | none => none
  | some cur => donate_priority_loop 8 k cur

/-- The function `thread_set_priority`: sets the current thread's `init_priority`, then
`refresh_priority ()` and `thread_preemption ()`. -/
def thread_set_priority (k : Kernel) (new_priority : Int) : Option Kernel :=
  match thread_current k with
  | none => none
  | some cur =>
    match refresh_priority (k.modify cur (fun r => { r with init_priority := new_priority })) with
    | none => none
    | some k2 => thread_preemption k2

/-- The function `thread_get_priority`. -/
def thread_get_priority (k : Kernel) : Option Int :=
  (thread_current k).map (fun cur => (k.threads cur).priority)

/-- The function `init_thread`: asserts `PRI_MIN <= priority <= PRI_MAX`, zeroes the page
and sets status, priority, `init_priority`, `wait_lock` and the empty donations list. -/
def init_thread (k : Kernel) (t : Nat) (priority : Int) : Option Kernel :=
  if PRI_MIN ≤ priority ∧ priority ≤ PRI_MAX then
    let r : thread :=
      { tid := 0, status := THREAD_BLOCKED, priority := priority, wakeup := 0,
        init_priority := priority, wait_lock := none, donations := [] }
    some { k with threads := Function.update k.threads t r }
  else none

/-- Error value for `tid_t`. -/
def TID_ERROR : Int := -1

/-- The function `thread_create`; `page` is what `palloc_get_page (PAL_ZERO)` returns
(`none` is NULL).  Initialises the thread, gives it the next tid, unblocks it and calls
`thread_preemption`.  Returns the state and the tid. -/
def thread_create (k : Kernel) (page : Option Nat) (priority : Int) : Option (Kernel × Int) :=
  match page with
  | none => some (k, TID_ERROR)
  | some t =>
    match init_thread k t priority with
    | none => none
    | some k1 =>
      let tid := k1.next_tid
      let k1t := k1.modify t (fun r => { r with tid := tid })
      let k2 : Kernel := { k1t with next_tid := tid + 1 }
      match thread_unblock k2 t with
      | none => none
      | some k3 =>
        match thread_preemption k3 with
        | none => none
        | some k4 => some (k4, tid)

/-- The function `thread_sleep`: asserts that the current thread is not the idle thread,
stores the wake-up tick, appends the thread to the sleep list and blocks. -/
def thread_sleep (k : Kernel) (ticks : Int) : Option Kernel :=
  match thread_current k with
  | none => none
  | some cur =>
    if some cur = k.idle_thread then none
    else
      let k1 := k.modify cur (fun r => { r with wakeup := ticks })
      thread_block { k1 with sleep_list := list_push_back k1.sleep_list cur }

/-- The loop of `thread_awake` over the elements from the cursor to the end of the sleep
list: a thread whose `wakeup <= ticks` is removed from the sleep list and unblocked, the
cursor moving to the element `list_remove` returns; otherwise the cursor moves on. -/
def thread_awake_loop (ticks : Int) : List Nat → Kernel → Option Kernel
  | [], k => some k
  | t :: rest, k =>
    if (k.threads t).wakeup ≤ ticks then
      match thread_unblock { k with sleep_list := k.sleep_list.erase t } t with
      | none => none
      | some k1 => thread_awake_loop ticks rest k1
    else thread_awake_loop ticks rest k

/-- The function `thread_awake`. -/
def thread_awake (k : Kernel) (ticks : Int) : Option Kernel :=
  thread_awake_loop ticks k.sleep_list k

/-- Modelled from the spec: `lock_acquire` of `threads/synch.c`, which is not among the
sources.  "If `L.holder` exists and current != holder, record `L` in `wait_lock`, add
current to `holder.donors`, and donate"; then `down(L.sem)`, which blocks while the lock
is held; a free lock is taken at once: "Clear `wait_lock`; set `L.holder = current`".
The donors are kept "ordered by donor priority desc". -/
def lock_acquire (k : Kernel) (l : Nat) : Option Kernel :=
  match thread_current k with
  | none => none
  | some cur =>
    match (k.locks l).holder with
    | none =>
      let k1 := k.modify cur (fun r => { r with wait_lock := none })
      some { k1 with locks := Function.update k1.locks l { holder := some cur } }
    | some holder =>
      if holder = cur then none
      else
        let k1 := k.modify cur (fun r => { r with wait_lock := some l })
        let k2 := k1.modify holder (fun r =>
          { r with donations :=
              list_insert_ordered (thread_compare_donate_priority k1) cur r.donations })
        match donate_priority k2 with
        | none => none
        | some k3 => thread_block k3

/-! ## The donations list as linked cells

`remove_with_lock` unlinks elements of the list it is walking, so it is embedded on the
cells themselves: every `struct list_elem` with its `prev` and `next` pointers. -/

/-- A pointer to a `struct list_elem`: the `d_elem` of the thread at an address, or the
head or tail sentinel of the `donations` list of the thread at an address. -/
inductive elem_ptr where
  | d_elem (t : Nat)
  | head (t : Nat)
  | tail (t : Nat)
  deriving DecidableEq, Repr

/-- A `struct list_elem`: its `prev` and `next` pointers (`none` is NULL). -/
structure list_elem where
  prev : Option elem_ptr
  next : Option elem_ptr
  deriving DecidableEq, Repr

/-- The memory that holds the list elements. -/
abbrev LinkMem := elem_ptr → list_elem

/-- Modelled from the spec: `list_begin` of the kernel list library (missing):
`list->head.next`, for the donations list of the thread `owner`. -/
def list_begin (m : LinkMem) (owner : Nat) : Option elem_ptr := (m (elem_ptr.head owner)).next

/-- Modelled from the spec: `list_end` of the kernel list library (missing): `&list->tail`. -/
def list_end (owner : Nat) : elem_ptr := elem_ptr.tail owner

/-- Modelled from the spec: `list_next` of the kernel list library (missing): `elem->next`. -/
def list_next (m : LinkMem) (e : elem_ptr) : Option elem_ptr := (m e).next

/-- Modelled from the spec: `list_remove` of the kernel list library (missing), for an
interior element: `elem->prev->next = elem->next; elem->next->prev = elem->prev;
return elem->next;`.  The cell of `elem` itself keeps its pointers. -/
def list_remove (m : LinkMem) (e : elem_ptr) : Option (LinkMem × elem_ptr) :=
  match (m e).prev, (m e).next with
  | some p, some _ =>
    let m1 := Function.update m p { m p with next := (m e).next }
    match (m1 e).next with
    | none => none
    | some n =>
      let m2 := Function.update m1 n { m1 n with prev := (m1 e).prev }
      (m2 e).next.map (fun r => (m2, r))
  | _, _ => none

/-- The loop of `remove_with_lock` from the cursor `e`, over the donations list of `owner`:
`for (..; e != list_end (..); e = list_next (e))` with the body
`if (t->wait_lock == lock) list_remove (&t->d_elem);`.  `fuel` bounds the iterations
(`none` when it runs out); `list_entry` of a sentinel is an error. -/
def remove_with_lock_loop (k : Kernel) (lock : Nat) (owner : Nat) :
    Nat → LinkMem → elem_ptr → Option LinkMem
  | 0, _, _ => none
  | fuel + 1, m, e =>
    if e = list_end owner then some m
    else
      match e with
      | elem_ptr.d_elem t =>
        let body : Option LinkMem :=
          if (k.threads t).wait_lock = some lock then
            (list_remove m (elem_ptr.d_elem t)).map Prod.fst
          else some m
        match body with
        | none => none
        | some m1 =>
          match list_next m1 e with
          | none => none
          | some e1 => remove_with_lock_loop k lock owner fuel m1 e1
      | _ => none

/-- Link the cells `p, q1, q2, ..` in this order: `p.next = q1`, `q1.prev = p`, and so on. -/
def link_cells : elem_ptr → List elem_ptr → LinkMem → LinkMem
  | _, [], m => m
  | p, q :: qs, m =>
    let m1 := Function.update m p { m p with next := some q }
    let m2 := Function.update m1 q { m1 q with prev := some p }
    link_cells q qs m2

/-- The cells of the donations list of `owner` that holds the donors `l`, front first:
head sentinel, the donors' `d_elem`s, tail sentinel. -/
def donations_cells (owner : Nat) (l : List Nat) : LinkMem :=
  link_cells (elem_ptr.head owner) (l.map elem_ptr.d_elem ++ [elem_ptr.tail owner])
    (fun _ => { prev := none, next := none })

/-- The donors on the list of `owner`, read by following `next` from `e` to the tail
sentinel (`none` when `fuel` runs out or the cells are not a list). -/
def read_cells (owner : Nat) : Nat → LinkMem → elem_ptr → Option (List Nat)
  | 0, _, _ => none
  | fuel + 1, m, e =>
    if e = elem_ptr.tail owner then some []
    else
      match e with
      | elem_ptr.d_elem t =>
        match (m e).next with
        | none => none
        | some e1 => (read_cells owner fuel m e1).map (fun r => t :: r)
      | _ => none

/-- The function `remove_with_lock`: the loop over the cells of the current thread's
donations list, from `list_begin`; the donors left on the list are read back. -/
def remove_with_lock (k : Kernel) (lock : Nat) : Option Kernel :=
  match thread_current k with
  | none => none
  | some cur =>
    let l := (k.threads cur).donations
    let m := donations_cells cur l
    match list_begin m cur with
    | none => none
    | some e =>
      match remove_with_lock_loop k lock cur (l.length + 1) m e with
      | none => none
      | some m1 =>
        match list_begin m1 cur with
        | none => none
        | some e1 =>
          match read_cells cur (l.length + 1) m1 e1 with
          | none => none
          | some l1 => some (k.modify cur (fun r => { r with donations := l1 }))

/-! ## Specification vocabulary -/

/-- The cells `p, q1, q2, ..` are linked in this order. -/
def Linked (m : LinkMem) : elem_ptr → List elem_ptr → Prop
  | _, [] => True
  | p, q :: qs => (m p).next = some q ∧ (m q).prev = some p ∧ Linked m q qs

/-- The cells `m` hold the donations list of `owner` with the donors `l`, front first. -/
def IsDonations (m : LinkMem) (owner : Nat) (l : List Nat) : Prop :=
  Linked m (elem_ptr.head owner) (l.map elem_ptr.d_elem ++ [elem_ptr.tail owner]) ∧ l.Nodup

/-- The list `l` is sorted by priority, highest first (non-increasing). -/
def sorted_by_priority (k : Kernel) (l : List Nat) : Prop :=
  l.Pairwise (fun a b => k.prio a ≥ k.prio b)

/-- The list `new` is `old` with `t` inserted at the FIFO slot of its priority: after
every element of priority `>=` its own and before every element of lower priority. -/
def at_fifo_slot (k : Kernel) (old new : List Nat) (t : Nat) : Prop :=
  ∃ pre post, old = pre ++ post ∧ new = pre ++ t :: post ∧
    (∀ x ∈ pre, k.prio x ≥ k.prio t) ∧ (∀ x ∈ post, k.prio x < k.prio t)

/-- The head of the ready list has priority `>=` every other thread on it. -/
def head_is_highest (k : Kernel) : Prop :=
  ∀ h rest, k.ready_list = h :: rest → ∀ x ∈ rest, k.prio h ≥ k.prio x

/-- The value `v` is `max (base, highest priority among donors)`, and `base` when there
are no donors. -/
def is_max_priority (k : Kernel) (donors : List Nat) (base v : Int) : Prop :=
  base ≤ v ∧ (∀ d ∈ donors, k.prio d ≤ v) ∧ (v = base ∨ ∃ d ∈ donors, v = k.prio d)

/-- The thread `t` runs in `k2` with the donors, and the donors' priorities, that it has
in `k1`: `k2` is `k1` itself when `t` still runs there, and otherwise a later state in
which `t` has been scheduled again. -/
def resumes (k1 k2 : Kernel) (t : Nat) : Prop :=
  thread_current k2 = some t ∧
    (k2.threads t).donations.Perm (k1.threads t).donations ∧
    ∀ d ∈ (k1.threads t).donations, k2.prio d = k1.prio d

/-- The donors that `remove_with_lock (lock)` must keep: those not waiting for `lock`. -/
def keeps (k : Kernel) (lock : Nat) (t : Nat) : Bool :=
  decide ((k.threads t).wait_lock ≠ some lock)

/-! ## Runs of kernel calls -/

/-- A call made by the running thread (`awake` by the timer interrupt). -/
inductive Call where
  | create (page : Nat) (priority : Int)
  | yield
  | sleep (ticks : Int)
  | awake (ticks : Int)
  | set_priority (p : Int)
  | acquire (l : Nat)
  deriving DecidableEq, Repr

/-- The state after one call. -/
def step (k : Kernel) : Call → Option Kernel
  | Call.create page priority => (thread_create k (some page) priority).map Prod.fst
  | Call.yield => thread_yield k
  | Call.sleep ticks => thread_sleep k ticks
  | Call.awake ticks => thread_awake k ticks
  | Call.set_priority p => thread_set_priority k p
  | Call.acquire l => lock_acquire k l

/-- The state after a sequence of calls. -/
def run (k : Kernel) : List Call → Option Kernel
  | [] => some k
  | c :: cs =>
    match step k c with
    | none => none
    | some k1 => run k1 cs

/-- A thread page as `init_thread` leaves it. -/
def blank_thread : thread :=
  { tid := 0, status := THREAD_BLOCKED, priority := PRI_MIN, wakeup := 0,
    init_priority := PRI_MIN, wait_lock := none, donations := [] }

/-- The state when `thread_start` has returned: "main" (page 1, `PRI_DEFAULT`) runs, the
idle thread (page 2, `PRI_MIN`) has blocked, the lists are empty and no lock is held. -/
def boot : Kernel :=
  { threads := fun t =>
      if t = 1 then
        { blank_thread with tid := 1, status := THREAD_RUNNING, priority := PRI_DEFAULT,
                            init_priority := PRI_DEFAULT }
      else if t = 2 then { blank_thread with tid := 2 }
      else blank_thread
    locks := fun _ => { holder := none }
    ready_list := []
    sleep_list := []
    destruction_req := []
    idle_thread := some 2
    initial_thread := 1
    running := 1
    thread_ticks := 0
    next_tid := 3
    freed := [] }

/-- A thread with the given status, priority, base priority, awaited lock and donors. -/
def mk_thread (s : thread_status) (p base : Int) (w : Option Nat) (ds : List Nat) : thread :=
  { blank_thread with status := s, priority := p, init_priority := base, wait_lock := w,
                      donations := ds }

/-- The priority `refresh_priority` leaves: the base priority, or the priority of the
front donor of the sorted list when that is higher. -/
def refreshed_priority (k : Kernel) (base : Int) (sorted : List Nat) : Int :=
  match sorted with
  | [] => base
  | front :: _ => if base < k.prio front then k.prio front else base

/-! ## The scheduler's lists -/

/-- The scheduler's lists are well formed. -/
def lists_ok (k : Kernel) : Prop :=
  sorted_by_priority k k.ready_list ∧ k.ready_list.Nodup ∧ k.running ∉ k.ready_list ∧
    k.sleep_list.Nodup ∧ (∀ x ∈ k.sleep_list, x ∉ k.ready_list ∧ x ≠ k.running) ∧
    (∀ i, k.idle_thread = some i → i ∉ k.sleep_list)

/-- What a change of running thread leaves alone. -/
def same_but_schedule (k k1 : Kernel) : Prop :=
  k1.sleep_list = k.sleep_list ∧ k1.idle_thread = k.idle_thread ∧ (∀ x, k1.prio x = k.prio x)

/-- A run from `boot` without `lock_acquire`. -/
def lock_free_calls : List Call :=
  [Call.create 3 40, Call.create 4 20, Call.create 5 15, Call.set_priority 5,
   Call.sleep 7, Call.awake 7, Call.yield]

/-- The lists before `schedule` picks the next thread. -/
def lists_pre (k : Kernel) : Prop :=
  sorted_by_priority k k.ready_list ∧ k.ready_list.Nodup ∧ k.sleep_list.Nodup ∧
    (∀ x ∈ k.sleep_list, x ∉ k.ready_list) ∧ (∀ i, k.idle_thread = some i → i ∉ k.sleep_list)

/-- The calls `cs`, made from `k`, contain no `lock_acquire`, and every `thread_create`
gets a page that is neither the running thread nor on the ready or the sleep list. -/
def lock_free_run : Kernel → List Call → Bool
  | _, [] => true
  | k, c :: cs =>
    (match c with
      | Call.acquire _ => false
      | Call.create page _ =>
        decide (page ≠ k.running ∧ page ∉ k.ready_list ∧ page ∉ k.sleep_list)
      | _ => true) &&
    (match step k c with
      | none => true
      | some k1 => lock_free_run k1 cs)

/-! ## Concrete states -/

/-- A state with the ready list `11 (40), 12 (31), 13 (20)` and the blocked thread `14`
of priority 31; "main" runs. -/
def demo_ready : Kernel :=
  { boot with
    threads := fun t =>
      if t = 1 then mk_thread THREAD_RUNNING 31 31 none []
      else if t = 11 then mk_thread THREAD_READY 40 40 none []
      else if t = 12 then mk_thread THREAD_READY 31 31 none []
      else if t = 13 then mk_thread THREAD_READY 20 20 none []
      else if t = 14 then mk_thread THREAD_BLOCKED 31 31 none []
      else blank_thread
    ready_list := [11, 12, 13] }

/-- A run from `boot`: "main" creates thread 3 (priority 40), which runs, takes lock 0,
creates threads 4 (20) and 5 (15) and lowers itself to priority 5; "main" (31) runs again
and waits for lock 0, donating to thread 3, which is on the ready list behind 4 and 5. -/
def inversion_calls : List Call :=
  [Call.create 3 40, Call.acquire 0, Call.create 4 20, Call.create 5 15,
   Call.set_priority 5, Call.acquire 0]

/-- A run from `boot`: "main" (31) takes lock 0, creates thread 3 (priority 30) and
sleeps; thread 3 runs and waits for lock 0. -/
def lowering_calls : List Call :=
  [Call.acquire 0, Call.create 3 30, Call.sleep 100, Call.acquire 0]

/-- The state in which `lock_acquire` calls `donate_priority` in `lowering_calls`: thread
3 (priority 30) runs and awaits lock 0, held by the sleeping "main" (priority 31). -/
def donate_low : Kernel :=
  { boot with
    threads := fun t =>
      if t = 1 then { mk_thread THREAD_BLOCKED 31 31 none [3] with tid := 1, wakeup := 100 }
      else if t = 2 then { blank_thread with tid := 2 }
      else if t = 3 then { mk_thread THREAD_RUNNING 30 30 (some 0) [] with tid := 3 }
      else blank_thread
    locks := fun l => if l = 0 then { holder := some 1 } else { holder := none }
    sleep_list := [1]
    running := 3
    next_tid := 4 }

/-- A state in which the running "main" (base priority 31, priority 40) has the donors
21 (priority 35), 22 and 23 (priority 45), all waiting for lock 0, which "main" holds;
thread 31 (priority 48) is ready. -/
def demo_donors : Kernel :=
  { boot with
    threads := fun t =>
      if t = 1 then mk_thread THREAD_RUNNING 40 31 none [21, 22, 23]
      else if t = 21 then mk_thread THREAD_BLOCKED 35 35 (some 0) []
      else if t = 22 then mk_thread THREAD_BLOCKED 45 45 (some 0) []
      else if t = 23 then mk_thread THREAD_BLOCKED 45 45 (some 0) []
      else if t = 31 then mk_thread THREAD_READY 48 48 none []
      else blank_thread
    locks := fun l => if l = 0 then { holder := some 1 } else { holder := none }
    ready_list := [31] }

/-- A state in which the running "main" holds locks 0 and 5 and has the donors 21, 22
(waiting for lock 0), 23 (waiting for lock 5) and 24 (waiting for lock 0). -/
def demo_two_locks : Kernel :=
  { boot with
    threads := fun t =>
      if t = 1 then mk_thread THREAD_RUNNING 45 31 none [21, 22, 23, 24]
      else if t = 21 then mk_thread THREAD_BLOCKED 45 45 (some 0) []
      else if t = 22 then mk_thread THREAD_BLOCKED 40 40 (some 0) []
      else if t = 23 then mk_thread THREAD_BLOCKED 35 35 (some 5) []
      else if t = 24 then mk_thread THREAD_BLOCKED 33 33 (some 0) []
      else blank_thread
    locks := fun l => if l = 0 ∨ l = 5 then { holder := some 1 } else { holder := none } }

/-! ## `devices/timer.c` and the tick accounting of `thread.c`

`timer.h` and `interrupt.c` are not among the sources: `TIMER_FREQ` is a parameter, and
`intr_yield_on_return ()` is the assignment of the flag the interrupt epilogue reads. -/

/-- The machine: the kernel state of `thread.c`, the static variables `ticks` and
`loops_per_tick` of `timer.c`, the statistics counters of `thread.c`, the field `pml4` of
each thread (by thread address; `none` is NULL) and the flag that
`intr_yield_on_return ()` sets.  `ticks` and the statistics are counted up by one per
interrupt, from 0, and are kept as unbounded integers. -/
structure Machine where
  kernel : Kernel
  ticks : Int
  loops_per_tick : Nat
  idle_ticks : Int
  kernel_ticks : Int
  user_ticks : Int
  pml4 : Nat → Option Nat
  yield_on_return : Bool

/-- Number of timer ticks to give each thread (`#define TIME_SLICE 4`). -/
def TIME_SLICE : Nat := 4

/-- The sum of two `int64_t`; a signed overflow is undefined behaviour (`none`). -/
def int64_add (a b : Int) : Option Int :=
  if -(2 : Int) ^ 63 ≤ a + b ∧ a + b < (2 : Int) ^ 63 then some (a + b) else none

/-- The PIT count of `timer_init`: `uint16_t count = (1193180 + TIMER_FREQ / 2) / TIMER_FREQ`,
the quotient truncated to 16 bits. -/
def pit_count (timer_freq : Nat) : Nat :=
  ((1193180 + timer_freq / 2) / timer_freq) % 2 ^ 16

/-- The writes `outb (port, value)` of `timer_init`, in program order, as pairs of port and
byte: the control word, then `count & 0xff` and `count >> 8` (an `outb` value is a
`uint8_t`). -/
def timer_init (timer_freq : Nat) : List (Nat × Nat) :=
  let count := pit_count timer_freq
  [(0x43, 0x34), (0x40, (count &&& 0xff) % 2 ^ 8), (0x40, (count >>> 8) % 2 ^ 8)]

/-- The first loop of `timer_calibrate`, with `fuel` iterations left:
`while (!too_many_loops (loops_per_tick << 1)) { loops_per_tick <<= 1;
ASSERT (loops_per_tick != 0); }` on `unsigned`.  The result of `too_many_loops` depends
on timing and is the parameter `too_many`.  `none` is a failed assertion (or no fuel). -/
def timer_calibrate_double (too_many : Nat → Bool) : Nat → Nat → Option Nat
  | 0, _ => none
  | fuel + 1, loops_per_tick =>
    if !too_many ((loops_per_tick <<< 1) % 2 ^ 32) then
      let loops_per_tick1 := (loops_per_tick <<< 1) % 2 ^ 32
      if loops_per_tick1 ≠ 0 then timer_calibrate_double too_many fuel loops_per_tick1
      else none
    else some loops_per_tick

/-- The second loop of `timer_calibrate`, with `fuel` iterations left:
`for (..; test_bit != high_bit >> 10; test_bit >>= 1)
if (!too_many_loops (high_bit | test_bit)) loops_per_tick |= test_bit;`. -/
def timer_calibrate_refine (too_many : Nat → Bool) (high_bit : Nat) : Nat → Nat → Nat → Option Nat
  | 0, _, _ => none
  | fuel + 1, test_bit, loops_per_tick =>
    if test_bit ≠ high_bit >>> 10 then
      let loops_per_tick1 :=
        if !too_many (high_bit ||| test_bit) then loops_per_tick ||| test_bit
        else loops_per_tick
      timer_calibrate_refine too_many high_bit fuel (test_bit >>> 1) loops_per_tick1
    else some loops_per_tick

/-- The function `timer_calibrate`: from `loops_per_tick = 1u << 10`, the doubling loop,
then the refining loop from `test_bit = high_bit >> 1`.  An `unsigned` has 32 bits, so no
loop has more than 32 iterations. -/
def timer_calibrate (too_many : Nat → Bool) (m : Machine) : Option Machine :=
  match timer_calibrate_double too_many 32 (1 <<< 10) with
  | none => none
  | some high_bit =>
    match timer_calibrate_refine too_many high_bit 32 (high_bit >>> 1) high_bit with
    | none => none
    | some loops_per_tick => some { m with loops_per_tick := loops_per_tick }

/-- The function `timer_ticks`. -/
def timer_ticks (m : Machine) : Int := m.ticks

/-- The function `timer_sleep`: `thread_sleep (start + ticks)` with `start = timer_ticks ()`. -/
def timer_sleep (m : Machine) (ticks : Int) : Option Machine :=
  let start := timer_ticks m
  match int64_add start ticks with
  | none => none
  | some wake => (thread_sleep m.kernel wake).map (fun k => { m with kernel := k })

/-- The statistics update of `thread_tick` for the current thread `t`:
`idle_ticks++` for the idle thread, `user_ticks++` for a thread with a `pml4`,
`kernel_ticks++` otherwise. -/
def update_statistics (m : Machine) (t : Nat) : Machine :=
  if some t = m.kernel.idle_thread then { m with idle_ticks := m.idle_ticks + 1 }
  else if (m.pml4 t).isSome then { m with user_ticks := m.user_ticks + 1 }
  else { m with kernel_ticks := m.kernel_ticks + 1 }

/-- The function `thread_tick`: updates the statistics for the current thread, then
`if (++thread_ticks >= TIME_SLICE) intr_yield_on_return ();` on the `unsigned`
counter `thread_ticks`. -/
def thread_tick (m : Machine) : Option Machine :=
  match thread_current m.kernel with
  | none => none
  | some t =>
    let m1 := update_statistics m t
    let n := (m1.kernel.thread_ticks + 1) % 2 ^ 32
    let m2 : Machine := { m1 with kernel := { m1.kernel with thread_ticks := n } }
    if n ≥ TIME_SLICE then some { m2 with yield_on_return := true } else some m2

/-- The statements of `timer_interrupt`, in program order: `ticks++;`, `thread_tick ();`,
`thread_awake (ticks);`. -/
def timer_interrupt_body : List (Machine → Option Machine) :=
  [fun m => some { m with ticks := m.ticks + 1 },
   thread_tick,
   fun m => (thread_awake m.kernel m.ticks).map (fun k => { m with kernel := k })]

/-- The states after each statement of a statement list run from `m`, in order. -/
def exec_trace : List (Machine → Option Machine) → Machine → Option (List Machine)
  | [], _ => some []
  | s :: rest, m =>
    match s m with
    | none => none
    | some m1 => (exec_trace rest m1).map (fun r => m1 :: r)

/-- The state after a statement list run from `m`. -/
def exec : List (Machine → Option Machine) → Machine → Option Machine
  | [], m => some m
  | s :: rest, m =>
    match s m with
    | none => none
    | some m1 => exec rest m1

/-- The function `timer_interrupt`, the handler of the timer interrupt. -/
def timer_interrupt (m : Machine) : Option Machine := exec timer_interrupt_body m

/-- The state after `n` timer interrupts in a row; a yield requested by `thread_tick` stays
pending. -/
def timer_interrupts : Nat → Machine → Option Machine
  | 0, m => some m
  | n + 1, m =>
    match timer_interrupt m with
    | none => none
    | some m1 => timer_interrupts n m1

/-- The machine when `thread_start` has returned, before the first timer interrupt. -/
def boot_machine : Machine :=
  { kernel := boot, ticks := 0, loops_per_tick := 0, idle_ticks := 0, kernel_ticks := 0,
    user_ticks := 0, pml4 := fun _ => none, yield_on_return := false }

/-- The state after `n` calls of `thread_tick` in a row: `n` timer ticks of a thread that
runs without a call of `schedule`. -/
def thread_ticks_run : Nat → Machine → Option Machine
  | 0, m => some m
  | n + 1, m =>
    match thread_tick m with
    | none => none
    | some m1 => thread_ticks_run n m1

/-- The machine in which the idle thread has just been scheduled: "main" has blocked. -/
def idle_scheduled : Machine :=
  { boot_machine with
    kernel := match schedule (boot.set_status 1 THREAD_BLOCKED) with
              | some k => k
              | none => boot }

/-- The threads after `thread_awake (now)` has gone through the elements `rest` of the
sleep list: those with `wakeup <= now` are ready. -/
def awake_threads (k : Kernel) (now : Int) (rest : List Nat) : Nat → thread :=
  fun x =>
    if x ∈ rest ∧ (k.threads x).wakeup ≤ now then { k.threads x with status := THREAD_READY }
    else k.threads x

/-- The sleep list is well formed: no element is linked twice, and the threads on it are
blocked. -/
def sleepers_ok (k : Kernel) : Prop :=
  k.sleep_list.Nodup ∧ ∀ t ∈ k.sleep_list, (k.threads t).status = THREAD_BLOCKED

/-- The state after a sequence of `timer_sleep` calls, each made by the thread that runs
then. -/
def timer_sleeps : List Int → Machine → Option Machine
  | [], m => some m
  | d :: ds, m =>
    match timer_sleep m d with
    | none => none
    | some m1 => timer_sleeps ds m1

/-- The machine at tick 0 in which three threads of priority 31 exist, "main" and the
threads 3 and 4 that it has created; "main" runs and the threads 3 and 4 are ready. -/
def three_threads : Machine :=
  { boot_machine with
    kernel := match run boot [Call.create 3 31, Call.create 4 31] with
              | some k => k
              | none => boot }

/-- The machine at tick 1 in which "main" runs. -/
def tick_one : Machine := { boot_machine with ticks := 1 }

/-- A state with the sleep list `3, 4, 5, 6` (wake-up ticks 10, 5, 12, 7; priorities 31,
20, 31, 40) and the ready list `11 (40), 12 (31), 13 (20)`. -/
def demo_sleepers : Kernel :=
  { demo_ready with
    threads := fun t =>
      if t = 3 then { mk_thread THREAD_BLOCKED 31 31 none [] with wakeup := 10 }
      else if t = 4 then { mk_thread THREAD_BLOCKED 20 20 none [] with wakeup := 5 }
      else if t = 5 then { mk_thread THREAD_BLOCKED 31 31 none [] with wakeup := 12 }
      else if t = 6 then { mk_thread THREAD_BLOCKED 40 40 none [] with wakeup := 7 }
      else demo_ready.threads t
    sleep_list := [3, 4, 5, 6] }

/-- The threshold model of `too_many_loops`: `loops` iterations take more than one tick
exactly when `loops > T`. -/
def too_many_above (T : Nat) : Nat → Bool := fun loops => decide (T < loops)

/-- The statements of `timer_interrupt` with the last two exchanged: `ticks++;`,
`thread_awake (ticks);`, `thread_tick ();`. -/
def awake_first_body : List (Machine → Option Machine) :=
  [fun m => some { m with ticks := m.ticks + 1 },
   fun m => (thread_awake m.kernel m.ticks).map (fun k => { m with kernel := k }),
   thread_tick]

/-- The machine at tick 3 in which the idle thread has run for 3 ticks and "main" sleeps
until tick 4. -/
def slice_end : Machine :=
  match (timer_sleep boot_machine 4).bind (timer_interrupts 3) with
  | some m => m
  | none => boot_machine

/-! ## `userprog/process.c`: the command line and the argument stack

User memory is the byte at each address; `mapped` tells the addresses that are mapped in
the current address space, and a write to an address that is not mapped is a page fault
(`none`).  A C string is the list of its bytes before the terminating NUL. -/

/-- The fields of `struct intr_frame` that `argument_stack` reads and writes: `rsp`,
`R.rdi` and `R.rsi`, each 64 bits wide. -/
structure intr_frame where
  rsp : Nat
  rdi : Nat
  rsi : Nat
  deriving DecidableEq, Repr

/-- User memory. -/
abbrev Memory := Nat → Nat

/-- The difference `a - b` of two `uint64_t`. -/
def sub64 (a b : Nat) : Nat := (a + 2 ^ 64 - b % 2 ^ 64) % 2 ^ 64

/-- Modelled from the spec: `strlen` of the C library (`lib/string.c` is missing): the
number of bytes before the first NUL. -/
def strlen (s : List Nat) : Nat := (s.takeWhile (fun b => decide (b ≠ 0))).length

/-- Modelled from the spec: the bytes `memcpy (dst, s, strlen (s) + 1)` copies from the C
string `s`: the bytes before the first NUL, and a NUL. -/
def c_string (s : List Nat) : List Nat := s.takeWhile (fun b => decide (b ≠ 0)) ++ [0]

/-- Modelled from the spec: `memcpy` and `memset` of the C library (`lib/string.c` is
missing), as the write of the bytes `bs` to the addresses from `a` on, lowest first; a
write to an address that is not mapped faults. -/
def write_bytes (mapped : Nat → Bool) : Memory → Nat → List Nat → Option Memory
  | mem, _, [] => some mem
  | mem, a, b :: bs =>
    if mapped a then write_bytes mapped (Function.update mem a b) ((a + 1) % 2 ^ 64) bs
    else none

/-- The `n` bytes of the value `v` in memory order (little-endian). -/
def le_bytes : Nat → Nat → List Nat
  | 0, _ => []
  | n + 1, v => v % 256 :: le_bytes n (v / 256)

/-- The value of the `n` bytes at `a`, read little-endian. -/
def read_le (mem : Memory) : Nat → Nat → Nat
  | 0, _ => 0
  | n + 1, a => mem a + 256 * read_le mem n (a + 1)

/-- The `n` bytes at `a`, lowest address first. -/
def read_bytes (mem : Memory) (a n : Nat) : List Nat := (List.range n).map (fun j => mem (a + j))

/-- The state of `argument_stack`: the frame `*if_`, user memory and the local array
`argv_address` (`none` is an element not yet assigned). -/
structure ArgState where
  frame : intr_frame
  mem : Memory
  argv_address : Nat → Option Nat

/-- The first loop of `argument_stack`, for the indices `i - 1, .., 0`:
`if (argv[i] == NULL) continue;` and otherwise the string is copied below `rsp` and its
address stored in `argv_address[i]`, an array of 128 elements (an index out of bounds is
`none`). -/
def push_strings (mapped : Nat → Bool) (argv : Nat → Option (List Nat)) :
    Nat → ArgState → Option ArgState
  | 0, st => some st
  | i + 1, st =>
    match argv i with
    | none => push_strings mapped argv i st
    | some s =>
      let len := strlen s
      let rsp := sub64 st.frame.rsp ((len + 1) % 2 ^ 64)
      match write_bytes mapped st.mem rsp (c_string s) with
      | none => none
      | some mem1 =>
        if i < 128 then
          push_strings mapped argv i
            { frame := { st.frame with rsp := rsp }, mem := mem1,
              argv_address := Function.update st.argv_address i (some rsp) }
        else none

/-- The second loop of `argument_stack`, with `fuel` iterations left:
`while (rsp % 8 != 0) { rsp--; memset (rsp, 0, sizeof (uint8_t)); }`. -/
def align_stack (mapped : Nat → Bool) : Nat → ArgState → Option ArgState
  | 0, _ => none
  | fuel + 1, st =>
    if st.frame.rsp % 8 ≠ 0 then
      let rsp := sub64 st.frame.rsp 1
      match write_bytes mapped st.mem rsp [0] with
      | none => none
      | some mem1 =>
        align_stack mapped fuel { st with frame := { st.frame with rsp := rsp }, mem := mem1 }
    else some st

/-- The third loop of `argument_stack`, for the indices `i - 1, .., 0`: `rsp` goes down
by 8; for the index `argc` eight zero bytes are written, for any other index the eight
bytes of `argv_address[i]` (out of bounds, or not assigned: `none`). -/
def push_pointers (mapped : Nat → Bool) (argc : Int) : Nat → ArgState → Option ArgState
  | 0, st => some st
  | i + 1, st =>
    let rsp := sub64 st.frame.rsp 8
    let word : Option (List Nat) :=
      if (i : Int) = argc then some (List.replicate 8 0)
      else if i < 128 then (st.argv_address i).map (le_bytes 8)
      else none
    match word with
    | none => none
    | some bs =>
      match write_bytes mapped st.mem rsp bs with
      | none => none
      | some mem1 =>
        push_pointers mapped argc i { st with frame := { st.frame with rsp := rsp }, mem := mem1 }

/-- The function `argument_stack`: the strings `argv[argc - 1], .., argv[0]`, the padding
to a multiple of 8, the NULL pointer and the addresses of the strings, the fake return
address, and the registers `rdi = argc` and `rsi = rsp + 8`. -/
def argument_stack (mapped : Nat → Bool) (if_ : intr_frame) (mem : Memory)
    (argv : Nat → Option (List Nat)) (argc : Int) : Option (intr_frame × Memory) :=
  match push_strings mapped argv argc.toNat
      { frame := if_, mem := mem, argv_address := fun _ => none } with
  | none => none
  | some st1 =>
    match align_stack mapped 8 st1 with
    | none => none
    | some st2 =>
      match push_pointers mapped argc (argc + 1).toNat st2 with
      | none => none
      | some st3 =>
        let rsp := sub64 st3.frame.rsp 8
        match write_bytes mapped st3.mem rsp (List.replicate 8 0) with
        | none => none
        | some mem4 =>
          some ({ rsp := rsp, rdi := (argc % 2 ^ 64).toNat, rsi := (rsp + 8) % 2 ^ 64 }, mem4)

/-- Modelled from the spec: one call of `strtok_r (.., " ", &save_ptr)` of the C library
(`lib/string.c` is missing) on the rest of the command line: "tokenization splits on
ASCII spaces".  Leading spaces are skipped; the token is the run of bytes up to the next
space, which is overwritten with NUL, and the rest starts after it.  `none` is NULL: no
token is left. -/
def strtok_r (rest : List Nat) : Option (List Nat × List Nat) :=
  match rest.dropWhile (fun b => decide (b = 32)) with
  | [] => none
  | b :: bs =>
    some ((b :: bs).takeWhile (fun c => decide (c ≠ 32)),
          ((b :: bs).dropWhile (fun c => decide (c ≠ 32))).tail)

/-- The loop of `process_exec` that fills `argv`, with `fuel` iterations left:
`while (token != NULL) { argv[argc] = token; token = strtok_r (..); argc++; }`; `argv` is
an array of 128 elements (an index out of bounds is `none`). -/
def tokenize_loop : Nat → Option (List Nat × List Nat) → (Nat → Option (List Nat)) → Int →
    Option ((Nat → Option (List Nat)) × Int)
  | 0, _, _, _ => none
  | fuel + 1, token, argv, argc =>
    match token with
    | none => some (argv, argc)
    | some (tok, rest) =>
      if 0 ≤ argc ∧ argc < 128 then
        tokenize_loop fuel (strtok_r rest) (Function.update argv argc.toNat (some tok))
          (argc + 1)
      else none

/-- The command-line parsing of `process_exec` on the bytes of `file_name` (before its
NUL): `argv` (`none` is an element not assigned) and `argc`.  Every token takes at least
one byte of the line, so the loop has at most `length + 1` iterations. -/
def tokenize (file_name : List Nat) : Option ((Nat → Option (List Nat)) × Int) :=
  tokenize_loop (file_name.length + 1) (strtok_r file_name) (fun _ => none) 0

/-- The part of `process_exec` after a successful `load`, which has set `if_.rsp`: the
command line is parsed (before `load`) and `argument_stack` is called. -/
def process_exec_stack (mapped : Nat → Bool) (if_ : intr_frame) (mem : Memory)
    (file_name : List Nat) : Option (intr_frame × Memory) :=
  match tokenize file_name with
  | none => none
  | some (argv, argc) => argument_stack mapped if_ mem argv argc

/-- The bytes of an ASCII string. -/
def ascii (s : String) : List Nat := s.toList.map Char.toNat

/-- The top of the user stack of KAIST PintOS (`USER_STACK` of `threads/vaddr.h`, which
is missing): page-aligned. -/
def USER_STACK : Nat := 0x47480000

/-- Size of a page. -/
def PGSIZE : Nat := 4096

/-- The stack page that `setup_stack` maps: `USER_STACK - PGSIZE` up to `USER_STACK`. -/
def stack_page (a : Nat) : Bool := decide (USER_STACK - PGSIZE ≤ a ∧ a < USER_STACK)

/-- The bytes that the strings `argv[0], .., argv[i - 1]` take on the stack
(`strlen + 1` each; nothing for a NULL element). -/
def strings_below (argv : Nat → Option (List Nat)) : Nat → Nat
  | 0 => 0
  | i + 1 =>
    strings_below argv i +
      (match argv i with
       | none => 0
       | some s => strlen s + 1)

/-- The array `argv` that holds the tokens `ts`, and NULL from the index `ts.length` on. -/
def argv_of (ts : List (List Nat)) : Nat → Option (List Nat) := fun i => ts[i]?

/-- The frame with which `process_exec` calls `argument_stack` after `load`:
`rsp = USER_STACK`. -/
def echo_frame : intr_frame := { rsp := USER_STACK, rdi := 0, rsi := 0 }

/-- The address below which `argument_stack` puts the strings: `rsp` less their sizes. -/
def strings_start (rsp : Nat) (argv : Nat → Option (List Nat)) (n : Nat) : Nat :=
  rsp - strings_below argv n

/-- The value `x` rounded down to a multiple of 8. -/
def round_down8 (x : Nat) : Nat := x - x % 8

/-- The stack pointer that `argument_stack` leaves for `n` arguments: below the strings,
rounded down to a multiple of 8, less `n + 1` pointers and the fake return address. -/
def final_rsp (rsp : Nat) (argv : Nat → Option (List Nat)) (n : Nat) : Nat :=
  round_down8 (strings_start rsp argv n) - 8 * (n + 2)

/-- The bytes that the tokens `ts` take on the stack, each with its NUL. -/
def tokens_size (ts : List (List Nat)) : Nat := (ts.map (fun t => t.length + 1)).sum

/-- The tokens of the command line `echo x y z`. -/
def echo_tokens : List (List Nat) := [ascii "echo", ascii "x", ascii "y", ascii "z"]

/-- A run from `boot` that builds a chain of nine awaited locks: "main" (priority 31) takes
lock 9; for `i = 8, .., 1` it creates thread `10 + i` (priority `40 - i`), which runs,
takes lock `i` and waits for lock `i + 1`; at last thread 10 (priority 40) is created and
waits for lock 1.  Its donation reaches the threads 11 .. 18 and stops before "main". -/
def stale_calls : List Call :=
  [Call.acquire 9,
   Call.create 18 32, Call.acquire 8, Call.acquire 9,
   Call.create 17 33, Call.acquire 7, Call.acquire 8,
   Call.create 16 34, Call.acquire 6, Call.acquire 7,
   Call.create 15 35, Call.acquire 5, Call.acquire 6,
   Call.create 14 36, Call.acquire 4, Call.acquire 5,
   Call.create 13 37, Call.acquire 3, Call.acquire 4,
   Call.create 12 38, Call.acquire 2, Call.acquire 3,
   Call.create 11 39, Call.acquire 1, Call.acquire 2,
   Call.create 10 40, Call.acquire 1]

/-- The state that the run `stale_calls` leaves: "main" runs with priority 39 (donated by
thread 11 through 8 holders), base priority 31 and the donor 18; for `1 <= i <= 8` the
blocked thread `10 + i` (base priority `40 - i`, priority 40 donated by thread 10) holds
lock `i`, waits for lock `i + 1` and has the donor `9 + i`; thread 10 (priority 40) waits
for lock 1; "main" holds lock 9. -/
def stale_state : Kernel :=
  { boot with
    threads := fun t =>
      if t = 1 then { mk_thread THREAD_RUNNING 39 31 none [18] with tid := 1 }
      else if t = 2 then { blank_thread with tid := 2 }
      else if t = 10 then
        { mk_thread THREAD_BLOCKED 40 40 (some 1) [] with tid := 11 }
      else if 10 < t ∧ t ≤ 18 then
        { mk_thread THREAD_BLOCKED 40 (50 - (t : Int)) (some (t - 9)) [t - 1] with
          tid := 21 - (t : Int) }
      else blank_thread
    locks := fun l =>
      if l = 9 then { holder := some 1 }
      else if 1 ≤ l ∧ l ≤ 8 then { holder := some (10 + l) }
      else { holder := none }
    next_tid := 12 }

/-- The calls after `stale_state`: "main" takes the free lock 0 and creates thread 20
(priority 50), which runs and waits for lock 0, donating to "main". -/
def hold_calls : List Call := [Call.acquire 0, Call.create 20 50, Call.acquire 0]

/-- The state in which "main" (priority 31, no donors) has taken lock 0 and thread 3
(priority 40), created by it, waits for lock 0 and has donated its priority. -/
def held_with_waiter : Kernel :=
  match run boot [Call.acquire 0, Call.create 3 40, Call.acquire 0] with
  | some k => k
  | none => boot

/-- The command line of `n` one-letter tokens `a`, each followed by a space. -/
def letters_line (n : Nat) : List Nat := (List.replicate n (ascii "a ")).flatten

/-! ## `userprog/process.c`: the ELF loader

`threads/vaddr.h` is not among the sources: `KERN_BASE` is a parameter, and `PGMASK` and
`is_user_vaddr` are modelled under the doc comments that say so. -/

/-- The program header `struct ELF64_PHDR`: `p_type` and `p_flags` are `uint32_t`, the
other fields `uint64_t`. -/
structure Phdr where
  p_type : Nat
  p_flags : Nat
  p_offset : Nat
  p_vaddr : Nat
  p_paddr : Nat
  p_filesz : Nat
  p_memsz : Nat
  p_align : Nat
  deriving DecidableEq, Repr

/-- Modelled from the spec: `PGMASK` of `threads/vaddr.h` (missing), the bits of the
"intra-page offset" of an address: the low 12 bits. -/
def PGMASK : Nat := 0xfff

/-- Modelled from the spec: `is_user_vaddr` of `threads/vaddr.h` (missing): the address
lies "within user space", below `KERN_BASE`. -/
def is_user_vaddr (kern_base vaddr : Nat) : Bool := decide (vaddr < kern_base)

/-- The function `validate_segment`; `file_length` is the result of `file_length (file)`,
an `off_t`, which the code converts to `uint64_t`; sums of `uint64_t` wrap. -/
def validate_segment (kern_base : Nat) (phdr : Phdr) (file_length : Int) : Bool :=
  if (phdr.p_offset &&& PGMASK) ≠ (phdr.p_vaddr &&& PGMASK) then false
  else if phdr.p_offset > (file_length % 2 ^ 64).toNat then false
  else if phdr.p_memsz < phdr.p_filesz then false
  else if phdr.p_memsz = 0 then false
  else if !is_user_vaddr kern_base phdr.p_vaddr then false
  else if !is_user_vaddr kern_base ((phdr.p_vaddr + phdr.p_memsz) % 2 ^ 64) then false
  else if (phdr.p_vaddr + phdr.p_memsz) % 2 ^ 64 < phdr.p_vaddr then false
  else if phdr.p_vaddr < PGSIZE then false
  else true

/-- The value of `KERN_BASE` in KAIST PintOS (`threads/loader.h`, missing). -/
def KERN_BASE : Nat := 0x8004000000

/-- A loadable segment: one page of code at `0x400000`, read from offset 0. -/
def demo_phdr : Phdr :=
  { p_type := 1, p_flags := 5, p_offset := 0, p_vaddr := 0x400000, p_paddr := 0x400000,
    p_filesz := 0x1000, p_memsz := 0x1000, p_align := 0x1000 }

/-- The executable header `struct ELF64_hdr`; `e_ident` is the list of its 16 bytes. -/
structure ELF64_hdr where
  e_ident : List Nat
  e_type : Nat
  e_machine : Nat
  e_version : Nat
  e_entry : Nat
  e_phoff : Nat
  e_shoff : Nat
  e_flags : Nat
  e_ehsize : Nat
  e_phentsize : Nat
  e_phnum : Nat
  e_shentsize : Nat
  e_shnum : Nat
  e_shstrndx : Nat
  deriving DecidableEq, Repr

/-- An open executable file, as `load` reads it (`filesys/file.c` is missing):
`file_length`; the header that `file_read (file, &ehdr, sizeof ehdr)` delivers at the
start of the file (`none` when fewer bytes are read); the program header that
`file_seek (file, ofs); file_read (file, &phdr, sizeof phdr)` delivers (`none` when fewer
bytes are read). -/
structure ElfFile where
  length : Int
  ehdr : Option ELF64_hdr
  phdr_at : Int → Option Phdr

/-- What `load` needs from the rest of the kernel: whether `pml4_create` succeeds, the
file that `filesys_open` opens for a name (`none` is NULL), whether the `k`-th page of a
segment is allocated, read and installed, and whether `setup_stack` succeeds. -/
structure LoadEnv where
  pml4_create_ok : Bool
  filesys_open : List Nat → Option ElfFile
  page_ok : Nat → Bool
  setup_stack_ok : Bool
  kern_base : Nat
  user_stack : Nat

/-- The conversion of an integer to `off_t`, a 32-bit signed integer. -/
def to_off_t (x : Int) : Int := (x + 2 ^ 31) % 2 ^ 32 - 2 ^ 31

/-- Modelled from the spec: `ROUND_UP` of `round.h` (missing): "rounded to the page
size", upwards: `(x + step - 1) / step * step`. -/
def ROUND_UP (x step : Nat) : Nat := (x + step - 1) / step * step

/-- The size of `struct ELF64_PHDR`: two `uint32_t` and six `uint64_t`. -/
def sizeof_Phdr : Nat := 56

/-- The result of `load_segment`: the value returned, the number of pages gone through,
and whether every subtraction `read_bytes -= page_read_bytes`,
`zero_bytes -= page_zero_bytes` stayed within the counter (no wrap of the `uint32_t`). -/
structure SegmentResult where
  success : Bool
  pages : Nat
  exact : Bool
  deriving DecidableEq, Repr

/-- The loop of `load_segment` with `fuel` iterations left, on the `uint32_t` counters
`read_bytes` and `zero_bytes`; `k` counts the pages done and `ex` tells whether no
subtraction has wrapped so far.  `none` when `fuel` runs out. -/
def load_segment_loop (page_ok : Nat → Bool) :
    Nat → Nat → Nat → Nat → Bool → Option SegmentResult
  | 0, _, _, _, _ => none
  | fuel + 1, read_bytes, zero_bytes, k, ex =>
    if read_bytes > 0 ∨ zero_bytes > 0 then
      let page_read_bytes := if read_bytes < PGSIZE then read_bytes else PGSIZE
      let page_zero_bytes := PGSIZE - page_read_bytes
      if page_ok k then
        load_segment_loop page_ok fuel ((read_bytes + 2 ^ 32 - page_read_bytes) % 2 ^ 32)
          ((zero_bytes + 2 ^ 32 - page_zero_bytes) % 2 ^ 32) (k + 1)
          (ex && decide (page_read_bytes ≤ read_bytes ∧ page_zero_bytes ≤ zero_bytes))
      else some { success := false, pages := k + 1, exact := ex }
    else some { success := true, pages := k, exact := ex }

/-- The function `load_segment` (project 2): the three assertions (`none` when one
fails), then the loop over the pages.  `ofs` is an `off_t`, `upage` an address,
`read_bytes` and `zero_bytes` are `uint32_t`.  The loop ends after at most
`(read_bytes + zero_bytes) / PGSIZE` pages, which the fuel allows. -/
def load_segment (page_ok : Nat → Bool) (ofs : Int) (upage read_bytes zero_bytes : Nat) :
    Option SegmentResult :=
  if ((read_bytes + zero_bytes) % 2 ^ 32) % PGSIZE = 0 ∧ upage % PGSIZE = 0 ∧
      ofs % PGSIZE = 0 then
    load_segment_loop page_ok ((read_bytes + zero_bytes) / PGSIZE + 1) read_bytes zero_bytes 0
      true
  else none

/-- The arguments `ofs`, `upage`, `read_bytes`, `zero_bytes` with which `load` calls
`load_segment` for a `PT_LOAD` header: `file_page` converted to `off_t`, `mem_page`, and
the two sizes stored in `uint32_t` variables. -/
def load_segment_args (phdr : Phdr) : Int × Nat × Nat × Nat :=
  let file_page := phdr.p_offset - phdr.p_offset % (PGMASK + 1)
  let mem_page := phdr.p_vaddr - phdr.p_vaddr % (PGMASK + 1)
  let page_offset := phdr.p_vaddr &&& PGMASK
  if phdr.p_filesz > 0 then
    let read_bytes := (page_offset + phdr.p_filesz) % 2 ^ 64 % 2 ^ 32
    let zero_bytes :=
      (ROUND_UP ((page_offset + phdr.p_memsz) % 2 ^ 64) PGSIZE % 2 ^ 64 + 2 ^ 64 - read_bytes)
        % 2 ^ 64 % 2 ^ 32
    (to_off_t file_page, mem_page, read_bytes, zero_bytes)
  else
    (to_off_t file_page, mem_page, 0,
      ROUND_UP ((page_offset + phdr.p_memsz) % 2 ^ 64) PGSIZE % 2 ^ 64 % 2 ^ 32)

/-- The loop of `load` over the program headers, with `n` headers left and the file
offset `file_ofs` (an `off_t`): `false` is `goto done` with `success == false`, `true`
means that all headers are done; `none` is a failed assertion of `load_segment`. -/
def load_phdrs (env : LoadEnv) (file : ElfFile) : Nat → Int → Option Bool
  | 0, _ => some true
  | n + 1, file_ofs =>
    if file_ofs < 0 ∨ file_ofs > file.length then some false
    else
      match file.phdr_at file_ofs with
      | none => some false
      | some phdr =>
        let file_ofs1 := to_off_t (file_ofs + sizeof_Phdr)
        if phdr.p_type = 2 ∨ phdr.p_type = 3 ∨ phdr.p_type = 5 then some false
        else if phdr.p_type = 1 then
          if validate_segment env.kern_base phdr file.length then
            let args := load_segment_args phdr
            match load_segment env.page_ok args.1 args.2.1 args.2.2.1 args.2.2.2 with
            | none => none
            | some r => if r.success then load_phdrs env file n file_ofs1 else some false
          else some false
        else load_phdrs env file n file_ofs1

/-- The test of the executable header in `load`: `true` when the header is accepted. -/
def ehdr_ok (ehdr : ELF64_hdr) : Bool :=
  !(decide (ehdr.e_ident.take 7 ≠ [0x7f, 0x45, 0x4c, 0x46, 2, 1, 1])
    || decide (ehdr.e_type ≠ 2)
    || decide (ehdr.e_machine ≠ 0x3E)
    || decide (ehdr.e_version ≠ 1)
    || decide (ehdr.e_phentsize ≠ sizeof_Phdr)
    || decide (ehdr.e_phnum > 1024))

/-- The function `load`: the result `success` and, on success, the `rip` and `rsp` it
stores in the frame; `none` is a failed assertion. -/
def load (env : LoadEnv) (file_name : List Nat) : Option (Bool × Nat × Nat) :=
  if !env.pml4_create_ok then some (false, 0, 0)
  else
    match env.filesys_open file_name with
    | none => some (false, 0, 0)
    | some file =>
      match file.ehdr with
      | none => some (false, 0, 0)
      | some ehdr =>
        if !ehdr_ok ehdr then some (false, 0, 0)
        else
          match load_phdrs env file ehdr.e_phnum (to_off_t ehdr.e_phoff) with
          | none => none
          | some false => some (false, 0, 0)
          | some true =>
            if !env.setup_stack_ok then some (false, 0, 0)
            else some (true, ehdr.e_entry, env.user_stack)

/-- How `process_exec` ends: it returns a value, or `do_iret` enters user mode with a
frame and the user memory. -/
inductive ExecResult where
  | returned (v : Int)
  | user_mode (rip : Nat) (f : intr_frame) (mem : Memory)

/-- The function `process_exec`: the command line is parsed, `load` is called with
`file_name`, the start of the buffer, where the string now is the leading spaces, which
`strtok_r` skips, and the first token, behind which `strtok_r` has written NUL (the whole
line when it holds no token); after a successful load `argument_stack` and `do_iret`;
`-1` is returned when `load` fails.  `none` is an array index out of bounds, a failed
assertion or a page fault. -/
def process_exec (env : LoadEnv) (mapped : Nat → Bool) (mem : Memory) (f_name : List Nat) :
    Option ExecResult :=
  match tokenize f_name with
  | none => none
  | some (argv, argc) =>
    let file_name := match strtok_r f_name with
                     | some (tok, _) => f_name.takeWhile (fun b => decide (b = 32)) ++ tok
                     | none => f_name
    match load env file_name with
    | none => none
    | some (false, _, _) => some (ExecResult.returned (-1))
    | some (true, rip, rsp) =>
      match argument_stack mapped { rsp := rsp, rdi := 0, rsi := 0 } mem argv argc with
      | none => none
      | some (f, mem1) => some (ExecResult.user_mode rip f mem1)

/-- An executable header that `load` accepts, with `n` program headers. -/
def demo_ehdr (n : Nat) : ELF64_hdr :=
  { e_ident := [0x7f, 0x45, 0x4c, 0x46, 2, 1, 1, 0, 0, 0, 0, 0, 0, 0, 0, 0], e_type := 2,
    e_machine := 0x3E, e_version := 1, e_entry := 0x400000, e_phoff := 64, e_shoff := 0,
    e_flags := 0, e_ehsize := 64, e_phentsize := 56, e_phnum := n, e_shentsize := 64,
    e_shnum := 0, e_shstrndx := 0 }

/-- An environment in which every allocation succeeds and every name opens a file of
8192 bytes with the header `demo_ehdr n` and program headers `demo_phdr`. -/
def demo_env (n : Nat) : LoadEnv :=
  { pml4_create_ok := true
    filesys_open := fun _ =>
      some { length := 8192, ehdr := some (demo_ehdr n), phdr_at := fun _ => some demo_phdr }
    page_ok := fun _ => true
    setup_stack_ok := true
    kern_base := KERN_BASE
    user_stack := USER_STACK }

/-- A header whose sizes are 4 GiB: `p_filesz = p_memsz = 2 ^ 32`. -/
def huge_phdr : Phdr := { demo_phdr with p_filesz := 2 ^ 32, p_memsz := 2 ^ 32 }

/-- A state in which thread 3 runs, "main" (page 1, the initial thread) is ready, and the
page of thread 5, which has exited before, waits on `destruction_req`. -/
def exiting_state : Kernel :=
  { boot with
    threads := fun t =>
      if t = 1 then mk_thread THREAD_READY 31 31 none []
      else if t = 3 then mk_thread THREAD_RUNNING 31 31 none []
      else if t = 5 then mk_thread THREAD_DYING 31 31 none []
      else blank_thread
    ready_list := [1]
    destruction_req := [5]
    running := 3 }

/-! ## `userprog/syscall.c` and the process functions of `userprog/process.c`

The file system (`filesys/`), `threads/synch.c`, `threads/interrupt.h` and the list
library are not among the sources; what the functions below need from them is modelled
under the doc comments that say so.  Each function is taken on the state it is called
in: the descriptor table and the child list are what the state holds. -/

/-- Modelled from the spec: `struct gp_registers` of `threads/interrupt.h` (missing): the
general registers of a frame; `rax` carries the system call number and the return value
("returns via `rax`"). -/
structure gp_registers where
  r15 : Nat
  r14 : Nat
  r13 : Nat
  r12 : Nat
  r11 : Nat
  r10 : Nat
  r9 : Nat
  r8 : Nat
  rsi : Nat
  rdi : Nat
  rbp : Nat
  rdx : Nat
  rcx : Nat
  rbx : Nat
  rax : Nat
  deriving DecidableEq, Repr

/-- Modelled from the spec: the whole `struct intr_frame` of `threads/interrupt.h`
(missing), the "saved register frame" that `fork` copies. -/
structure syscall_frame where
  R : gp_registers
  es : Nat
  ds : Nat
  vec_no : Nat
  error_code : Nat
  rip : Nat
  cs : Nat
  eflags : Nat
  rsp : Nat
  ss : Nat
  deriving DecidableEq, Repr

/-- The project-2 fields of `struct thread`.  A semaphore is its `value`; `child_list` is
`none` while its memory is all zero (`list_init` has not run); the descriptor table is
`none` while the pointer is NULL, otherwise the entries it points to, each a file pointer
(`none` is NULL). -/
structure uthread where
  tid : Int
  exit_status : Int
  wait_sema : Nat
  child_list : Option (List Nat)
  parent_if : syscall_frame
  fork_sema : Nat
  free_sema : Nat
  file_descriptor_table : Option (List (Option Nat))
  fd_idx : Int
  deriving DecidableEq, Repr

/-- The state that the system calls work on: the threads by address, the thread that
`thread_current ()` returns, the next tid, the user pages that `pml4_get_page` finds in
the current address space, the holder of `filesys_lock`, and the file pointers passed to
`file_close` so far, oldest first. -/
structure SysState where
  threads : Nat → uthread
  current : Nat
  next_tid : Int
  mapped : Nat → Bool
  filesys_lock : Option Nat
  closed : List Nat

/-- Modelled from the spec: the file system of `filesys/` (missing), "on an opaque file
handle": what `filesys_open`, `filesys_create`, `filesys_remove`, `file_length`,
`file_read`, `file_write` and `file_duplicate` return, and the position that `file_tell`
reads from the `struct file` at an address (`none` when no open file lives there). -/
structure FileSys where
  filesys_open : Nat → Option Nat
  filesys_create : Nat → Nat → Bool
  filesys_remove : Nat → Bool
  file_length : Nat → Int
  file_read : Nat → Nat → Nat → Int
  file_write : Nat → Nat → Nat → Int
  file_tell : Nat → Option Nat
  file_duplicate : Nat → Option Nat

/-- How a call ends: it returns a value, the thread exits (`thread_exit`, not followed
further), the thread sleeps in `sema_down` or `lock_acquire`, it enters user mode with a
frame (`do_iret`), or the behaviour is undefined: a null or out-of-table access, or a
failed assertion. -/
inductive Outcome (α : Type) where
  | returned (v : α) (s : SysState)
  | exited (s : SysState)
  | blocked (s : SysState)
  | user_mode (f : syscall_frame) (s : SysState)
  | fault

/-- The ways a call ends. -/
inductive OutcomeKind where
  | returned
  | exited
  | blocked
  | user_mode
  | fault
  deriving DecidableEq, Repr

/-- The way the call ended. -/
def Outcome.kind {α : Type} : Outcome α → OutcomeKind
  | Outcome.returned _ _ => OutcomeKind.returned
  | Outcome.exited _ => OutcomeKind.exited
  | Outcome.blocked _ => OutcomeKind.blocked
  | Outcome.user_mode _ _ => OutcomeKind.user_mode
  | Outcome.fault => OutcomeKind.fault

/-- The value returned, if the call returned. -/
def Outcome.value {α : Type} : Outcome α → Option α
  | Outcome.returned v _ => some v
  | _ => none

/-- The state the call left, unless the behaviour is undefined. -/
def Outcome.state {α : Type} : Outcome α → Option SysState
  | Outcome.returned _ s => some s
  | Outcome.exited s => some s
  | Outcome.blocked s => some s
  | Outcome.user_mode _ s => some s
  | Outcome.fault => none

/-- The frame with which user mode is entered, if it is. -/
def Outcome.frame {α : Type} : Outcome α → Option syscall_frame
  | Outcome.user_mode f _ => some f
  | _ => none

/-- Sequencing: the rest of the function runs when the call returned. -/
def Outcome.andThen {α β : Type} (o : Outcome α) (f : α → SysState → Outcome β) :
    Outcome β :=
  match o with
  | Outcome.returned v s => f v s
  | Outcome.exited s => Outcome.exited s
  | Outcome.blocked s => Outcome.blocked s
  | Outcome.user_mode fr s => Outcome.user_mode fr s
  | Outcome.fault => Outcome.fault

/-- The record of the current thread. -/
def SysState.cur (s : SysState) : uthread := s.threads s.current

/-- Write `f (old record)` to the thread at address `t`. -/
def SysState.modify (s : SysState) (t : Nat) (f : uthread → uthread) : SysState :=
  { s with threads := Function.update s.threads t (f (s.threads t)) }

/-- The constant `FDT_PAGES`. -/
def FDT_PAGES : Nat := 3

/-- The constant `FD_NUM_LIMIT`, `FDT_PAGES *(1<<10)`. -/
def FD_NUM_LIMIT : Int := FDT_PAGES * (1 <<< 10)

/-- The number of file pointers (8 bytes each) in the `FDT_PAGES` pages that
`process_exit` gives back with `palloc_free_multiple (.., FDT_PAGES)`. -/
def FDT_ENTRIES : Nat := FDT_PAGES * PGSIZE / 8

/-- The read `table[fd]` with an `int` index: `none` when the table pointer is NULL or the
index is outside the table (undefined behaviour), otherwise the entry. -/
def fdt_get (table : Option (List (Option Nat))) (fd : Int) : Option (Option Nat) :=
  match table with
  | none => none
  | some l => if 0 ≤ fd then l[fd.toNat]? else none

/-- The write `table[fd] = f`: `none` when the table pointer is NULL or the index is
outside the table. -/
def fdt_set (table : Option (List (Option Nat))) (fd : Int) (f : Option Nat) :
    Option (List (Option Nat)) :=
  match table with
  | none => none
  | some l => if 0 ≤ fd ∧ fd.toNat < l.length then some (l.set fd.toNat f) else none

/-- The function `exit`: stores the status and calls `thread_exit`. -/
def exit (s : SysState) (status : Int) : Outcome Unit :=
  Outcome.exited (s.modify s.current (fun r => { r with exit_status := status }))

/-- The function `check_address`: `exit (-1)` when the address is NULL, is not a user
address or has no page in the current address space. -/
def check_address (s : SysState) (addr : Nat) : Outcome Unit :=
  if addr = 0 ∨ is_user_vaddr KERN_BASE addr = false ∨ s.mapped addr = false then exit s (-1)
  else Outcome.returned () s

/-- Modelled from the spec: `lock_acquire (&filesys_lock)` of `threads/synch.c` (missing):
"`down(L.sem)`" blocks while another thread is the holder, then "set
`L.holder = current`"; acquiring a lock that the caller holds already is taken as
undefined. -/
def filesys_lock_acquire (s : SysState) : Outcome Unit :=
  match s.filesys_lock with
  | none => Outcome.returned () { s with filesys_lock := some s.current }
  | some h => if h = s.current then Outcome.fault else Outcome.blocked s

/-- Modelled from the spec: `lock_release (&filesys_lock)` of `threads/synch.c` (missing):
"Clear `L.holder`; `up(L.sem)`"; releasing a lock that the caller does not hold is taken
as undefined. -/
def filesys_lock_release (s : SysState) : Outcome Unit :=
  if s.filesys_lock = some s.current then Outcome.returned () { s with filesys_lock := none }
  else Outcome.fault

/-- The function `create`. -/
def create (fs : FileSys) (s : SysState) (file initial_size : Nat) : Outcome Bool :=
  (check_address s file).andThen fun _ s1 =>
    Outcome.returned (fs.filesys_create file initial_size) s1

/-- The function `remove`. -/
def remove (fs : FileSys) (s : SysState) (file : Nat) : Outcome Bool :=
  (check_address s file).andThen fun _ s1 => Outcome.returned (fs.filesys_remove file) s1

/-- The loop `while (table[fd] != NULL && 0 < fd <= FD_NUM_LIMIT) fd++;` of `open`:
the second operand compares the truth value of `0 < fd` with the limit.  `none` when the
loop reads outside the table or the fuel runs out. -/
def open_search (table : Option (List (Option Nat))) : Nat → Int → Option Int
  | 0, _ => none
  | fuel + 1, fd =>
    match fdt_get table fd with
    | none => none
    | some e =>
      if e ≠ none ∧ (if 0 < fd then (1 : Int) else 0) ≤ FD_NUM_LIMIT then
        open_search table fuel (fd + 1)
      else some fd

/-- The function `open` (`sys_open`, as `open` is a reserved word): the search starts at
`fd_idx` and ends within the table or outside it, so the length of the table plus one is
fuel enough. -/
def sys_open (fs : FileSys) (s : SysState) (file : Nat) : Outcome Int :=
  (check_address s file).andThen fun _ s1 =>
  (filesys_lock_acquire s1).andThen fun _ s2 =>
    match fs.filesys_open file with
    | none => Outcome.returned (-1) s2
    | some f =>
      let table := s2.cur.file_descriptor_table
      match open_search table ((table.getD []).length + 1) s2.cur.fd_idx with
      | none => Outcome.fault
      | some fd =>
        let s3 : SysState :=
          if fd > FD_NUM_LIMIT ∨ fd ≥ 0 then { s2 with closed := s2.closed ++ [f] } else s2
        match fdt_set table fd (some f) with
        | none => Outcome.fault
        | some table1 =>
          let s4 := s3.modify s3.current
            (fun r => { r with fd_idx := fd, file_descriptor_table := some table1 })
          (filesys_lock_release s4).andThen fun _ s5 => Outcome.returned fd s5

/-- The function `filesize`; `return NULL` returns 0. -/
def filesize (fs : FileSys) (s : SysState) (fd : Int) : Outcome Int :=
  if 0 > fd ∨ fd > FD_NUM_LIMIT then Outcome.returned 0 s
  else
    match fdt_get s.cur.file_descriptor_table fd with
    | none => Outcome.fault
    | some none => Outcome.returned (-1) s
    | some (some f) => Outcome.returned (fs.file_length f) s

/-- The function `read`: the table is read before the range of `fd` is tested. -/
def read (fs : FileSys) (s : SysState) (fd : Int) (buffer length : Nat) : Outcome Int :=
  (check_address s buffer).andThen fun _ s1 =>
  (check_address s1 ((buffer + length + 2 ^ 64 - 1) % 2 ^ 64)).andThen fun _ s2 =>
    match fdt_get s2.cur.file_descriptor_table fd with
    | none => Outcome.fault
    | some f =>
      if f = none ∨ 0 > fd ∨ fd > FD_NUM_LIMIT ∨ fd = 1 ∨ fd = 2 then Outcome.returned (-1) s2
      else
        (filesys_lock_acquire s2).andThen fun _ s3 =>
        (filesys_lock_release s3).andThen fun _ s4 =>
          Outcome.returned (fs.file_read (f.getD 0) buffer length) s4

/-- The function `write`: the table is read before the range of `fd` is tested; the value
is `none` when the function ends without a `return` statement, so that what the caller
receives is undefined. -/
def write (fs : FileSys) (s : SysState) (fd : Int) (buffer length : Nat) :
    Outcome (Option Int) :=
  (check_address s buffer).andThen fun _ s1 =>
    match fdt_get s1.cur.file_descriptor_table fd with
    | none => Outcome.fault
    | some f =>
      if f = none ∨ 0 > fd ∨ fd > FD_NUM_LIMIT ∨ fd = 1 then Outcome.returned (some (-1)) s1
      else if fd = 2 then
        let _bytes_write := length
        Outcome.returned none s1
      else
        (filesys_lock_acquire s1).andThen fun _ s2 =>
          let _bytes_write := fs.file_write (f.getD 0) buffer length
          (filesys_lock_release s2).andThen fun _ s3 => Outcome.returned none s3

/-- The function `seek`: the table is read before the range of `fd` is tested;
`file_seek` on a NULL file is undefined; the position of a file is not part of the
state. -/
def seek (s : SysState) (fd : Int) (position : Nat) : Outcome Unit :=
  match fdt_get s.cur.file_descriptor_table fd with
  | none => Outcome.fault
  | some f =>
    if 2 > fd ∨ fd > FD_NUM_LIMIT then Outcome.returned () s
    else
      match f with
      | none => Outcome.fault
      | some _ =>
        let _pos := position
        Outcome.returned () s

/-- The function `tell`: the table is read before the range of `fd` is tested; `return;`
gives no value (`none`); `file_tell (fd)` reads the position from the address `fd`. -/
def tell (fs : FileSys) (s : SysState) (fd : Int) : Outcome (Option Nat) :=
  match fdt_get s.cur.file_descriptor_table fd with
  | none => Outcome.fault
  | some _ =>
    if 0 > fd ∨ fd > FD_NUM_LIMIT then Outcome.returned none s
    else
      match fs.file_tell fd.toNat with
      | none => Outcome.fault
      | some pos => Outcome.returned (some pos) s

/-- The function `close`: the table is read before the range of `fd` is tested; the call
of `file_close` is commented out. -/
def close (s : SysState) (fd : Int) : Outcome Unit :=
  match fdt_get s.cur.file_descriptor_table fd with
  | none => Outcome.fault
  | some f =>
    if f = none ∨ 0 > fd ∨ fd > FD_NUM_LIMIT then Outcome.returned () s
    else
      match fdt_set s.cur.file_descriptor_table fd none with
      | none => Outcome.fault
      | some table1 =>
        Outcome.returned ()
          (s.modify s.current (fun r => { r with file_descriptor_table := some table1 }))

/-- The loop `for (int fd = 0; fd <= FD_NUM_LIMIT; fd++) close (fd);` of `process_exit`,
with `n` iterations left. -/
def process_exit_loop : Nat → SysState → Int → Outcome Unit
  | 0, s, _ => Outcome.returned () s
  | n + 1, s, fd => (close s fd).andThen fun _ s1 => process_exit_loop n s1 (fd + 1)

/-- Modelled from the spec: `sema_down` of `threads/synch.c` (missing) on the semaphore
that `get` reads and `set` writes in the thread `t`: "while value == 0 .. block; on
resume decrement value".  The caller that blocks goes on from here when the semaphore has
been signalled. -/
def sema_down (s : SysState) (t : Nat) (get : uthread → Nat) (set : uthread → Nat → uthread) :
    Outcome Unit :=
  match get (s.threads t) with
  | 0 => Outcome.blocked s
  | v + 1 => Outcome.returned () (s.modify t (fun r => set r v))

/-- Modelled from the spec: `sema_up` of `threads/synch.c` (missing): "increment
value". -/
def sema_up (s : SysState) (t : Nat) (get : uthread → Nat) (set : uthread → Nat → uthread) :
    SysState :=
  s.modify t (fun r => set r (get r + 1))

/-- The function `process_exit`, as far as the state goes: the loop that closes the
descriptors, `sema_up (&cur->wait_sema)` and `sema_down (&cur->free_sema)`. -/
def process_exit (s : SysState) : Outcome Unit :=
  (process_exit_loop (FD_NUM_LIMIT + 1).toNat s 0).andThen fun _ s1 =>
    let s2 := sema_up s1 s1.current (fun r => r.wait_sema) (fun r v => { r with wait_sema := v })
    sema_down s2 s2.current (fun r => r.free_sema) (fun r v => { r with free_sema := v })

/-- The function `get_child`: the first thread of the current thread's child list whose
tid is `pid` (`some none` is NULL); walking a list that was never initialised is
undefined (`none`). -/
def get_child (s : SysState) (pid : Int) : Option (Option Nat) :=
  match s.cur.child_list with
  | none => none
  | some l => some (l.find? (fun t => decide ((s.threads t).tid = pid)))

/-- The function `process_wait`; `list_remove (&child->child_elem)` takes the child out of
the list in which `get_child` found it. -/
def process_wait (s : SysState) (child_tid : Int) : Outcome Int :=
  match get_child s child_tid with
  | none => Outcome.fault
  | some none => Outcome.returned (-1) s
  | some (some child) =>
    (sema_down s child (fun r => r.wait_sema) (fun r v => { r with wait_sema := v })).andThen
      fun _ s1 =>
        let exit_status := (s1.threads child).exit_status
        let s2 := s1.modify s1.current
          (fun r => { r with child_list := r.child_list.map (fun l => l.erase child) })
        let s3 := sema_up s2 child (fun r => r.free_sema) (fun r v => { r with free_sema := v })
        Outcome.returned exit_status s3

/-- The function `wait`. -/
def wait (s : SysState) (pid : Int) : Outcome Int := process_wait s pid

/-- A frame of zeros. -/
def zero_frame : syscall_frame :=
  { R := { r15 := 0, r14 := 0, r13 := 0, r12 := 0, r11 := 0, r10 := 0, r9 := 0, r8 := 0,
           rsi := 0, rdi := 0, rbp := 0, rdx := 0, rcx := 0, rbx := 0, rax := 0 },
    es := 0, ds := 0, vec_no := 0, error_code := 0, rip := 0, cs := 0, eflags := 0,
    rsp := 0, ss := 0 }

/-- The project-2 fields of a thread page after `memset (t, 0, sizeof *t)`. -/
def zero_uthread : uthread :=
  { tid := 0, exit_status := 0, wait_sema := 0, child_list := none, parent_if := zero_frame,
    fork_sema := 0, free_sema := 0, file_descriptor_table := none, fd_idx := 0 }

/-- The functions `thread_create` and `init_thread` of `thread.c`, seen on the project-2
fields: `page` is what `palloc_get_page (PAL_ZERO)` returns; `init_thread` asserts
`name != NULL` and zeroes the page, `thread_create` stores the tid.  No other statement
of the two functions writes a project-2 field of the new thread or of its creator.  The
new thread has not run when the state is returned. -/
def thread_create_fields (page : Option Nat) (s : SysState) (name : Nat) :
    Option (SysState × Int) :=
  match page with
  | none => some (s, TID_ERROR)
  | some t =>
    if name = 0 then none
    else
      let tid := s.next_tid
      some ({ s with threads := Function.update s.threads t { zero_uthread with tid := tid },
                     next_tid := tid + 1 }, tid)

/-- The function `process_fork`; `thread_create` stands for the call
`thread_create (name, PRI_DEFAULT, __do_fork, cur)`: the state when it returns (in which
the new thread may have run already) and the tid; `none` is a failed assertion.
`&child->fork_sema` with `child == NULL` is undefined. -/
def process_fork (thread_create : SysState → Nat → Option (SysState × Int)) (s : SysState)
    (name : Nat) (if_ : syscall_frame) : Outcome Int :=
  let s1 := s.modify s.current (fun r => { r with parent_if := if_ })
  match thread_create s1 name with
  | none => Outcome.fault
  | some (s2, pid) =>
    if pid = TID_ERROR then Outcome.returned TID_ERROR s2
    else
      match get_child s2 pid with
      | none => Outcome.fault
      | some none => Outcome.fault
      | some (some child) =>
        (sema_down s2 child (fun r => r.fork_sema)
          (fun r v => { r with fork_sema := v })).andThen fun _ s3 =>
            if (s3.threads child).exit_status = -1 then Outcome.returned TID_ERROR s3
            else Outcome.returned pid s3

/-- The function `fork`. -/
def fork (thread_create : SysState → Nat → Option (SysState × Int)) (s : SysState)
    (thread_name : Nat) (f : syscall_frame) : Outcome Int :=
  process_fork thread_create s thread_name f

/-- What `__do_fork` needs from the rest of the kernel: whether `pml4_create` succeeds,
whether `pml4_for_each (parent->pml4, duplicate_pte, parent)` succeeds, and what
`file_duplicate` returns. -/
structure ForkEnv where
  pml4_create_ok : Bool
  duplicate_ok : Bool
  file_duplicate : Nat → Option Nat

/-- The loop `for (fd; fd < FD_NUM_LIMIT; fd++)` of `__do_fork` with `n` iterations left:
the open files of the parent's table are duplicated into the child's table.  `none`
when a table is read or written outside its entries. -/
def do_fork_copy (env : ForkEnv) (ptable : Option (List (Option Nat))) :
    Nat → Int → Option (List (Option Nat)) → Option (Option (List (Option Nat)))
  | 0, _, ctable => some ctable
  | n + 1, fd, ctable =>
    match fdt_get ptable fd with
    | none => none
    | some none => do_fork_copy env ptable n (fd + 1) ctable
    | some (some f) =>
      match fdt_set ctable fd (env.file_duplicate f) with
      | none => none
      | some ctable1 => do_fork_copy env ptable n (fd + 1) (some ctable1)

/-- The label `error` of `__do_fork`: the status, `sema_up (&current->fork_sema)` and
`exit (TID_ERROR)`. -/
def do_fork_error (s : SysState) : Outcome Unit :=
  let s1 := s.modify s.current (fun r => { r with exit_status := TID_ERROR })
  exit (sema_up s1 s1.current (fun r => r.fork_sema) (fun r v => { r with fork_sema := v }))
    TID_ERROR

/-- The function `__do_fork`, run by the new thread (the current thread of `s`) with the
address of its parent. -/
def __do_fork (env : ForkEnv) (s : SysState) (parent : Nat) : Outcome Unit :=
  let if_ : syscall_frame :=
    { (s.threads parent).parent_if with R := { (s.threads parent).parent_if.R with rax := 0 } }
  if env.pml4_create_ok = false then do_fork_error s
  else if env.duplicate_ok = false then do_fork_error s
  else if (s.threads parent).fd_idx ≥ FD_NUM_LIMIT then do_fork_error s
  else
    let ptable := (s.threads parent).file_descriptor_table
    match fdt_get ptable 0, fdt_get ptable 1 with
    | some e0, some e1 =>
      match (fdt_set s.cur.file_descriptor_table 0 e0).bind
          (fun t => fdt_set (some t) 1 e1) with
      | none => Outcome.fault
      | some ctable =>
        match do_fork_copy env ptable (FD_NUM_LIMIT - 2).toNat 2 (some ctable) with
        | none => Outcome.fault
        | some ctable1 =>
          let s1 := s.modify s.current (fun r =>
            { r with file_descriptor_table := ctable1, fd_idx := (s.threads parent).fd_idx })
          Outcome.user_mode if_
            (sema_up s1 s1.current (fun r => r.fork_sema) (fun r v => { r with fork_sema := v }))
    | _, _ => Outcome.fault

/-- A descriptor table of `FDT_ENTRIES` entries that starts with the given ones. -/
def fd_table (entries : List (Option Nat)) : List (Option Nat) :=
  entries ++ List.replicate (FDT_ENTRIES - entries.length) none

/-- A file system with one file, which `filesys_open` opens as the file object at
`900` for the name at `0x400000`; the file object at `104` is at position 7, and no file
object lives at the address 4. -/
def demo_fs : FileSys :=
  { filesys_open := fun name => if name = 0x400000 then some 900 else none
    filesys_create := fun _ _ => true
    filesys_remove := fun _ => true
    file_length := fun _ => 10
    file_read := fun _ _ len => len
    file_write := fun _ _ len => len
    file_tell := fun p => if p = 104 then some 7 else none
    file_duplicate := fun f => some (f + 1000) }

/-- The file system `demo_fs` with one more file object, at the address 4, at
position 99. -/
def low_fs : FileSys :=
  { demo_fs with file_tell := fun p => if p = 4 then some 99 else demo_fs.file_tell p }

/-- A process (thread 1) that has opened the descriptors 3 and 4 and closed 3: the
entries 0, 1, 2 and 4 of its table are set, `fd_idx` is 4; the page at `0x400000` is
mapped, `filesys_lock` is free. -/
def demo_sys : SysState :=
  { threads := fun t =>
      if t = 1 then
        { zero_uthread with
          tid := 1, child_list := some [],
          file_descriptor_table := some (fd_table [some 100, some 101, some 102, none, some 104]),
          fd_idx := 4 }
      else zero_uthread
    current := 1
    next_tid := 2
    mapped := fun a => decide (0x400000 ≤ a ∧ a < 0x401000)
    filesys_lock := none
    closed := [] }

/-- A process whose table is empty and whose `fd_idx` is 0, as `memset` leaves it. -/
def fresh_sys : SysState :=
  { demo_sys with
    threads := fun t =>
      if t = 1 then
        { zero_uthread with tid := 1, child_list := some [],
                            file_descriptor_table := some (fd_table []) }
      else zero_uthread }

/-- A descriptor table of `FD_NUM_LIMIT` entries that starts with the given ones. -/
def big_table (entries : List (Option Nat)) : List (Option Nat) :=
  entries ++ List.replicate (FD_NUM_LIMIT.toNat - entries.length) none

/-- An environment in which the address space is duplicated without failure. -/
def demo_fork_env : ForkEnv :=
  { pml4_create_ok := true, duplicate_ok := true, file_duplicate := fun f => some (f + 1000) }

/-- A frame of a `fork` system call. -/
def demo_frame : syscall_frame :=
  { zero_frame with R := { zero_frame.R with rax := 2, rdi := 0x400000 }, rip := 0x400100,
                    rsp := 0x47480000 - 64 }

/-- A process (thread 1) whose table has `FD_NUM_LIMIT` entries, all free. -/
def full_sys : SysState :=
  { demo_sys with
    threads := fun t =>
      if t = 1 then
        { zero_uthread with tid := 1, child_list := some [],
                            file_descriptor_table := some (big_table []) }
      else zero_uthread }

/-- A process as `init_thread` leaves its project-2 fields: thread 1 runs; its child list
is not initialised and its table pointer is NULL; the page at `0x400000` is mapped. -/
def init_sys : SysState :=
  { threads := fun t => if t = 1 then { zero_uthread with tid := 1 } else zero_uthread
    current := 1
    next_tid := 2
    mapped := fun a => decide (0x400000 ≤ a ∧ a < 0x401000)
    filesys_lock := none
    closed := [] }

theorem list_insert_ordered_split (less : Nat → Nat → Bool) (elem : Nat) (l : List Nat) :
    ∃ pre post, l = pre ++ post ∧ list_insert_ordered less elem l = pre ++ elem :: post ∧
      (∀ x ∈ pre, less elem x = false) ∧ (∀ y, post.head? = some y → less elem y = true) := by
  induction l with
  | nil => exact ⟨[], [], rfl, rfl, by simp, by simp⟩
  | cons e rest ih =>
    by_cases h : less elem e = true
    · refine ⟨[], e :: rest, rfl, ?_, by simp, ?_⟩
      · simp [list_insert_ordered, h]
      · intro y hy
        simp at hy
        subst hy
        exact h
    · obtain ⟨pre, post, h1, h2, h3, h4⟩ := ih
      refine ⟨e :: pre, post, by simp [h1], ?_, ?_, h4⟩
      · simp [list_insert_ordered, h, h2]
      · intro x hx
        rcases List.mem_cons.mp hx with rfl | hx
        · simpa using h
        · exact h3 x hx

theorem insert_sorted_at_fifo_slot (k : Kernel) (t : Nat) (l : List Nat)
    (hsorted : sorted_by_priority k l) :
    at_fifo_slot k l (list_insert_ordered (thread_compare_priority k) t l) t ∧
      sorted_by_priority k (list_insert_ordered (thread_compare_priority k) t l) := by
  obtain ⟨pre, post, h1, h2, h3, h4⟩ := list_insert_ordered_split (thread_compare_priority k) t l
  have hpre : ∀ x ∈ pre, k.prio x ≥ k.prio t := by
    intro x hx
    have := h3 x hx
    simp [thread_compare_priority] at this
    exact this
  have hsplit : (pre ++ post).Pairwise (fun a b => k.prio a ≥ k.prio b) := h1 ▸ hsorted
  rw [List.pairwise_append] at hsplit
  obtain ⟨hp1, hp2, hp3⟩ := hsplit
  have hpost : ∀ x ∈ post, k.prio x < k.prio t := by
    intro x hx
    cases post with
    | nil => simp at hx
    | cons y ys =>
      have hy := h4 y rfl
      simp [thread_compare_priority] at hy
      rcases List.mem_cons.mp hx with rfl | hx
      · exact hy
      · have := (List.pairwise_cons.mp hp2).1 x hx
        exact lt_of_le_of_lt this hy
  refine ⟨⟨pre, post, h1, h2, hpre, hpost⟩, ?_⟩
  unfold sorted_by_priority
  rw [h2, List.pairwise_append]
  refine ⟨hp1, List.pairwise_cons.mpr ⟨fun x hx => le_of_lt (hpost x hx), hp2⟩, ?_⟩
  intro a ha b hb
  rcases List.mem_cons.mp hb with rfl | hb
  · exact hpre a ha
  · exact hp3 a ha b hb

theorem set_status_prio (k : Kernel) (t : Nat) (s : thread_status) (x : Nat) :
    (k.set_status t s).prio x = k.prio x := by
  unfold Kernel.set_status Kernel.modify Kernel.prio
  by_cases h : x = t
  · subst h; simp
  · simp [Function.update_noteq h]

theorem at_fifo_slot_congr (k k1 : Kernel) (old new : List Nat) (t : Nat)
    (h : ∀ x, k1.prio x = k.prio x) (hs : at_fifo_slot k old new t) :
    at_fifo_slot k1 old new t := by
  obtain ⟨pre, post, h1, h2, h3, h4⟩ := hs
  exact ⟨pre, post, h1, h2, fun x hx => by rw [h x, h t]; exact h3 x hx,
    fun x hx => by rw [h x, h t]; exact h4 x hx⟩

theorem sorted_by_priority_congr (k k1 : Kernel) (l : List Nat)
    (h : ∀ x, k1.prio x = k.prio x) (hs : sorted_by_priority k l) :
    sorted_by_priority k1 l := by
  unfold sorted_by_priority at *
  refine hs.imp ?_
  intro a b hab
  rw [h a, h b]
  exact hab

/-- C1: for a ready list sorted by priority, highest first, and a blocked thread `t` that
is not on it, `thread_unblock (t)` succeeds; the new ready list is still sorted, holds `t`
exactly once, is the old list with `t` inserted after every thread of priority `>=` its
own and before every thread of lower priority, and `t->status` is `THREAD_READY`; no
priority and no other thread changes. -/
theorem thread_unblock_sorted_fifo (k : Kernel) (t : Nat)
    (hsorted : sorted_by_priority k k.ready_list)
    (hblocked : (k.threads t).status = THREAD_BLOCKED)
    (hfresh : t ∉ k.ready_list) :
    ∃ k1, thread_unblock k t = some k1 ∧
      sorted_by_priority k1 k1.ready_list ∧
      k1.ready_list.count t = 1 ∧
      at_fifo_slot k1 k.ready_list k1.ready_list t ∧
      (k1.threads t).status = THREAD_READY ∧
      (∀ x, k1.prio x = k.prio x) ∧ (∀ x, x ≠ t → k1.threads x = k.threads x) := by
  obtain ⟨hslot, hsort⟩ := insert_sorted_at_fifo_slot k t k.ready_list hsorted
  simp only [thread_unblock, hblocked, if_true]
  refine ⟨_, rfl, ?_, ?_, ?_, ?_, ?_, ?_⟩
  · exact sorted_by_priority_congr k _ _ (fun x => set_status_prio _ _ _ _) hsort
  · obtain ⟨pre, post, h1, h2, -, -⟩ := hslot
    have hnp : t ∉ pre := fun h => hfresh (h1 ▸ List.mem_append_left _ h)
    have hnq : t ∉ post := fun h => hfresh (h1 ▸ List.mem_append_right _ h)
    show List.count t (list_insert_ordered (thread_compare_priority k) t k.ready_list) = 1
    rw [h2]
    simp [List.count_append, List.count_eq_zero_of_not_mem hnp,
      List.count_eq_zero_of_not_mem hnq]
  · exact at_fifo_slot_congr k _ _ _ _ (fun x => set_status_prio _ _ _ _) hslot
  · simp [Kernel.set_status, Kernel.modify]
  · intro x
    exact set_status_prio _ _ _ _
  · intro x hx
    simp [Kernel.set_status, Kernel.modify, Function.update_noteq hx]

/-- Witness of C1: thread 14 (priority 31) goes behind thread 12 (priority 31) and before
thread 13 (priority 20). -/
theorem thread_unblock_sorted_fifo_witness :
    ∃ k1, thread_unblock demo_ready 14 = some k1 ∧ k1.ready_list = [11, 12, 14, 13] ∧
      sorted_by_priority k1 k1.ready_list ∧ k1.ready_list.count 14 = 1 := by
  obtain ⟨k1, h1, h2, h3, -⟩ := thread_unblock_sorted_fifo demo_ready 14
    (by unfold sorted_by_priority; decide) (by decide) (by decide)
  refine ⟨k1, h1, ?_, h2, h3⟩
  have h4 : thread_unblock demo_ready 14 = some _ := rfl
  rw [h4] at h1
  cases h1
  rfl

/-! ### Scheduling -/

theorem next_thread_to_run_nil (k : Kernel) (h : k.ready_list = []) :
    next_thread_to_run k = (k.idle_thread, k) := by
  simp [next_thread_to_run, list_empty, h]

theorem next_thread_to_run_cons (k : Kernel) (e : Nat) (rest : List Nat)
    (h : k.ready_list = e :: rest) :
    next_thread_to_run k = (some e, { k with ready_list := rest }) := by
  simp [next_thread_to_run, list_empty, list_pop_front, h]

/-- C3: `next_thread_to_run` returns `idle_thread` and leaves the state (so the ready list)
unchanged when the ready list is empty; otherwise it returns the thread at the front of
the ready list, and the only change is that this one element is gone from the front, the
rest staying in order. -/
theorem next_thread_to_run_spec (k : Kernel) :
    (k.ready_list = [] → next_thread_to_run k = (k.idle_thread, k)) ∧
    (∀ e rest, k.ready_list = e :: rest →
      next_thread_to_run k = (some e, { k with ready_list := rest })) := by
  constructor
  · intro h
    simp [next_thread_to_run, list_empty, h]
  · intro e rest h
    simp [next_thread_to_run, list_empty, list_pop_front, h]

theorem thread_current_eq (k : Kernel) (cur : Nat) (h : thread_current k = some cur) :
    cur = k.running ∧ (k.threads k.running).status = THREAD_RUNNING := by
  unfold thread_current at h
  split at h
  · rename_i hs
    exact ⟨by cases h; rfl, hs⟩
  · cases h


theorem schedule_cons (k : Kernel) (e : Nat) (rest : List Nat)
    (hst : (k.threads k.running).status ≠ THREAD_RUNNING)
    (hdy : (k.threads k.running).status ≠ THREAD_DYING)
    (hr : k.ready_list = e :: rest) :
    schedule k = some { k with ready_list := rest, running := e, thread_ticks := 0,
                               threads := Function.update k.threads e
                                 { k.threads e with status := THREAD_RUNNING } } := by
  have hn := next_thread_to_run_cons k e rest hr
  unfold schedule
  rw [hn]
  simp only [hst, if_false]
  by_cases hne : k.running = e
  · subst hne
    simp [Kernel.set_status, Kernel.modify]
  · simp [Kernel.set_status, Kernel.modify, hne, Function.update_noteq hne, hdy]

theorem schedule_nil (k : Kernel) (i : Nat)
    (hst : (k.threads k.running).status ≠ THREAD_RUNNING)
    (hdy : (k.threads k.running).status ≠ THREAD_DYING)
    (hr : k.ready_list = []) (hi : k.idle_thread = some i) :
    schedule k = some { k with running := i, thread_ticks := 0,
                               threads := Function.update k.threads i
                                 { k.threads i with status := THREAD_RUNNING } } := by
  have hn := next_thread_to_run_nil k hr
  unfold schedule
  rw [hn, hi]
  simp only [hst, if_false]
  by_cases hne : k.running = i
  · subst hne
    simp [Kernel.set_status, Kernel.modify, hi]
  · simp [Kernel.set_status, Kernel.modify, hne, Function.update_noteq hne, hdy, hi]



theorem list_insert_ordered_ne_nil (less : Nat → Nat → Bool) (elem : Nat) (l : List Nat) :
    list_insert_ordered less elem l ≠ [] := by
  cases l with
  | nil => simp [list_insert_ordered]
  | cons e rest =>
    unfold list_insert_ordered
    split <;> simp

theorem do_schedule_ready_cons (k : Kernel) (cur e : Nat) (rest : List Nat)
    (hcur : thread_current k = some cur) (hr : k.ready_list = e :: rest) :
    ∃ k1, do_schedule k THREAD_READY = some k1 ∧ k1.running = e ∧ k1.ready_list = rest ∧
      (∀ x, k1.prio x = k.prio x) ∧ (k1.threads e).status = THREAD_RUNNING ∧
      (cur ≠ e → (k1.threads cur).status = THREAD_READY) ∧
      (∀ x, k1.threads x = { k.threads x with status := (k1.threads x).status }) := by
  obtain ⟨hc, hs⟩ := thread_current_eq k cur hcur
  subst hc
  unfold do_schedule
  rw [hcur]
  simp only
  rw [schedule_cons _ e rest (by simp [Kernel.set_status, Kernel.modify])
    (by simp [Kernel.set_status, Kernel.modify])
    (by simpa [Kernel.set_status, Kernel.modify] using hr)]
  have hall : ∀ x, (Function.update (Function.update k.threads k.running
        { k.threads k.running with status := THREAD_READY }) e
        { Function.update k.threads k.running
            { k.threads k.running with status := THREAD_READY } e with
          status := THREAD_RUNNING }) x =
      { k.threads x with status := (Function.update (Function.update k.threads k.running
        { k.threads k.running with status := THREAD_READY }) e
        { Function.update k.threads k.running
            { k.threads k.running with status := THREAD_READY } e with
          status := THREAD_RUNNING } x).status } := by
    intro x
    by_cases hxe : x = e
    · subst hxe
      by_cases hxc : x = k.running
      · rw [← hxc]; simp
      · simp [Function.update_noteq hxc]
    · by_cases hxc : x = k.running
      · rw [← hxc]; simp [Function.update_noteq hxe]
      · simp [Function.update_noteq hxe, Function.update_noteq hxc]
  refine ⟨_, rfl, rfl, rfl, ?_, ?_, ?_, ?_⟩
  · intro x
    have := hall x
    simp only [Kernel.prio, Kernel.set_status, Kernel.modify]
    rw [this]
  · simp
  · intro hne
    simp [Kernel.set_status, Kernel.modify, Function.update_noteq hne]
  · intro x
    simp only [Kernel.set_status, Kernel.modify]
    exact hall x

/-- C4, as amended: for a running thread `cur`. If `cur` is not the idle thread and the
ready list is sorted by priority, highest first, `thread_yield` inserts `cur` at the FIFO
slot of its priority (after every ready thread of priority `>=` its own, before every
lower one) and runs the head of the resulting list: the new running thread followed by the
new ready list is that list.  If `cur` is the idle thread, `thread_yield` only takes the
front thread off the ready list (and runs it, or the idle thread again when there is
none): the idle thread is not put on the ready list. -/
theorem thread_yield_fifo (k : Kernel) (cur : Nat) (hcur : thread_current k = some cur) :
    (some cur ≠ k.idle_thread → sorted_by_priority k k.ready_list →
      ∃ k1, thread_yield k = some k1 ∧
        at_fifo_slot k k.ready_list (k1.running :: k1.ready_list) cur ∧
        (k1.threads k1.running).status = THREAD_RUNNING ∧
        (cur ≠ k1.running → (k1.threads cur).status = THREAD_READY) ∧
        (∀ x, k1.prio x = k.prio x)) ∧
    (some cur = k.idle_thread →
      ∃ k1, thread_yield k = some k1 ∧ k1.ready_list = k.ready_list.tail ∧
        k1.running = k.ready_list.headD cur ∧
        (k1.threads k1.running).status = THREAD_RUNNING) := by
  constructor
  · intro hidle hsorted
    obtain ⟨hslot, -⟩ := insert_sorted_at_fifo_slot k cur k.ready_list hsorted
    obtain ⟨e, rest, hl⟩ := List.exists_cons_of_ne_nil
      (list_insert_ordered_ne_nil (thread_compare_priority k) cur k.ready_list)
    unfold thread_yield
    rw [hcur]
    simp only [hidle, ne_eq, not_false_eq_true, if_true]
    obtain ⟨k1, h1, h2, h3, h4, h5, h6, -⟩ := do_schedule_ready_cons
      { k with ready_list := list_insert_ordered (thread_compare_priority k) cur k.ready_list }
      cur e rest hcur hl
    refine ⟨k1, h1, ?_, ?_, ?_, h4⟩
    · rw [h2, h3, ← hl]; exact hslot
    · rw [h2]; exact h5
    · rw [h2]; exact h6
  · intro hidle
    obtain ⟨hc, hs⟩ := thread_current_eq k cur hcur
    unfold thread_yield
    rw [hcur]
    simp only [hidle, ne_eq, not_true_eq_false, if_false]
    cases hr : k.ready_list with
    | nil =>
      unfold do_schedule
      rw [hcur]
      simp only
      rw [schedule_nil _ cur (by simp [Kernel.set_status, Kernel.modify, hc])
        (by simp [Kernel.set_status, Kernel.modify, hc])
        (by simpa [Kernel.set_status, Kernel.modify] using hr)
        (by simpa [Kernel.set_status, Kernel.modify] using hidle.symm)]
      exact ⟨_, rfl, by simp [Kernel.set_status, Kernel.modify, hr], rfl, by simp⟩
    | cons e rest =>
      obtain ⟨k1, h1, h2, h3, -, h5, -, -⟩ := do_schedule_ready_cons k cur e rest hcur hr
      exact ⟨k1, h1, by simpa using h3, by simpa using h2, by rw [h2]; exact h5⟩

/-- C2, failing run: from `boot`, the calls `inversion_calls` lead to a state whose ready
list is `5 (priority 15), 3 (priority 31)`: its head does not have the highest priority
(and thread 4, priority 20, runs).  `donate_priority` raised thread 3 while it was on the
ready list, behind threads 4 and 5, and the list is not reordered. -/
theorem ready_head_not_highest :
    ∃ k, run boot inversion_calls = some k ∧ k.ready_list = [5, 3] ∧
      k.prio 5 = 15 ∧ k.prio 3 = 31 ∧ k.running = 4 ∧ k.prio 4 = 20 ∧
      ¬ head_is_highest k := by
  refine ⟨_, rfl, rfl, rfl, rfl, rfl, rfl, ?_⟩
  intro h
  have := h 5 [3] rfl 3 (by simp)
  revert this
  decide

/-- C4, counterexample: in the state that `inversion_calls` reaches from `boot`, thread 4
(priority 20, not the idle thread) runs and the ready list is `5 (15), 3 (31)`.
`thread_yield` inserts thread 4 at the front, before thread 3 of priority 31: not at the
FIFO slot of its priority. -/
theorem thread_yield_unsorted :
    ∃ k k1, run boot inversion_calls = some k ∧ thread_current k = some 4 ∧
      some 4 ≠ k.idle_thread ∧ k.ready_list = [5, 3] ∧
      k.prio 4 = 20 ∧ k.prio 5 = 15 ∧ k.prio 3 = 31 ∧
      thread_yield k = some k1 ∧ k1.running :: k1.ready_list = [4, 5, 3] ∧
      ¬ at_fifo_slot k k.ready_list (k1.running :: k1.ready_list) 4 := by
  refine ⟨_, _, rfl, rfl, by decide, rfl, rfl, rfl, rfl, rfl, rfl, ?_⟩
  rintro ⟨pre, post, h1, h2, -, h4⟩
  have e1 : ([5, 3] : List Nat) = pre ++ post := h1
  have e2 : ([4, 5, 3] : List Nat) = pre ++ 4 :: post := h2
  cases pre with
  | nil =>
    simp at e1
    subst e1
    have := h4 3 (by simp)
    revert this
    decide
  | cons a pre =>
    simp at e1 e2
    omega

/-- Witness of C4: "main" (priority 31) yields with the ready list `11 (40), 12 (31),
13 (20)`: it goes behind thread 12, and thread 11 runs. -/
theorem thread_yield_fifo_witness :
    ∃ k1, thread_yield demo_ready = some k1 ∧ k1.running = 11 ∧ k1.ready_list = [12, 1, 13] ∧
      at_fifo_slot demo_ready demo_ready.ready_list (k1.running :: k1.ready_list) 1 := by
  obtain ⟨k1, h1, h2, -⟩ := (thread_yield_fifo demo_ready 1 (by decide)).1 (by decide)
    (by unfold sorted_by_priority; decide)
  have h4 : thread_yield demo_ready = some _ := rfl
  refine ⟨k1, h1, ?_, ?_, h2⟩
  · rw [h4] at h1
    cases h1
    rfl
  · rw [h4] at h1
    cases h1
    rfl

/-! ### Priority donation -/

/-- C5, failing input: in `donate_low` thread 3 (priority 30) awaits lock 0, held by
"main" (priority 31); `donate_priority` assigns the donor's priority to the holder, which
drops from 31 to 30 (`max (31, 30)` is 31).  The state arises in the run
`lowering_calls` from `boot`, after which "main" has priority 30, below its own
`init_priority` 31. -/
theorem donate_priority_lowers_holder :
    (∃ k1, donate_priority donate_low = some k1 ∧ donate_low.prio 1 = 31 ∧
      donate_low.prio 3 = 30 ∧ k1.prio 1 = 30) ∧
    (∃ k, run boot lowering_calls = some k ∧ k.prio 1 = 30 ∧
      (k.threads 1).init_priority = 31) :=
  ⟨⟨_, rfl, rfl, rfl, rfl⟩, ⟨_, rfl, rfl, rfl⟩⟩

theorem list_sort_eq_insertionSort (less : Nat → Nat → Bool) (l : List Nat) :
    list_sort less l = List.insertionSort (fun a b => less b a = false) l := by
  induction l with
  | nil => rfl
  | cons e rest ih => simp [list_sort, List.insertionSort, ih]

theorem donate_order (k : Kernel) (a b : Nat) :
    thread_compare_donate_priority k b a = false ↔ k.prio b ≤ k.prio a := by
  simp [thread_compare_donate_priority, Kernel.prio]

theorem list_sort_perm (k : Kernel) (l : List Nat) :
    (list_sort (thread_compare_donate_priority k) l).Perm l := by
  rw [list_sort_eq_insertionSort]
  exact List.perm_insertionSort _ l

theorem list_sort_sorted (k : Kernel) (l : List Nat) :
    sorted_by_priority k (list_sort (thread_compare_donate_priority k) l) := by
  rw [list_sort_eq_insertionSort]
  haveI : IsTotal Nat (fun a b => thread_compare_donate_priority k b a = false) :=
    ⟨fun a b => by simp only [donate_order]; exact le_total _ _⟩
  haveI : IsTrans Nat (fun a b => thread_compare_donate_priority k b a = false) :=
    ⟨fun a b c hab hbc => by
      simp only [donate_order] at *
      exact le_trans hbc hab⟩
  have := List.sorted_insertionSort (fun a b => thread_compare_donate_priority k b a = false) l
  unfold sorted_by_priority
  refine List.Pairwise.imp ?_ this
  intro a b hab
  exact (donate_order k a b).mp hab

theorem list_sort_of_sorted (k : Kernel) (l : List Nat) (h : sorted_by_priority k l) :
    list_sort (thread_compare_donate_priority k) l = l := by
  rw [list_sort_eq_insertionSort]
  apply List.Sorted.insertionSort_eq
  unfold sorted_by_priority at h
  refine List.Pairwise.imp ?_ h
  intro a b hab
  exact (donate_order k a b).mpr hab

theorem list_sort_congr (k k1 : Kernel) (l : List Nat) (h : ∀ x, k1.prio x = k.prio x) :
    list_sort (thread_compare_donate_priority k1) l =
      list_sort (thread_compare_donate_priority k) l := by
  have : thread_compare_donate_priority k1 = thread_compare_donate_priority k := by
    funext a b
    have ha := h a
    have hb := h b
    simp only [Kernel.prio] at ha hb
    simp [thread_compare_donate_priority, ha, hb]
  rw [this]

theorem modify_threads (k : Kernel) (t : Nat) (f : thread → thread) (x : Nat) :
    (k.modify t f).threads x = if x = t then f (k.threads t) else k.threads x := by
  unfold Kernel.modify
  by_cases h : x = t
  · subst h; simp
  · simp [Function.update_noteq h, h]

theorem modify_congr (k : Kernel) (t : Nat) (f g : thread → thread)
    (h : f (k.threads t) = g (k.threads t)) : k.modify t f = k.modify t g := by
  unfold Kernel.modify
  rw [h]

theorem modify_modify (k : Kernel) (t : Nat) (f g : thread → thread) :
    (k.modify t f).modify t g = k.modify t (fun r => g (f r)) := by
  unfold Kernel.modify
  simp

theorem set_priority_prio (k : Kernel) (t : Nat) (p : Int) (x : Nat) :
    (k.set_priority t p).prio x = if x = t then p else k.prio x := by
  unfold Kernel.set_priority Kernel.prio
  rw [modify_threads]
  split <;> rfl


theorem modify_prio_of_priority_eq (k : Kernel) (t : Nat) (f : thread → thread)
    (h : (f (k.threads t)).priority = (k.threads t).priority) (x : Nat) :
    (k.modify t f).prio x = k.prio x := by
  unfold Kernel.prio
  rw [modify_threads]
  split
  · rename_i hx; subst hx; exact h
  · rfl

theorem refresh_priority_eq (k k1 : Kernel) (cur : Nat) (S : List Nat) (v : Int)
    (hcur : thread_current k = some cur)
    (hk1 : k1 = k.set_priority cur (k.threads cur).init_priority)
    (hS : S = list_sort (thread_compare_donate_priority k1) (k.threads cur).donations)
    (hv : v = refreshed_priority k1 (k.threads cur).init_priority S) :
    refresh_priority k =
      some (k.modify cur (fun r => { r with priority := v, donations := S })) := by
  unfold refresh_priority
  rw [hcur]
  simp only
  rw [← hk1]
  have hD : (k1.threads cur).donations = (k.threads cur).donations := by
    rw [hk1]; simp [Kernel.set_priority, modify_threads]
  have hP : k1.prio cur = (k.threads cur).init_priority := by
    rw [hk1]; simp [set_priority_prio]
  rw [hD]
  cases hd : (k.threads cur).donations with
  | nil =>
    rw [hd] at hS
    simp only [list_sort] at hS
    subst hS
    simp only [refreshed_priority] at hv
    subst hv
    simp only [list_empty, List.isEmpty_nil, if_true]
    rw [hk1]
    unfold Kernel.set_priority
    congr 1
    apply modify_congr
    simp [hd]
  | cons d ds =>
    simp only [list_empty, List.isEmpty_cons, Bool.false_eq_true, if_false]
    rw [hd] at hD hS
    have hne : S ≠ [] := by
      intro h
      have := (list_sort_perm k1 (d :: ds)).length_eq
      rw [← hS, h] at this
      simp at this
    obtain ⟨f, fs, hf⟩ := List.exists_cons_of_ne_nil hne
    have hk2 : k1.modify cur (fun r =>
          { r with donations := list_sort (thread_compare_donate_priority k1) r.donations }) =
        k.modify cur (fun r => { r with priority := (k.threads cur).init_priority,
                                        donations := S }) := by
      rw [hk1]
      unfold Kernel.set_priority
      rw [modify_modify]
      apply modify_congr
      simp only [hd]
      rw [hS, hk1]
      rfl
    rw [hk2]
    have hfront : ((k.modify cur (fun r =>
        { r with priority := (k.threads cur).init_priority,
                 donations := S })).threads cur).donations = f :: fs := by
      simp [modify_threads, hf]
    rw [hfront]
    simp only [list_front]
    have hpc : ((k.modify cur (fun r =>
        { r with priority := (k.threads cur).init_priority,
                 donations := S })).threads cur).priority = (k.threads cur).init_priority := by
      simp [modify_threads]
    have hpf : ((k.modify cur (fun r =>
        { r with priority := (k.threads cur).init_priority,
                 donations := S })).threads f).priority = k1.prio f := by
      rw [hk1]
      simp only [Kernel.prio, Kernel.set_priority, modify_threads]
      split <;> rfl
    rw [hpc, hpf]
    rw [hf] at hv
    simp only [refreshed_priority] at hv
    by_cases hlt : (k.threads cur).init_priority < k1.prio f
    · rw [if_pos hlt] at hv ⊢
      unfold Kernel.set_priority
      rw [modify_modify]
      congr 1
      apply modify_congr
      simp [hv, hf]
    · rw [if_neg hlt] at hv ⊢
      congr 1
      apply modify_congr
      simp [hv, hf]


theorem refreshed_priority_congr (k k1 : Kernel) (base : Int) (S : List Nat)
    (h : ∀ x, k1.prio x = k.prio x) :
    refreshed_priority k1 base S = refreshed_priority k base S := by
  cases S with
  | nil => rfl
  | cons f fs => simp [refreshed_priority, h f]

theorem refreshed_priority_is_max (k k1 : Kernel) (base : Int) (D S : List Nat)
    (hsorted : sorted_by_priority k1 S) (hperm : S.Perm D)
    (hprio : ∀ d ∈ D, k1.prio d = k.prio d) :
    is_max_priority k D base (refreshed_priority k1 base S) ∧
      (D = [] → refreshed_priority k1 base S = base) := by
  cases S with
  | nil =>
    have hD : D = [] := List.Perm.eq_nil hperm.symm
    subst hD
    exact ⟨⟨le_refl _, by simp, Or.inl rfl⟩, fun _ => rfl⟩
  | cons f fs =>
    have hfD : f ∈ D := hperm.subset (List.mem_cons_self f fs)
    have hle : ∀ d ∈ D, k.prio d ≤ k.prio f := by
      intro d hd
      have hdS : d ∈ f :: fs := hperm.symm.subset hd
      rw [← hprio d hd, ← hprio f hfD]
      rcases List.mem_cons.mp hdS with rfl | hdfs
      · exact le_refl _
      · exact (List.pairwise_cons.mp hsorted).1 d hdfs
    constructor
    · simp only [refreshed_priority, hprio f hfD]
      by_cases hlt : base < k.prio f
      · rw [if_pos hlt]
        exact ⟨le_of_lt hlt, hle, Or.inr ⟨f, hfD, rfl⟩⟩
      · rw [if_neg hlt]
        exact ⟨le_refl _, fun d hd => le_trans (hle d hd) (not_lt.mp hlt), Or.inl rfl⟩
    · intro hD
      subst hD
      simp at hfD

theorem thread_current_modify (k : Kernel) (t cur : Nat) (f : thread → thread)
    (hf : (f (k.threads t)).status = (k.threads t).status)
    (hcur : thread_current k = some cur) : thread_current (k.modify t f) = some cur := by
  obtain ⟨hc, hs⟩ := thread_current_eq k cur hcur
  unfold thread_current
  have hr : (k.modify t f).running = k.running := rfl
  rw [hr, modify_threads]
  by_cases h : k.running = t
  · rw [if_pos h]
    rw [← h] at hf ⊢
    rw [hf, if_pos hs, hc]
  · rw [if_neg h, if_pos hs, hc]

theorem refresh_priority_core (k : Kernel) (cur : Nat)
    (hcur : thread_current k = some cur) (hself : cur ∉ (k.threads cur).donations) :
    ∃ k1, refresh_priority k = some k1 ∧
      ((k.threads cur).donations = [] → k1.prio cur = (k.threads cur).init_priority) ∧
      is_max_priority k (k.threads cur).donations (k.threads cur).init_priority (k1.prio cur) ∧
      (k1.threads cur).init_priority = (k.threads cur).init_priority ∧
      (k1.threads cur).donations.Perm (k.threads cur).donations ∧
      (∀ t, t ≠ cur → k1.threads t = k.threads t) ∧
      refresh_priority k1 = some k1 ∧ thread_current k1 = some cur := by
  have hprio : ∀ d ∈ (k.threads cur).donations,
      (k.set_priority cur (k.threads cur).init_priority).prio d = k.prio d := by
    intro d hd
    rw [set_priority_prio, if_neg]
    rintro rfl
    exact hself hd
  have hsorted := list_sort_sorted (k.set_priority cur (k.threads cur).init_priority)
    (k.threads cur).donations
  have hperm := list_sort_perm (k.set_priority cur (k.threads cur).init_priority)
    (k.threads cur).donations
  obtain ⟨hmax, hnil⟩ := refreshed_priority_is_max k _ (k.threads cur).init_priority _ _
    hsorted hperm hprio
  have heq := refresh_priority_eq k _ cur _ _ hcur rfl rfl rfl
  refine ⟨_, heq, ?_, ?_, ?_, ?_, ?_, ?_, thread_current_modify k cur cur _ rfl hcur⟩
  · intro hD
    simp only [Kernel.prio, modify_threads, if_true]
    exact hnil hD
  · simp only [Kernel.prio, modify_threads, if_true]
    exact hmax
  · simp [modify_threads]
  · simp only [modify_threads, if_true]
    exact hperm
  · intro t ht
    simp [modify_threads, ht]
  · have hcur1 := thread_current_modify k cur cur
      (fun r => { r with
        priority := refreshed_priority (k.set_priority cur (k.threads cur).init_priority)
          (k.threads cur).init_priority
          (list_sort (thread_compare_donate_priority
            (k.set_priority cur (k.threads cur).init_priority)) (k.threads cur).donations),
        donations := list_sort (thread_compare_donate_priority
            (k.set_priority cur (k.threads cur).init_priority)) (k.threads cur).donations })
      rfl hcur
    rw [refresh_priority_eq _ _ cur _ _ hcur1 rfl rfl rfl, modify_modify]
    congr 1
    apply modify_congr
    have hp : ∀ x, ((k.modify cur (fun r => { r with
        priority := refreshed_priority (k.set_priority cur (k.threads cur).init_priority)
          (k.threads cur).init_priority
          (list_sort (thread_compare_donate_priority
            (k.set_priority cur (k.threads cur).init_priority)) (k.threads cur).donations),
        donations := list_sort (thread_compare_donate_priority
            (k.set_priority cur (k.threads cur).init_priority))
              (k.threads cur).donations })).set_priority cur (k.threads cur).init_priority).prio x
        = (k.set_priority cur (k.threads cur).init_priority).prio x := by
      intro x
      simp only [set_priority_prio]
      split
      · rfl
      · rename_i hx
        simp [Kernel.prio, modify_threads, hx]
    simp only [modify_threads, if_true]
    rw [list_sort_congr _ _ _ hp, list_sort_of_sorted _ _ hsorted,
      refreshed_priority_congr _ _ _ _ hp]


/-- C8: `refresh_priority`, run by a thread that is not its own donor, sets the current
thread's priority to `init_priority` when its donations list is empty and otherwise to
`max (init_priority, highest priority among its donors)`; `init_priority` is unchanged,
the donations list holds the same donors (it is only sorted), no other thread changes,
and a second `refresh_priority` leaves the state as it is. -/
theorem refresh_priority_max_idempotent (k : Kernel) (cur : Nat)
    (hcur : thread_current k = some cur) (hself : cur ∉ (k.threads cur).donations) :
    ∃ k1, refresh_priority k = some k1 ∧
      ((k.threads cur).donations = [] → k1.prio cur = (k.threads cur).init_priority) ∧
      is_max_priority k (k.threads cur).donations (k.threads cur).init_priority (k1.prio cur) ∧
      (k1.threads cur).init_priority = (k.threads cur).init_priority ∧
      (k1.threads cur).donations.Perm (k.threads cur).donations ∧
      (∀ t, t ≠ cur → k1.threads t = k.threads t) ∧
      refresh_priority k1 = some k1 := by
  obtain ⟨k1, h1, h2, h3, h4, h5, h6, h7, -⟩ := refresh_priority_core k cur hcur hself
  exact ⟨k1, h1, h2, h3, h4, h5, h6, h7⟩

/-- Witness of C8: "main" (base priority 31) with the donors 21 (35), 22 (45), 23 (45)
gets priority 45, and its donations list becomes `22, 23, 21`. -/
theorem refresh_priority_max_idempotent_witness :
    ∃ k1, refresh_priority demo_donors = some k1 ∧ k1.prio 1 = 45 ∧
      (k1.threads 1).donations = [22, 23, 21] ∧ refresh_priority k1 = some k1 := by
  obtain ⟨k1, h1, -, -, -, -, -, h2⟩ :=
    refresh_priority_max_idempotent demo_donors 1 (by decide) (by decide)
  have e : (refresh_priority demo_donors).map (fun a => (a.prio 1, (a.threads 1).donations)) =
      some (45, [22, 23, 21]) := by decide
  rw [h1] at e
  simp only [Option.map_some', Option.some.injEq, Prod.mk.injEq] at e
  exact ⟨k1, h1, e.1, e.2, h2⟩

/-! ### Setting the priority -/

theorem thread_eta_status (r : thread) : r = { r with status := r.status } := by
  cases r; rfl

theorem thread_yield_total (k : Kernel) (cur : Nat) (hcur : thread_current k = some cur)
    (hne : k.ready_list ≠ [] ∨ some cur ≠ k.idle_thread) :
    ∃ k1, thread_yield k = some k1 ∧
      ∀ x, k1.threads x = { k.threads x with status := (k1.threads x).status } := by
  unfold thread_yield
  rw [hcur]
  simp only
  by_cases hidle : some cur = k.idle_thread
  · simp only [hidle, ne_eq, not_true_eq_false, if_false]
    rcases hne with hne | hne
    · obtain ⟨e, rest, hl⟩ := List.exists_cons_of_ne_nil hne
      obtain ⟨k1, h1, -, -, -, -, -, h7⟩ := do_schedule_ready_cons k cur e rest hcur hl
      exact ⟨k1, h1, h7⟩
    · exact absurd hidle hne
  · simp only [hidle, ne_eq, not_false_eq_true, if_true]
    obtain ⟨e, rest, hl⟩ := List.exists_cons_of_ne_nil
      (list_insert_ordered_ne_nil (thread_compare_priority k) cur k.ready_list)
    obtain ⟨k1, h1, -, -, -, -, -, h7⟩ := do_schedule_ready_cons
      { k with ready_list := list_insert_ordered (thread_compare_priority k) cur k.ready_list }
      cur e rest hcur hl
    exact ⟨k1, h1, h7⟩

theorem thread_preemption_total (k : Kernel) (cur : Nat) (hcur : thread_current k = some cur) :
    ∃ k1, thread_preemption k = some k1 ∧
      ∀ x, k1.threads x = { k.threads x with status := (k1.threads x).status } := by
  unfold thread_preemption
  cases hr : k.ready_list with
  | nil =>
    simp only [list_empty, List.isEmpty_nil, if_true]
    exact ⟨k, rfl, fun x => thread_eta_status _⟩
  | cons e rest =>
    simp only [list_empty, List.isEmpty_cons, Bool.false_eq_true, if_false, hcur, list_front]
    split
    · exact thread_yield_total k cur hcur (Or.inl (by rw [hr]; simp))
    · exact ⟨k, rfl, fun x => thread_eta_status _⟩

theorem is_max_priority_congr (k k1 : Kernel) (D D1 : List Nat) (base v : Int)
    (hmem : ∀ d, d ∈ D1 ↔ d ∈ D) (hprio : ∀ d ∈ D, k1.prio d = k.prio d)
    (h : is_max_priority k1 D1 base v) : is_max_priority k D base v := by
  obtain ⟨h1, h2, h3⟩ := h
  refine ⟨h1, ?_, ?_⟩
  · intro d hd
    rw [← hprio d hd]
    exact h2 d ((hmem d).mpr hd)
  · rcases h3 with h3 | ⟨d, hd, hv⟩
    · exact Or.inl h3
    · exact Or.inr ⟨d, (hmem d).mp hd, by rw [hv, hprio d ((hmem d).mp hd)]⟩

theorem thread_set_priority_core (k : Kernel) (T : Nat) (q : Int)
    (hcur : thread_current k = some T) (hself : T ∉ (k.threads T).donations) :
    ∃ k3, thread_set_priority k q = some k3 ∧
      (k3.threads T).init_priority = q ∧
      is_max_priority k (k.threads T).donations q (k3.prio T) ∧
      ((k.threads T).donations = [] → k3.prio T = q) ∧
      (k3.threads T).donations.Perm (k.threads T).donations ∧
      (∀ x, x ≠ T → k3.prio x = k.prio x) := by
  have hcur0 : thread_current (k.modify T (fun r => { r with init_priority := q })) = some T :=
    thread_current_modify k T T _ rfl hcur
  have hD0 : ((k.modify T (fun r => { r with init_priority := q })).threads T).donations =
      (k.threads T).donations := by simp [modify_threads]
  have hI0 : ((k.modify T (fun r => { r with init_priority := q })).threads T).init_priority =
      q := by simp [modify_threads]
  have hP0 : ∀ x, (k.modify T (fun r => { r with init_priority := q })).prio x = k.prio x :=
    modify_prio_of_priority_eq k T _ rfl
  obtain ⟨k1, h1, h2, h3, h4, h5, h6, -, hcur1⟩ :=
    refresh_priority_core _ T hcur0 (by rw [hD0]; exact hself)
  obtain ⟨k3, h7, h8⟩ := thread_preemption_total k1 T hcur1
  refine ⟨k3, by simp [thread_set_priority, hcur, h1, h7], ?_, ?_, ?_, ?_, ?_⟩
  · rw [h8 T]
    simp only
    rw [h4, hI0]
  · have : k3.prio T = k1.prio T := by
      unfold Kernel.prio
      rw [h8 T]
    rw [this]
    rw [hD0, hI0] at h3
    exact is_max_priority_congr k _ _ _ _ _ (fun d => Iff.rfl) (fun d _ => hP0 d) h3
  · intro hD
    have : k3.prio T = k1.prio T := by
      unfold Kernel.prio
      rw [h8 T]
    rw [this, h2 (by rw [hD0]; exact hD), hI0]
  · rw [h8 T]
    simp only
    rw [← hD0]
    exact h5
  · intro x hx
    have : k3.prio x = k1.prio x := by
      unfold Kernel.prio
      rw [h8 x]
    rw [this]
    unfold Kernel.prio
    rw [h6 x hx]
    exact hP0 x


/-- C10: for a running thread `T` that is not its own donor and all priorities `p`, `q`:
`thread_set_priority (p)` returns, and when `T` then calls `thread_set_priority (q)` (at
once if it still runs, or when it runs again with the same donors) the call returns with
the base priority `init_priority` of `T` equal to `q`, whatever `p` was, and its priority
equal to `max (q, highest donor priority)`, which is `q` when `T` has no donors. -/
theorem thread_set_priority_twice (k : Kernel) (T : Nat) (p q : Int)
    (hcur : thread_current k = some T) (hself : T ∉ (k.threads T).donations) :
    ∃ k1, thread_set_priority k p = some k1 ∧
      (thread_current k1 = some T → resumes k1 k1 T) ∧
      ∀ k2, resumes k1 k2 T →
        ∃ k3, thread_set_priority k2 q = some k3 ∧
          (k3.threads T).init_priority = q ∧
          is_max_priority k (k.threads T).donations q (k3.prio T) ∧
          ((k.threads T).donations = [] → k3.prio T = q) := by
  obtain ⟨k1, h1, -, -, -, hperm1, hprio1⟩ := thread_set_priority_core k T p hcur hself
  refine ⟨k1, h1, fun h => ⟨h, List.Perm.refl _, fun _ _ => rfl⟩, ?_⟩
  intro k2 ⟨hcur2, hperm2, hprio2⟩
  have hperm : (k2.threads T).donations.Perm (k.threads T).donations := hperm2.trans hperm1
  have hself2 : T ∉ (k2.threads T).donations := fun h => hself (hperm.subset h)
  have hprio : ∀ d ∈ (k.threads T).donations, k2.prio d = k.prio d := by
    intro d hd
    have hd1 : d ∈ (k1.threads T).donations := hperm1.symm.subset hd
    rw [hprio2 d hd1]
    apply hprio1
    rintro rfl
    exact hself hd
  obtain ⟨k3, h3, h4, h5, h6, -, -⟩ := thread_set_priority_core k2 T q hcur2 hself2
  refine ⟨k3, h3, h4, ?_, ?_⟩
  · exact is_max_priority_congr k k2 _ _ _ _ (fun d => hperm.mem_iff) hprio h5
  · intro hD
    apply h6
    rw [hD] at hperm
    exact List.Perm.eq_nil hperm

/-- Witness of C10: "main" with donors of priority 35, 45, 45 sets its priority to 50,
still runs, and sets it to 7: its base priority is 7, its priority 45, the highest donor
priority (and thread 31, priority 48, preempts it). -/
theorem thread_set_priority_twice_witness :
    ∃ k1 k3, thread_set_priority demo_donors 50 = some k1 ∧ thread_current k1 = some 1 ∧
      thread_set_priority k1 7 = some k3 ∧
      (k3.threads 1).init_priority = 7 ∧ k3.prio 1 = 45 ∧ k3.running = 31 := by
  obtain ⟨k1, h1, h2, h3⟩ := thread_set_priority_twice demo_donors 1 50 7 (by decide) (by decide)
  have e1 : (thread_set_priority demo_donors 50).bind thread_current = some 1 := by decide
  have e2 : (thread_set_priority demo_donors 50).bind (fun a =>
      (thread_set_priority a 7).map (fun b => (b.prio 1, b.running))) = some (45, 31) := by
    decide
  rw [h1] at e1 e2
  obtain ⟨k3, h4, h5, -⟩ := h3 k1 (h2 e1)
  simp only [Option.some_bind, h4, Option.map_some', Option.some.injEq, Prod.mk.injEq] at e2
  exact ⟨k1, k3, h1, e1, h4, h5, e2.1, e2.2⟩

/-! ### Removing the donors of a lock -/

theorem linked_cons (m : LinkMem) (p q : elem_ptr) (qs : List elem_ptr) :
    Linked m p (q :: qs) ↔ (m p).next = some q ∧ (m q).prev = some p ∧ Linked m q qs :=
  Iff.rfl

theorem linked_split (m : LinkMem) (p b : elem_ptr) (as bs : List elem_ptr) :
    Linked m p (as ++ b :: bs) ↔ Linked m p (as ++ [b]) ∧ Linked m b bs := by
  induction as generalizing p with
  | nil =>
    simp only [List.nil_append, linked_cons, Linked]
    tauto
  | cons a as ih =>
    rw [List.cons_append, List.cons_append, linked_cons, linked_cons, ih a]
    tauto

theorem linked_frame (m m1 : LinkMem) (p : elem_ptr) (qs : List elem_ptr)
    (h : Linked m p qs)
    (hnext : ∀ c ∈ (p :: qs).dropLast, (m1 c).next = (m c).next)
    (hprev : ∀ c ∈ qs, (m1 c).prev = (m c).prev) : Linked m1 p qs := by
  induction qs generalizing p with
  | nil => trivial
  | cons q qs ih =>
    obtain ⟨h1, h2, h3⟩ := h
    refine ⟨?_, ?_, ih q h3 ?_ ?_⟩
    · rw [hnext p (by simp [List.dropLast])]
      exact h1
    · rw [hprev q (by simp)]
      exact h2
    · intro c hc
      apply hnext
      simp only [List.dropLast_cons₂, List.mem_cons]
      exact Or.inr hc
    · intro c hc
      exact hprev c (List.mem_cons_of_mem _ hc)


theorem list_remove_linked (m : LinkMem) (h e n : elem_ptr) (A B : List elem_ptr)
    (hl : Linked m h (A ++ e :: n :: B)) (hnd : (h :: (A ++ e :: n :: B)).Nodup) :
    ∃ m2, list_remove m e = some (m2, n) ∧ Linked m2 h (A ++ n :: B) ∧
      (∀ c, c ≠ n → (m2 c).prev = (m c).prev) ∧
      (∀ c, c ∉ h :: A → (m2 c).next = (m c).next) := by
  induction A generalizing h with
  | nil =>
    simp only [List.nil_append, linked_cons] at hl
    obtain ⟨h1, h2, h3, h4, h5⟩ := hl
    simp only [List.nil_append, List.nodup_cons, List.mem_cons, not_or] at hnd
    obtain ⟨⟨hhe, hhn, hhB⟩, ⟨hen, heB⟩, hnB, -⟩ := hnd
    have hr : list_remove m e = some
        (Function.update (Function.update m h { m h with next := some n }) n
          { Function.update m h { m h with next := some n } n with prev := some h }, n) := by
      unfold list_remove
      simp [h2, h3, Function.update_noteq (Ne.symm hhe), Function.update_noteq hen]
    refine ⟨_, hr, ?_, ?_, ?_⟩
    · simp only [List.nil_append, linked_cons]
      refine ⟨?_, ?_, ?_⟩
      · simp [Function.update_noteq hhn]
      · simp
      · apply linked_frame m _ n B h5
        · intro c hc
          have hcm : c ∈ n :: B := List.dropLast_subset _ hc
          have hch : c ≠ h := by
            rintro rfl
            rcases List.mem_cons.mp hcm with h' | h'
            · exact hhn h'
            · exact hhB h'
          by_cases hcn : c = n
          · subst hcn
            simp [Function.update_noteq hch]
          · simp [Function.update_noteq hcn, Function.update_noteq hch]
        · intro c hc
          have hcn : c ≠ n := by rintro rfl; exact hnB hc
          have hch : c ≠ h := by rintro rfl; exact hhB hc
          simp [Function.update_noteq hcn, Function.update_noteq hch]
    · intro c hcn
      by_cases hch : c = h
      · subst hch
        simp [Function.update_noteq hcn]
      · simp [Function.update_noteq hcn, Function.update_noteq hch]
    · intro c hc
      have hch : c ≠ h := by
        intro h'
        exact hc (by simp [h'])
      by_cases hcn : c = n
      · subst hcn
        simp [Function.update_noteq hch]
      · simp [Function.update_noteq hcn, Function.update_noteq hch]
  | cons a A ih =>
    rw [List.cons_append, linked_cons] at hl
    obtain ⟨h1, h2, h3⟩ := hl
    have hnd1 : (a :: (A ++ e :: n :: B)).Nodup := by
      rw [List.cons_append] at hnd
      exact (List.nodup_cons.mp hnd).2
    have hha : h ∉ a :: (A ++ e :: n :: B) := by
      rw [List.cons_append] at hnd
      exact (List.nodup_cons.mp hnd).1
    obtain ⟨m2, hr, hl2, hp, hn⟩ := ih a h3 hnd1
    refine ⟨m2, hr, ?_, hp, ?_⟩
    · rw [List.cons_append, linked_cons]
      refine ⟨?_, ?_, hl2⟩
      · rw [hn h, h1]
        intro hmem
        apply hha
        rcases List.mem_cons.mp hmem with h' | h'
        · exact h' ▸ List.mem_cons_self _ _
        · exact List.mem_cons_of_mem _ (List.mem_append_left _ h')
      · rw [hp a, h2]
        rintro rfl
        have := (List.nodup_cons.mp hnd1).1
        exact this (by simp)
    · intro c hc
      apply hn
      intro hmem
      exact hc (List.mem_cons_of_mem _ hmem)


theorem cells_nodup (owner : Nat) (l : List Nat) (h : l.Nodup) :
    (elem_ptr.head owner :: (l.map elem_ptr.d_elem ++ [elem_ptr.tail owner])).Nodup := by
  have hinj : Function.Injective elem_ptr.d_elem := fun a b hab => by cases hab; rfl
  rw [List.nodup_cons]
  constructor
  · simp
  · rw [List.nodup_append]
    refine ⟨h.map hinj, by simp, ?_⟩
    intro a ha hb
    simp at ha hb
    obtain ⟨x, -, rfl⟩ := ha
    cases hb

theorem remove_with_lock_loop_spec (k : Kernel) (lock owner : Nat) (rest : List Nat) :
    ∀ (kept : List Nat) (m : LinkMem) (e : elem_ptr) (fuel : Nat),
      Linked m (elem_ptr.head owner)
        (kept.map elem_ptr.d_elem ++ (rest.map elem_ptr.d_elem ++ [elem_ptr.tail owner])) →
      (kept ++ rest).Nodup →
      (rest.map elem_ptr.d_elem ++ [elem_ptr.tail owner]).head? = some e →
      rest.length < fuel →
      ∃ m1, remove_with_lock_loop k lock owner fuel m e = some m1 ∧
        Linked m1 (elem_ptr.head owner)
          ((kept ++ rest.filter (keeps k lock)).map elem_ptr.d_elem ++
            [elem_ptr.tail owner]) := by
  induction rest with
  | nil =>
    intro kept m e fuel hl _ he hf
    simp at he
    subst he
    cases fuel with
    | zero => simp at hf
    | succ f =>
      refine ⟨m, by simp [remove_with_lock_loop, list_end], ?_⟩
      simpa using hl
  | cons x rest ih =>
    intro kept m e fuel hl hnd he hf
    simp at he
    subst he
    cases fuel with
    | zero => simp at hf
    | succ f =>
      simp only [List.length_cons, Nat.add_lt_add_iff_right] at hf
      obtain ⟨n, B, hnB⟩ : ∃ n B, rest.map elem_ptr.d_elem ++ [elem_ptr.tail owner] = n :: B := by
        cases rest with
        | nil => exact ⟨_, _, rfl⟩
        | cons y ys => exact ⟨_, _, rfl⟩
      have hl1 : Linked m (elem_ptr.head owner)
          (kept.map elem_ptr.d_elem ++ elem_ptr.d_elem x :: n :: B) := by
        rw [← hnB]
        simpa using hl
      have hnext : (m (elem_ptr.d_elem x)).next = some n :=
        ((linked_split m _ _ _ _).mp hl1).2.1
      have hcells := cells_nodup owner (kept ++ x :: rest) hnd
      have hcells1 : (elem_ptr.head owner ::
          (kept.map elem_ptr.d_elem ++ elem_ptr.d_elem x :: n :: B)).Nodup := by
        rw [← hnB]
        simpa using hcells
      by_cases hw : (k.threads x).wait_lock = some lock
      · obtain ⟨m2, hr, hl2, -, hn2⟩ := list_remove_linked m _ _ n _ B hl1 hcells1
        have hnext2 : (m2 (elem_ptr.d_elem x)).next = some n := by
          rw [hn2, hnext]
          intro hmem
          have h1 := (List.nodup_cons.mp hcells1).1
          have h2 := (List.nodup_cons.mp hcells1).2
          rcases List.mem_cons.mp hmem with h' | h'
          · cases h'
          · rw [List.nodup_append] at h2
            exact h2.2.2 h' (List.mem_cons_self _ _)
        have hnd2 : (kept ++ rest).Nodup := by
          rw [List.nodup_append] at hnd ⊢
          refine ⟨hnd.1, (List.nodup_cons.mp hnd.2.1).2, ?_⟩
          intro a ha hb
          exact hnd.2.2 ha (List.mem_cons_of_mem _ hb)
        obtain ⟨m1, h1, h2⟩ := ih kept m2 n f (by rw [hnB]; exact hl2) hnd2
          (by rw [hnB]; rfl) hf
        refine ⟨m1, ?_, ?_⟩
        · simp [remove_with_lock_loop, list_end, hw, hr, list_next, hnext2, h1]
        · have : (x :: rest).filter (keeps k lock) = rest.filter (keeps k lock) := by
            simp [List.filter_cons, keeps, hw]
          rw [this]
          exact h2
      · obtain ⟨m1, h1, h2⟩ := ih (kept ++ [x]) m n f (by simpa using hl)
          (by simpa using hnd) (by rw [hnB]; rfl) hf
        refine ⟨m1, ?_, ?_⟩
        · simp [remove_with_lock_loop, list_end, hw, list_next, hnext, h1]
        · have : (x :: rest).filter (keeps k lock) = x :: rest.filter (keeps k lock) := by
            simp [List.filter_cons, keeps, hw]
          rw [this]
          simpa using h2


theorem link_cells_other (p : elem_ptr) (qs : List elem_ptr) (m : LinkMem) (c : elem_ptr)
    (hc : c ∉ p :: qs) : link_cells p qs m c = m c := by
  induction qs generalizing p m with
  | nil => rfl
  | cons q qs ih =>
    simp only [List.mem_cons, not_or] at hc
    obtain ⟨hcp, hcq, hcqs⟩ := hc
    unfold link_cells
    simp only
    rw [ih q _ (by simp [hcq, hcqs])]
    simp [Function.update_noteq hcq, Function.update_noteq hcp]

theorem link_cells_prev (p : elem_ptr) (qs : List elem_ptr) (m : LinkMem) (hp : p ∉ qs) :
    (link_cells p qs m p).prev = (m p).prev := by
  cases qs with
  | nil => rfl
  | cons q qs =>
    simp only [List.mem_cons, not_or] at hp
    unfold link_cells
    simp only
    rw [link_cells_other q qs _ p (by simp [hp.1, hp.2])]
    simp [Function.update_noteq hp.1]

theorem link_cells_linked (p : elem_ptr) (qs : List elem_ptr) (m : LinkMem)
    (hnd : (p :: qs).Nodup) : Linked (link_cells p qs m) p qs := by
  induction qs generalizing p m with
  | nil => trivial
  | cons q qs ih =>
    have hpq : p ∉ q :: qs := (List.nodup_cons.mp hnd).1
    have hnd1 : (q :: qs).Nodup := (List.nodup_cons.mp hnd).2
    have hq : q ∉ qs := (List.nodup_cons.mp hnd1).1
    have hne : p ≠ q := fun h => hpq (by simp [h])
    rw [linked_cons]
    unfold link_cells
    simp only
    refine ⟨?_, ?_, ih q _ hnd1⟩
    · rw [link_cells_other q qs _ p hpq]
      simp [Function.update_noteq hne]
    · rw [link_cells_prev q qs _ hq]
      simp

theorem donations_cells_is_list (owner : Nat) (l : List Nat) (h : l.Nodup) :
    IsDonations (donations_cells owner l) owner l :=
  ⟨link_cells_linked _ _ _ (cells_nodup owner l h), h⟩

theorem read_cells_linked (owner : Nat) (m : LinkMem) (xs : List Nat) :
    ∀ (p : elem_ptr) (fuel : Nat),
      Linked m p (xs.map elem_ptr.d_elem ++ [elem_ptr.tail owner]) → xs.length < fuel →
      ∃ e, (m p).next = some e ∧ read_cells owner fuel m e = some xs := by
  induction xs with
  | nil =>
    intro p fuel hl hf
    cases fuel with
    | zero => simp at hf
    | succ f =>
      simp only [List.map_nil, List.nil_append, linked_cons] at hl
      exact ⟨_, hl.1, by simp [read_cells]⟩
  | cons x xs ih =>
    intro p fuel hl hf
    cases fuel with
    | zero => simp at hf
    | succ f =>
      simp only [List.map_cons, List.cons_append, linked_cons] at hl
      obtain ⟨h1, -, h3⟩ := hl
      obtain ⟨e1, h4, h5⟩ := ih (elem_ptr.d_elem x) f h3 (by simpa using hf)
      exact ⟨_, h1, by simp [read_cells, h4, h5]⟩

theorem remove_with_lock_loop_filters (k : Kernel) (lock owner : Nat) (m : LinkMem)
    (l : List Nat) (h : IsDonations m owner l) :
    ∃ e m1, list_begin m owner = some e ∧
      remove_with_lock_loop k lock owner (l.length + 1) m e = some m1 ∧
      IsDonations m1 owner (l.filter (keeps k lock)) := by
  obtain ⟨hl, hnd⟩ := h
  obtain ⟨n, B, hnB⟩ : ∃ n B, l.map elem_ptr.d_elem ++ [elem_ptr.tail owner] = n :: B := by
    cases l with
    | nil => exact ⟨_, _, rfl⟩
    | cons y ys => exact ⟨_, _, rfl⟩
  have hb : list_begin m owner = some n := by
    rw [hnB, linked_cons] at hl
    exact hl.1
  obtain ⟨m1, h1, h2⟩ := remove_with_lock_loop_spec k lock owner l [] m n (l.length + 1)
    (by simpa using hl) (by simpa using hnd) (by rw [hnB]; rfl) (Nat.lt_succ_self _)
  exact ⟨n, m1, hb, h1, by simpa using h2, hnd.filter _⟩

theorem remove_with_lock_eq (k : Kernel) (lock cur : Nat)
    (hcur : thread_current k = some cur) (hnd : (k.threads cur).donations.Nodup) :
    remove_with_lock k lock = some (k.modify cur (fun r =>
      { r with donations := r.donations.filter (keeps k lock) })) := by
  obtain ⟨e, m1, hb, hloop, hl1, -⟩ := remove_with_lock_loop_filters k lock cur _ _
    (donations_cells_is_list cur _ hnd)
  obtain ⟨e1, hb1, hread⟩ := read_cells_linked cur m1 _ (elem_ptr.head cur)
    ((k.threads cur).donations.length + 1) hl1
    (Nat.lt_succ_of_le (List.length_filter_le _ _))
  unfold remove_with_lock
  rw [hcur]
  simp only
  rw [hb]
  simp only
  rw [hloop]
  simp only
  have hb1' : list_begin m1 cur = some e1 := hb1
  rw [hb1']
  simp only
  rw [hread]
  simp only
  congr 1

/-- C9: for every lock, `remove_with_lock (lock)`, run by a thread whose donations list
is a well-formed list (no element linked twice), goes through the whole list and returns;
afterwards the current thread's donations list holds exactly the previous donors whose
`wait_lock` is not `lock`, in their previous relative order (consecutive donors waiting
for `lock` are all removed); no other field of the current thread, no other thread and no
lock changes. -/
theorem remove_with_lock_filters (k : Kernel) (lock cur : Nat)
    (hcur : thread_current k = some cur) (hnd : (k.threads cur).donations.Nodup) :
    ∃ k1, remove_with_lock k lock = some k1 ∧
      (k1.threads cur).donations =
        (k.threads cur).donations.filter (fun t => decide ((k.threads t).wait_lock ≠ some lock)) ∧
      (∀ t, t ≠ cur → k1.threads t = k.threads t) ∧
      k1.threads cur = { k.threads cur with donations := (k1.threads cur).donations } ∧
      k1.locks = k.locks ∧ k1.ready_list = k.ready_list ∧ k1.running = k.running := by
  refine ⟨_, remove_with_lock_eq k lock cur hcur hnd, ?_, ?_, ?_, rfl, rfl, rfl⟩
  · simp only [modify_threads, if_true]
    rfl
  · intro t ht
    simp [modify_threads, ht]
  · simp [modify_threads]

/-- Witness of C9: of the donors 21, 22 (lock 0), 23 (lock 5), 24 (lock 0) of "main",
`remove_with_lock (0)` leaves 23; 21 and 22 are consecutive. -/
theorem remove_with_lock_filters_witness :
    ∃ k1, remove_with_lock demo_two_locks 0 = some k1 ∧ (k1.threads 1).donations = [23] := by
  obtain ⟨k1, h1, h2, -⟩ := remove_with_lock_filters demo_two_locks 0 1 (by decide) (by decide)
  refine ⟨k1, h1, ?_⟩
  rw [h2]
  decide

/-! ### The ready list without donation -/

theorem schedule_lists (k k1 : Kernel)
    (hst : (k.threads k.running).status ≠ THREAD_RUNNING)
    (hdy : (k.threads k.running).status ≠ THREAD_DYING)
    (h : schedule k = some k1) :
    same_but_schedule k k1 ∧
      ((∃ e rest, k.ready_list = e :: rest ∧ k1.running = e ∧ k1.ready_list = rest) ∨
       (k.ready_list = [] ∧ k1.ready_list = [] ∧ k.idle_thread = some k1.running)) := by
  cases hr : k.ready_list with
  | nil =>
    cases hi : k.idle_thread with
    | none =>
      simp [schedule, next_thread_to_run_nil k hr, hi] at h
    | some i =>
      rw [schedule_nil k i hst hdy hr hi] at h
      cases h
      refine ⟨⟨rfl, rfl, ?_⟩, Or.inr ⟨rfl, hr, rfl⟩⟩
      intro x
      simp only [Kernel.prio]
      by_cases hx : x = i
      · subst hx; simp
      · simp [Function.update_noteq hx]
  | cons e rest =>
    rw [schedule_cons k e rest hst hdy hr] at h
    cases h
    refine ⟨⟨rfl, rfl, ?_⟩, Or.inl ⟨e, rest, rfl, rfl, rfl⟩⟩
    intro x
    simp only [Kernel.prio]
    by_cases hx : x = e
    · subst hx; simp
    · simp [Function.update_noteq hx]

theorem list_insert_ordered_perm (less : Nat → Nat → Bool) (e : Nat) (l : List Nat) :
    (list_insert_ordered less e l).Perm (e :: l) := by
  obtain ⟨pre, post, h1, h2, -, -⟩ := list_insert_ordered_split less e l
  rw [h2, h1]
  exact List.perm_middle

theorem sorted_by_priority_congr_mem (k k1 : Kernel) (l : List Nat)
    (h : ∀ x ∈ l, k1.prio x = k.prio x) (hs : sorted_by_priority k l) :
    sorted_by_priority k1 l := by
  unfold sorted_by_priority at *
  refine List.Pairwise.imp_of_mem ?_ hs
  intro a b ha hb hab
  rw [h a ha, h b hb]
  exact hab

theorem schedule_lists_ok (k k1 : Kernel) (hpre : lists_pre k)
    (hst : (k.threads k.running).status ≠ THREAD_RUNNING)
    (hdy : (k.threads k.running).status ≠ THREAD_DYING)
    (h : schedule k = some k1) : lists_ok k1 := by
  obtain ⟨hs, hn, hsn, hsr, hi⟩ := hpre
  obtain ⟨⟨e1, e2, e3⟩, hcase⟩ := schedule_lists k k1 hst hdy h
  rcases hcase with ⟨e, rest, hr, hrun, hrest⟩ | ⟨hr, hr1, hidle⟩
  · rw [hr] at hs hn hsr
    refine ⟨?_, ?_, ?_, ?_, ?_, ?_⟩
    · rw [hrest]
      exact sorted_by_priority_congr k k1 _ e3 (List.Pairwise.of_cons hs)
    · rw [hrest]; exact (List.nodup_cons.mp hn).2
    · rw [hrest, hrun]; exact (List.nodup_cons.mp hn).1
    · rw [e1]; exact hsn
    · intro x hx
      rw [e1] at hx
      have := hsr x hx
      simp only [List.mem_cons, not_or] at this
      rw [hrest, hrun]
      exact ⟨this.2, this.1⟩
    · intro i hi1
      rw [e1]
      exact hi i (e2 ▸ hi1)
  · refine ⟨?_, ?_, ?_, ?_, ?_, ?_⟩
    · rw [hr1]; exact List.Pairwise.nil
    · rw [hr1]; exact List.nodup_nil
    · rw [hr1]; simp
    · rw [e1]; exact hsn
    · intro x hx
      rw [e1] at hx
      rw [hr1]
      refine ⟨by simp, ?_⟩
      rintro rfl
      exact hi _ hidle hx
    · intro i hi1
      rw [e1]
      exact hi i (e2 ▸ hi1)

theorem do_schedule_unfold (k : Kernel) (cur : Nat) (s : thread_status)
    (hc : thread_current k = some cur) :
    do_schedule k s = schedule (Kernel.set_status
      { k with freed := k.freed ++ k.destruction_req, destruction_req := [] } cur s) := by
  unfold do_schedule
  rw [hc]

theorem thread_yield_idle (k : Kernel) (cur : Nat) (hc : thread_current k = some cur)
    (hidle : some cur = k.idle_thread) : thread_yield k = do_schedule k THREAD_READY := by
  unfold thread_yield
  rw [hc]
  simp only
  rw [if_neg (not_not.mpr hidle)]

theorem thread_yield_other (k : Kernel) (cur : Nat) (hc : thread_current k = some cur)
    (hidle : some cur ≠ k.idle_thread) :
    thread_yield k = do_schedule
      { k with ready_list := list_insert_ordered (thread_compare_priority k) cur k.ready_list }
      THREAD_READY := by
  unfold thread_yield
  rw [hc]
  simp only
  rw [if_pos hidle]

theorem thread_yield_lists_ok (k k1 : Kernel) (hok : lists_ok k)
    (h : thread_yield k = some k1) : lists_ok k1 := by
  obtain ⟨hs, hn, hrun, hsn, hsr, hi⟩ := hok
  cases hc : thread_current k with
  | none => simp [thread_yield, hc] at h
  | some cur =>
    obtain ⟨hce, hcs⟩ := thread_current_eq k cur hc
    by_cases hidle : some cur = k.idle_thread
    · rw [thread_yield_idle k cur hc hidle, do_schedule_unfold k cur _ hc] at h
      refine schedule_lists_ok _ k1 ?_ ?_ ?_ h
      · refine ⟨?_, hn, hsn, fun x hx => (hsr x hx).1, hi⟩
        exact sorted_by_priority_congr _ _ _ (fun x => set_status_prio _ _ _ _) hs
      · simp [Kernel.set_status, Kernel.modify, hce]
      · simp [Kernel.set_status, Kernel.modify, hce]
    · have hc1 : thread_current
          { k with ready_list := list_insert_ordered (thread_compare_priority k) cur k.ready_list }
          = some cur := hc
      rw [thread_yield_other k cur hc hidle, do_schedule_unfold _ cur _ hc1] at h
      have hperm := list_insert_ordered_perm (thread_compare_priority k) cur k.ready_list
      refine schedule_lists_ok _ k1 ?_ ?_ ?_ h
      · refine ⟨?_, ?_, hsn, ?_, hi⟩
        · exact sorted_by_priority_congr k _ _ (fun x => set_status_prio _ _ _ _)
            (insert_sorted_at_fifo_slot k cur k.ready_list hs).2
        · show (list_insert_ordered (thread_compare_priority k) cur k.ready_list).Nodup
          rw [hperm.nodup_iff]
          exact List.nodup_cons.mpr ⟨hce ▸ hrun, hn⟩
        · intro x hx
          show x ∉ list_insert_ordered (thread_compare_priority k) cur k.ready_list
          rw [hperm.mem_iff]
          simp only [List.mem_cons, not_or]
          exact ⟨hce ▸ (hsr x hx).2, (hsr x hx).1⟩
      · simp [Kernel.set_status, Kernel.modify, hce]
      · simp [Kernel.set_status, Kernel.modify, hce]

theorem thread_preemption_lists_ok (k k1 : Kernel) (hok : lists_ok k)
    (h : thread_preemption k = some k1) : lists_ok k1 := by
  unfold thread_preemption at h
  split at h
  · cases h; exact hok
  · split at h
    · split at h
      · exact thread_yield_lists_ok k k1 hok h
      · cases h; exact hok
    · cases h

theorem thread_unblock_lists_ok (k k1 : Kernel) (t : Nat) (hok : lists_ok k)
    (hr : t ∉ k.ready_list) (hrun : t ≠ k.running) (hsl : t ∉ k.sleep_list)
    (h : thread_unblock k t = some k1) : lists_ok k1 := by
  obtain ⟨hs, hn, hrn, hsn, hsr, hi⟩ := hok
  unfold thread_unblock at h
  split at h
  · cases h
    have hperm := list_insert_ordered_perm (thread_compare_priority k) t k.ready_list
    refine ⟨?_, ?_, ?_, hsn, ?_, hi⟩
    · exact sorted_by_priority_congr k _ _ (fun x => set_status_prio _ _ _ _)
        (insert_sorted_at_fifo_slot k t k.ready_list hs).2
    · show (list_insert_ordered (thread_compare_priority k) t k.ready_list).Nodup
      rw [hperm.nodup_iff]
      exact List.nodup_cons.mpr ⟨hr, hn⟩
    · show k.running ∉ list_insert_ordered (thread_compare_priority k) t k.ready_list
      rw [hperm.mem_iff]
      simp only [List.mem_cons, not_or]
      exact ⟨Ne.symm hrun, hrn⟩
    · intro x hx
      have hx1 : x ∈ k.sleep_list := hx
      refine ⟨?_, (hsr x hx1).2⟩
      show x ∉ list_insert_ordered (thread_compare_priority k) t k.ready_list
      rw [hperm.mem_iff]
      simp only [List.mem_cons, not_or]
      refine ⟨?_, (hsr x hx1).1⟩
      rintro rfl
      exact hsl hx1
  · cases h

theorem thread_sleep_lists_ok (k k1 : Kernel) (ticks : Int) (hok : lists_ok k)
    (h : thread_sleep k ticks = some k1) : lists_ok k1 := by
  obtain ⟨hs, hn, hrn, hsn, hsr, hi⟩ := hok
  unfold thread_sleep at h
  cases hc : thread_current k with
  | none => rw [hc] at h; cases h
  | some cur =>
    obtain ⟨hce, hcs⟩ := thread_current_eq k cur hc
    rw [hc] at h
    simp only at h
    split at h
    · cases h
    · rename_i hidle
      unfold thread_block at h
      have hc1 : thread_current
          { k.modify cur (fun r => { r with wakeup := ticks }) with
            sleep_list := list_push_back (k.modify cur (fun r =>
              { r with wakeup := ticks })).sleep_list cur } = some cur :=
        thread_current_modify k cur cur (fun r => { r with wakeup := ticks }) rfl hc
      rw [hc1] at h
      simp only at h
      have hp : ∀ x, (Kernel.set_status
          { k.modify cur (fun r => { r with wakeup := ticks }) with
            sleep_list := list_push_back (k.modify cur (fun r =>
              { r with wakeup := ticks })).sleep_list cur } cur THREAD_BLOCKED).prio x
          = k.prio x := by
        intro x
        rw [set_status_prio]
        exact modify_prio_of_priority_eq k cur (fun r => { r with wakeup := ticks }) rfl x
      have hcs1 : cur ∉ k.sleep_list := fun hx => (hsr cur hx).2 hce
      refine schedule_lists_ok _ k1 ?_ ?_ ?_ h
      · refine ⟨?_, hn, ?_, ?_, ?_⟩
        · exact sorted_by_priority_congr k _ _ hp hs
        · show (list_push_back k.sleep_list cur).Nodup
          unfold list_push_back
          rw [List.nodup_append]
          refine ⟨hsn, List.nodup_singleton _, ?_⟩
          intro a ha hb
          simp at hb
          subst hb
          exact hcs1 ha
        · intro x hx
          have hx1 : x ∈ list_push_back k.sleep_list cur := hx
          unfold list_push_back at hx1
          show x ∉ k.ready_list
          rcases List.mem_append.mp hx1 with hx2 | hx2
          · exact (hsr x hx2).1
          · simp at hx2
            subst hx2
            exact hce ▸ hrn
        · intro i hi1
          show i ∉ list_push_back k.sleep_list cur
          unfold list_push_back
          intro hmem
          rcases List.mem_append.mp hmem with hx2 | hx2
          · exact hi i hi1 hx2
          · simp at hx2
            subst hx2
            exact hidle hi1.symm
      · simp [Kernel.set_status, Kernel.modify, hce]
      · simp [Kernel.set_status, Kernel.modify, hce]

theorem thread_awake_loop_lists_ok (ticks : Int) (rest : List Nat) :
    ∀ (k k1 : Kernel), lists_ok k → rest.Nodup → (∀ t ∈ rest, t ∈ k.sleep_list) →
      thread_awake_loop ticks rest k = some k1 → lists_ok k1 := by
  induction rest with
  | nil =>
    intro k k1 hok _ _ h
    simp [thread_awake_loop] at h
    subst h
    exact hok
  | cons t rest ih =>
    intro k k1 hok hnd hsub h
    have htn : t ∉ rest := (List.nodup_cons.mp hnd).1
    have hnd1 : rest.Nodup := (List.nodup_cons.mp hnd).2
    have hts : t ∈ k.sleep_list := hsub t (List.mem_cons_self _ _)
    unfold thread_awake_loop at h
    split at h
    · cases hu : thread_unblock { k with sleep_list := k.sleep_list.erase t } t with
      | none => rw [hu] at h; cases h
      | some k2 =>
        rw [hu] at h
        simp only at h
        obtain ⟨hs, hn, hrn, hsn, hsr, hi⟩ := hok
        have hok1 : lists_ok { k with sleep_list := k.sleep_list.erase t } :=
          ⟨hs, hn, hrn, hsn.erase t, fun x hx => hsr x (List.mem_of_mem_erase hx),
            fun i hi1 hm => hi i hi1 (List.mem_of_mem_erase hm)⟩
        have hok2 := thread_unblock_lists_ok _ k2 t hok1 (hsr t hts).1 (hsr t hts).2
          (fun hm => (List.Nodup.mem_erase_iff hsn).mp hm |>.1 rfl) hu
        refine ih k2 k1 hok2 hnd1 ?_ h
        intro x hx
        have hsl2 : k2.sleep_list = k.sleep_list.erase t := by
          unfold thread_unblock at hu
          split at hu
          · cases hu; rfl
          · cases hu
        rw [hsl2]
        refine (List.mem_erase_of_ne ?_).mpr (hsub x (List.mem_cons_of_mem _ hx))
        rintro rfl
        exact htn hx
    · exact ih k k1 hok hnd1 (fun x hx => hsub x (List.mem_cons_of_mem _ hx)) h

theorem thread_awake_lists_ok (k k1 : Kernel) (ticks : Int) (hok : lists_ok k)
    (h : thread_awake k ticks = some k1) : lists_ok k1 :=
  thread_awake_loop_lists_ok ticks k.sleep_list k k1 hok hok.2.2.2.1 (fun _ ht => ht) h

theorem lists_ok_of_threads (k k1 : Kernel)
    (hr : k1.ready_list = k.ready_list) (hs : k1.sleep_list = k.sleep_list)
    (hrun : k1.running = k.running) (hi : k1.idle_thread = k.idle_thread)
    (hp : ∀ x ∈ k.ready_list, k1.prio x = k.prio x) (hok : lists_ok k) : lists_ok k1 := by
  obtain ⟨h1, h2, h3, h4, h5, h6⟩ := hok
  unfold lists_ok
  rw [hr, hs, hrun, hi]
  exact ⟨sorted_by_priority_congr_mem k k1 _ hp h1, h2, h3, h4, h5, h6⟩

theorem thread_set_priority_lists_ok (k k1 : Kernel) (p : Int) (hok : lists_ok k)
    (h : thread_set_priority k p = some k1) : lists_ok k1 := by
  unfold thread_set_priority at h
  cases hc : thread_current k with
  | none => rw [hc] at h; cases h
  | some cur =>
    obtain ⟨hce, -⟩ := thread_current_eq k cur hc
    rw [hc] at h
    simp only at h
    have hc0 : thread_current (k.modify cur (fun r => { r with init_priority := p })) =
        some cur := thread_current_modify k cur cur _ rfl hc
    rw [refresh_priority_eq _ _ cur _ _ hc0 rfl rfl rfl] at h
    simp only at h
    refine thread_preemption_lists_ok _ k1 ?_ h
    refine lists_ok_of_threads k _ rfl rfl rfl rfl ?_ hok
    intro x hx
    have hxc : x ≠ cur := by
      rintro rfl
      exact hok.2.2.1 (hce ▸ hx)
    simp [Kernel.prio, modify_threads, hxc]

theorem thread_create_lists_ok (k k1 : Kernel) (page : Nat) (priority tid : Int)
    (hok : lists_ok k) (hrun : page ≠ k.running) (hr : page ∉ k.ready_list)
    (hsl : page ∉ k.sleep_list)
    (h : thread_create k (some page) priority = some (k1, tid)) : lists_ok k1 := by
  unfold thread_create at h
  simp only at h
  cases h0 : init_thread k page priority with
  | none => rw [h0] at h; cases h
  | some k0 =>
    rw [h0] at h
    simp only at h
    have hk0 : lists_ok k0 := by
      unfold init_thread at h0
      split at h0
      · cases h0
        refine lists_ok_of_threads k _ rfl rfl rfl rfl ?_ hok
        intro x hx
        have hxp : x ≠ page := by
          rintro rfl
          exact hr hx
        simp [Kernel.prio, Function.update_noteq hxp]
      · cases h0
    have hf : k0.ready_list = k.ready_list ∧ k0.sleep_list = k.sleep_list ∧
        k0.running = k.running := by
      unfold init_thread at h0
      split at h0
      · cases h0; exact ⟨rfl, rfl, rfl⟩
      · cases h0
    cases hu : thread_unblock
        { k0.modify page (fun r => { r with tid := k0.next_tid }) with
          next_tid := k0.next_tid + 1 } page with
    | none => rw [hu] at h; cases h
    | some k3 =>
      rw [hu] at h
      simp only at h
      cases hpre : thread_preemption k3 with
      | none => rw [hpre] at h; cases h
      | some k4 =>
        rw [hpre] at h
        cases h
        refine thread_preemption_lists_ok k3 _ ?_ hpre
        refine thread_unblock_lists_ok _ k3 page ?_ ?_ ?_ ?_ hu
        · refine lists_ok_of_threads k0 _ rfl rfl rfl rfl ?_ hk0
          intro x _
          exact modify_prio_of_priority_eq k0 page (fun r => { r with tid := k0.next_tid }) rfl x
        · show page ∉ k0.ready_list
          rw [hf.1]; exact hr
        · show page ≠ k0.running
          rw [hf.2.2]; exact hrun
        · show page ∉ k0.sleep_list
          rw [hf.2.1]; exact hsl

theorem run_lists_ok (cs : List Call) :
    ∀ (k k1 : Kernel), lists_ok k → lock_free_run k cs = true → run k cs = some k1 →
      lists_ok k1 := by
  induction cs with
  | nil =>
    intro k k1 hok _ h
    simp [run] at h
    subst h
    exact hok
  | cons c cs ih =>
    intro k k1 hok hfree h
    unfold lock_free_run at hfree
    rw [Bool.and_eq_true] at hfree
    obtain ⟨hc, hrest⟩ := hfree
    unfold run at h
    cases hs : step k c with
    | none => rw [hs] at h; cases h
    | some k2 =>
      rw [hs] at h hrest
      simp only at h hrest
      refine ih k2 k1 ?_ hrest h
      cases c with
      | create page priority =>
        simp only [step, Option.map_eq_some'] at hs
        obtain ⟨⟨k3, tid⟩, h3, rfl⟩ := hs
        simp only [decide_eq_true_eq] at hc
        exact thread_create_lists_ok k k3 page priority tid hok hc.1 hc.2.1 hc.2.2 h3
      | yield => exact thread_yield_lists_ok k k2 hok hs
      | sleep ticks => exact thread_sleep_lists_ok k k2 ticks hok hs
      | awake ticks => exact thread_awake_lists_ok k k2 ticks hok hs
      | set_priority p => exact thread_set_priority_lists_ok k k2 p hok hs
      | acquire l => simp at hc

theorem boot_lists_ok : lists_ok boot := by
  refine ⟨List.Pairwise.nil, List.nodup_nil, ?_, List.nodup_nil, ?_, ?_⟩
  · simp [boot]
  · intro x hx
    simp [boot] at hx
  · intro i _
    simp [boot]

/-- Without donation the invariant of C2 holds: in every state reached from `boot` by calls of `thread_create` (on a page not in
use), `thread_yield`, `thread_sleep`, `thread_awake` and `thread_set_priority`, without
`lock_acquire` (so without `donate_priority`), the ready list is sorted by priority,
highest first, and its head has priority `>=` every other thread on it. -/
theorem ready_head_highest_without_donation (cs : List Call) (k : Kernel)
    (hfree : lock_free_run boot cs = true) (h : run boot cs = some k) :
    sorted_by_priority k k.ready_list ∧ head_is_highest k := by
  have hok := run_lists_ok cs boot k boot_lists_ok hfree h
  refine ⟨hok.1, ?_⟩
  intro e rest hr x hx
  have := hok.1
  unfold sorted_by_priority at this
  rw [hr] at this
  exact (List.pairwise_cons.mp this).1 x hx

/-- Example of a run without donation: `lock_free_calls` ends with "main" running and the ready list
`4 (20), 5 (15), 3 (5)`. -/
theorem ready_head_highest_without_donation_witness :
    ∃ k, run boot lock_free_calls = some k ∧ k.ready_list = [4, 5, 3] ∧ k.running = 1 ∧
      sorted_by_priority k k.ready_list ∧ head_is_highest k := by
  have h : run boot lock_free_calls = some _ := rfl
  exact ⟨_, h, rfl, rfl, ready_head_highest_without_donation _ _ (by decide) h⟩

/-! ### The timer: PIT count -/

theorem pit_quotient_bounds (f : Nat) (h1 : 19 ≤ f) (h2 : f ≤ 1000) :
    1 ≤ (1193180 + f / 2) / f ∧ (1193180 + f / 2) / f ≤ 65535 := by
  constructor
  · apply Nat.div_pos <;> omega
  · calc (1193180 + f / 2) / f ≤ (1193180 + f / 2) / 19 := Nat.div_le_div_left h1 (by decide)
      _ ≤ 65535 := by omega

/-- C17: for every `TIMER_FREQ` with `19 <= f <= 1000`, the count of `timer_init` is the
untruncated quotient `(1193180 + f / 2) / f`, which is `1193180 / f` rounded to the nearest
integer (`|count * f - 1193180| <= f / 2`, a tie going up), lies in `1 .. 65535`, and the
two bytes written to port `0x40` after the control word, low byte first, reassemble to it. -/
theorem pit_count_nearest (f : Nat) (h1 : 19 ≤ f) (h2 : f ≤ 1000) :
    pit_count f = (1193180 + f / 2) / f ∧
    2 * (pit_count f * f) ≤ 2 * 1193180 + f ∧ 2 * 1193180 < 2 * (pit_count f * f) + f ∧
    1 ≤ pit_count f ∧ pit_count f ≤ 65535 ∧
    ∃ lo hi, timer_init f = [(0x43, 0x34), (0x40, lo), (0x40, hi)] ∧ lo < 256 ∧ hi < 256 ∧
      lo + 256 * hi = pit_count f := by
  obtain ⟨hq1, hq2⟩ := pit_quotient_bounds f h1 h2
  have hc : pit_count f = (1193180 + f / 2) / f := by
    unfold pit_count
    exact Nat.mod_eq_of_lt (by omega)
  have hdm := Nat.div_add_mod (1193180 + f / 2) f
  have hr := Nat.mod_lt (1193180 + f / 2) (show 0 < f by omega)
  have hi : timer_init f = [(0x43, 0x34), (0x40, (pit_count f &&& 0xff) % 2 ^ 8),
      (0x40, (pit_count f >>> 8) % 2 ^ 8)] := rfl
  rw [hi, hc]
  generalize (1193180 + f / 2) / f = q at *
  generalize (1193180 + f / 2) % f = r at *
  have hmul : q * f = f * q := Nat.mul_comm q f
  refine ⟨rfl, by rw [hmul]; generalize f * q = p at *; omega,
          by rw [hmul]; generalize f * q = p at *; omega, hq1, hq2, ?_⟩
  refine ⟨(q &&& 0xff) % 2 ^ 8, (q >>> 8) % 2 ^ 8, rfl, Nat.mod_lt _ (by decide),
    Nat.mod_lt _ (by decide), ?_⟩
  have e1 : q &&& 0xff = q % 256 := Nat.and_pow_two_sub_one_eq_mod q 8
  rw [e1, Nat.shiftRight_eq_div_pow]
  omega

/-- Witness of C17: at 100 Hz the count is 11932, written as the bytes `0x9c`, `0x2e`. -/
theorem pit_count_nearest_witness :
    pit_count 100 = 11932 ∧ timer_init 100 = [(0x43, 0x34), (0x40, 0x9c), (0x40, 0x2e)] := by
  have h := pit_count_nearest 100 (by decide) (by decide)
  exact ⟨h.1.trans (by decide), by decide⟩

/-! ### The timer: the time slice -/

theorem update_statistics_frame (m : Machine) (t : Nat) :
    (update_statistics m t).kernel = m.kernel ∧
      (update_statistics m t).yield_on_return = m.yield_on_return ∧
      (update_statistics m t).ticks = m.ticks ∧ (update_statistics m t).pml4 = m.pml4 ∧
      (update_statistics m t).loops_per_tick = m.loops_per_tick := by
  unfold update_statistics
  split
  · exact ⟨rfl, rfl, rfl, rfl, rfl⟩
  · split <;> exact ⟨rfl, rfl, rfl, rfl, rfl⟩

/-- What `thread_tick` does: only `thread_ticks`, the statistics and the flag change. -/
theorem thread_tick_spec (m : Machine) (t : Nat) (hc : thread_current m.kernel = some t) :
    ∃ m1, thread_tick m = some m1 ∧
      m1.kernel = { m.kernel with thread_ticks := (m.kernel.thread_ticks + 1) % 2 ^ 32 } ∧
      m1.yield_on_return =
        (m.yield_on_return || decide (TIME_SLICE ≤ (m.kernel.thread_ticks + 1) % 2 ^ 32)) ∧
      m1.ticks = m.ticks ∧ m1.pml4 = m.pml4 ∧ m1.loops_per_tick = m.loops_per_tick := by
  obtain ⟨hk, hy, ht, hp, hl⟩ := update_statistics_frame m t
  unfold thread_tick
  simp only [hc, hk]
  by_cases hn : TIME_SLICE ≤ (m.kernel.thread_ticks + 1) % 2 ^ 32
  · rw [if_pos hn]
    exact ⟨_, rfl, rfl, by simp only [hn, decide_True, Bool.or_true], ht, hp, hl⟩
  · rw [if_neg hn]
    exact ⟨_, rfl, rfl, by simp only [hn, decide_False, Bool.or_false, hy], ht, hp, hl⟩

theorem next_thread_to_run_frame (k : Kernel) :
    (next_thread_to_run k).2.running = k.running ∧
      (next_thread_to_run k).2.threads = k.threads := by
  cases hr : k.ready_list with
  | nil => rw [next_thread_to_run_nil k hr]; exact ⟨rfl, rfl⟩
  | cons e rest => rw [next_thread_to_run_cons k e rest hr]; exact ⟨rfl, rfl⟩

/-- After `schedule` the time slice starts anew and the chosen thread runs. -/
theorem schedule_thread_ticks (k k1 : Kernel) (h : schedule k = some k1) :
    k1.thread_ticks = 0 ∧ thread_current k1 = some k1.running := by
  unfold schedule at h
  obtain ⟨hrun, -⟩ := next_thread_to_run_frame k
  rcases hn : next_thread_to_run k with ⟨_ | next, k0⟩
  · rw [hn] at h; simp at h
  · rw [hn] at h hrun
    simp only at h hrun
    split at h
    · simp at h
    · split at h
      · injection h with h; subst h
        refine ⟨?_, ?_⟩
        · split <;> rfl
        · split <;> simp [thread_current, Kernel.set_status, Kernel.modify]
      · rename_i hcn
        injection h with h; subst h
        have : k.running = next := by simpa using hcn
        refine ⟨rfl, ?_⟩
        simp [thread_current, Kernel.set_status, Kernel.modify, hrun, this]

theorem thread_ticks_run_spec (n : Nat) : ∀ (m : Machine) (t : Nat),
    thread_current m.kernel = some t → m.kernel.thread_ticks + n < 2 ^ 32 →
    ∃ m1, thread_ticks_run n m = some m1 ∧ m1.kernel.thread_ticks = m.kernel.thread_ticks + n ∧
      m1.yield_on_return =
        (m.yield_on_return || decide (1 ≤ n ∧ TIME_SLICE ≤ m.kernel.thread_ticks + n)) := by
  induction n with
  | zero => intro m t _ _; exact ⟨m, rfl, rfl, by simp⟩
  | succ n ih =>
    intro m t hc hlt
    obtain ⟨m1, h1, hk, hy, -⟩ := thread_tick_spec m t hc
    have hmod : (m.kernel.thread_ticks + 1) % 2 ^ 32 = m.kernel.thread_ticks + 1 :=
      Nat.mod_eq_of_lt (by omega)
    rw [hmod] at hk hy
    have hc1 : thread_current m1.kernel = some t := by rw [hk]; exact hc
    have ht1 : m1.kernel.thread_ticks = m.kernel.thread_ticks + 1 := by rw [hk]
    obtain ⟨m2, h2, hk2, hy2⟩ := ih m1 t hc1 (by rw [ht1]; omega)
    refine ⟨m2, by simp only [thread_ticks_run, h1, h2], by rw [hk2, ht1]; omega, ?_⟩
    rw [hy2, hy, ht1]
    simp only [TIME_SLICE]
    cases m.yield_on_return
    · simp only [Bool.false_or]
      by_cases h4 : 4 ≤ m.kernel.thread_ticks + 1
      · have : 4 ≤ m.kernel.thread_ticks + 1 + n := by omega
        have h5 : 4 ≤ m.kernel.thread_ticks + (n + 1) := by omega
        simp [h4, h5]
      · by_cases hn : 1 ≤ n
        · have e : m.kernel.thread_ticks + 1 + n = m.kernel.thread_ticks + (n + 1) := by omega
          simp [h4, hn, e]
        · have hn0 : n = 0 := by omega
          subst hn0
          simp [h4]
    · simp

/-- C16: `thread_tick`, called while a thread runs, increments `thread_ticks` (an
`unsigned`) and sets the yield-on-return flag exactly when the incremented counter is
`>= TIME_SLICE = 4` (a flag already set stays set); `schedule` leaves the counter at 0,
so for a thread that `schedule` has just chosen, with the flag clear, the flag is clear
after 1, 2 and 3 ticks without a call of `schedule` and set from the 4th tick on. -/
theorem thread_tick_time_slice (k0 : Kernel) (m : Machine)
    (hs : schedule k0 = some m.kernel) (hf : m.yield_on_return = false) :
    (∀ (m1 : Machine) (t : Nat), thread_current m1.kernel = some t →
      ∃ m2, thread_tick m1 = some m2 ∧
        m2.kernel.thread_ticks = (m1.kernel.thread_ticks + 1) % 2 ^ 32 ∧
        m2.yield_on_return =
          (m1.yield_on_return || decide (TIME_SLICE ≤ m2.kernel.thread_ticks))) ∧
    TIME_SLICE = 4 ∧ m.kernel.thread_ticks = 0 ∧
    ∀ n, n < 2 ^ 32 → ∃ m1, thread_ticks_run n m = some m1 ∧ m1.kernel.thread_ticks = n ∧
      (m1.yield_on_return = true ↔ 4 ≤ n) := by
  obtain ⟨h0, hc⟩ := schedule_thread_ticks k0 m.kernel hs
  refine ⟨?_, rfl, h0, ?_⟩
  · intro m1 t ht
    obtain ⟨m2, h2, hk, hy, -⟩ := thread_tick_spec m1 t ht
    refine ⟨m2, h2, by rw [hk], ?_⟩
    rw [hy, hk]
  · intro n hn
    obtain ⟨m1, h1, hk, hy⟩ := thread_ticks_run_spec n m _ hc (by rw [h0]; omega)
    refine ⟨m1, h1, by rw [hk, h0]; omega, ?_⟩
    rw [hy, hf, h0]
    simp only [Bool.false_or, decide_eq_true_eq, TIME_SLICE]
    omega

/-- Witness of C16: the idle thread, just scheduled, has the yield requested after 4 ticks
and not after 3. -/
theorem thread_tick_time_slice_witness :
    (thread_ticks_run 3 idle_scheduled).map (fun a => a.yield_on_return) = some false ∧
    (thread_ticks_run 4 idle_scheduled).map (fun a => a.yield_on_return) = some true := by
  have h := (thread_tick_time_slice (boot.set_status 1 THREAD_BLOCKED) idle_scheduled rfl rfl).2.2.2
  obtain ⟨m3, e3, -, y3⟩ := h 3 (by decide)
  obtain ⟨m4, e4, -, y4⟩ := h 4 (by decide)
  rw [e3, e4]
  simp only [Option.map_some', Option.some.injEq]
  refine ⟨?_, y4.2 (by decide)⟩
  cases hy : m3.yield_on_return
  · rfl
  · exact absurd (y3.1 hy) (by decide)

/-! ### The alarm clock -/

theorem thread_compare_priority_congr (k k1 : Kernel)
    (h : ∀ x, (k1.threads x).priority = (k.threads x).priority) :
    thread_compare_priority k1 = thread_compare_priority k := by
  funext a b
  simp only [thread_compare_priority, h]

theorem thread_awake_loop_eq (now : Int) (rest : List Nat) :
    ∀ (k : Kernel) (pre : List Nat), k.sleep_list = pre ++ rest → (pre ++ rest).Nodup →
      (∀ t ∈ rest, (k.threads t).wakeup ≤ now → (k.threads t).status = THREAD_BLOCKED) →
      thread_awake_loop now rest k =
        some { k with
          sleep_list := pre ++ rest.filter (fun t => decide (now < (k.threads t).wakeup))
          ready_list :=
            (rest.filter (fun t => decide ((k.threads t).wakeup ≤ now))).foldl
              (fun l t => list_insert_ordered (thread_compare_priority k) t l) k.ready_list
          threads := awake_threads k now rest } := by
  induction rest with
  | nil =>
    intro k pre hs _ _
    simp only [thread_awake_loop, List.filter_nil, List.foldl_nil, List.append_nil]
    congr 1
    cases k
    simp only [List.append_nil] at hs
    simp only [Kernel.mk.injEq, true_and, and_true]
    refine ⟨?_, hs⟩
    funext x
    simp [awake_threads]
  | cons t rest ih =>
    intro k pre hs hnd hb
    have hnd1 : (pre ++ [t] ++ rest).Nodup := by simpa using hnd
    have htr : t ∉ rest := by
      have := List.nodup_append.mp hnd
      exact (List.nodup_cons.mp this.2.1).1
    have htp : t ∉ pre := by
      intro hm
      exact (List.nodup_append.mp hnd).2.2 hm (List.mem_cons_self _ _)
    unfold thread_awake_loop
    by_cases hdue : (k.threads t).wakeup ≤ now
    · rw [if_pos hdue]
      have hst := hb t (List.mem_cons_self _ _) hdue
      have her : k.sleep_list.erase t = pre ++ rest := by
        rw [hs, List.erase_append_right _ htp, List.erase_cons_head]
      have hu : thread_unblock { k with sleep_list := k.sleep_list.erase t } t =
          some { k with
            sleep_list := pre ++ rest
            ready_list := list_insert_ordered (thread_compare_priority k) t k.ready_list
            threads := Function.update k.threads t { k.threads t with status := THREAD_READY } } := by
        unfold thread_unblock
        simp only [hst, if_true, her, Kernel.set_status, Kernel.modify]
        rfl
      rw [hu]
      simp only
      have hne : ∀ x ∈ rest, x ≠ t := fun x hx e => htr (e ▸ hx)
      have hth : ∀ x ∈ rest, Function.update k.threads t
          { k.threads t with status := THREAD_READY } x = k.threads x :=
        fun x hx => Function.update_noteq (hne x hx) _ _
      have hnd2 : (pre ++ rest).Nodup := by
        have h3 := List.nodup_append.mp hnd
        refine List.nodup_append.mpr ⟨h3.1, (List.nodup_cons.mp h3.2.1).2, ?_⟩
        intro a ha hb1
        exact h3.2.2 ha (List.mem_cons_of_mem _ hb1)
      rw [ih _ pre rfl hnd2 (fun x hx hw => by
        simp only [hth x hx] at hw ⊢
        exact hb x (List.mem_cons_of_mem _ hx) hw)]
      congr 1
      have hf1 : decide (now < (k.threads t).wakeup) = false := by simpa using hdue
      have hf2 : decide ((k.threads t).wakeup ≤ now) = true := by simpa using hdue
      have hc : thread_compare_priority
          { k with
            sleep_list := pre ++ rest
            ready_list := list_insert_ordered (thread_compare_priority k) t k.ready_list
            threads := Function.update k.threads t { k.threads t with status := THREAD_READY } } =
          thread_compare_priority k := by
        apply thread_compare_priority_congr
        intro x
        by_cases hx : x = t
        · subst hx; simp
        · simp [Function.update_noteq hx]
      rw [hc]
      have hfa : rest.filter (fun x => decide (now < (Function.update k.threads t
            { k.threads t with status := THREAD_READY } x).wakeup)) =
          rest.filter (fun x => decide (now < (k.threads x).wakeup)) :=
        List.filter_congr (fun x hx => by rw [hth x hx])
      have hfb : rest.filter (fun x => decide ((Function.update k.threads t
            { k.threads t with status := THREAD_READY } x).wakeup ≤ now)) =
          rest.filter (fun x => decide ((k.threads x).wakeup ≤ now)) :=
        List.filter_congr (fun x hx => by rw [hth x hx])
      have hat : awake_threads
          { k with
            sleep_list := pre ++ rest
            ready_list := list_insert_ordered (thread_compare_priority k) t k.ready_list
            threads := Function.update k.threads t { k.threads t with status := THREAD_READY } }
          now rest = awake_threads k now (t :: rest) := by
        funext x
        simp only [awake_threads, List.mem_cons]
        by_cases hx : x = t
        · subst hx; simp [hdue, htr]
        · simp [hx, Function.update_noteq hx]
      rw [hat]
      simp only [hfa, hfb, List.filter_cons, hf1, hf2, if_true, Bool.false_eq_true, if_false,
        List.foldl_cons]
    · rw [if_neg hdue]
      rw [ih k (pre ++ [t]) (by simp [hs]) hnd1 (fun x hx => hb x (List.mem_cons_of_mem _ hx))]
      congr 1
      have hf1 : decide (now < (k.threads t).wakeup) = true := by simpa using hdue
      have hf2 : decide ((k.threads t).wakeup ≤ now) = false := by simpa using hdue
      have hat : awake_threads k now rest = awake_threads k now (t :: rest) := by
        funext x
        simp only [awake_threads, List.mem_cons]
        by_cases hx : x = t
        · subst hx; simp [hdue, htr]
        · simp [hx]
      rw [hat]
      simp only [List.filter_cons, hf1, hf2, if_true, Bool.false_eq_true, if_false,
        List.append_assoc, List.singleton_append]

/-- What `thread_sleep (w)` does when the idle thread `i` exists and the current thread is
not on the ready list. -/
theorem thread_sleep_spec (k : Kernel) (cur i : Nat) (w : Int)
    (hc : thread_current k = some cur) (hi : k.idle_thread = some i) (hne : i ≠ cur)
    (hrn : cur ∉ k.ready_list) :
    ∃ k1, thread_sleep k w = some k1 ∧ k1.sleep_list = k.sleep_list ++ [cur] ∧
      k1.running ≠ cur ∧
      ((k.ready_list = [] ∧ k1.running = i ∧ k1.ready_list = []) ∨
        k.ready_list = k1.running :: k1.ready_list) ∧
      k1.threads cur = { k.threads cur with wakeup := w, status := THREAD_BLOCKED } ∧
      k1.threads k1.running = { k.threads k1.running with status := THREAD_RUNNING } ∧
      (∀ x, x ≠ cur → x ≠ k1.running → k1.threads x = k.threads x) ∧
      k1.idle_thread = k.idle_thread := by
  obtain ⟨hce, hcs⟩ := thread_current_eq k cur hc
  have hidle : ¬ (some cur = k.idle_thread) := by
    rw [hi]; intro h; injection h with h; exact hne h.symm
  have hc1 : thread_current
      { k.modify cur (fun r => { r with wakeup := w }) with
        sleep_list := list_push_back (k.modify cur (fun r =>
          { r with wakeup := w })).sleep_list cur } = some cur :=
    thread_current_modify k cur cur (fun r => { r with wakeup := w }) rfl hc
  unfold thread_sleep
  simp only [hc, if_neg hidle]
  unfold thread_block
  rw [hc1]
  simp only
  have hst : ∀ s, s ≠ THREAD_BLOCKED → ((Kernel.set_status
      { k.modify cur (fun r => { r with wakeup := w }) with
        sleep_list := list_push_back (k.modify cur (fun r =>
          { r with wakeup := w })).sleep_list cur } cur THREAD_BLOCKED).threads
      (Kernel.set_status
      { k.modify cur (fun r => { r with wakeup := w }) with
        sleep_list := list_push_back (k.modify cur (fun r =>
          { r with wakeup := w })).sleep_list cur } cur THREAD_BLOCKED).running).status ≠ s := by
    intro s hs
    simp [Kernel.set_status, Kernel.modify, ← hce]
    exact fun h => hs h.symm
  cases hr : k.ready_list with
  | nil =>
    rw [schedule_nil _ i (hst _ (by decide)) (hst _ (by decide)) hr hi]
    refine ⟨_, rfl, rfl, hne, Or.inl ⟨rfl, rfl, hr⟩, ?_, ?_, ?_, rfl⟩
    · simp [Kernel.set_status, Kernel.modify, Function.update_noteq hne.symm]
    · simp [Kernel.set_status, Kernel.modify, Function.update_noteq hne]
    · intro x hx1 hx2
      simp only at hx2
      simp [Kernel.set_status, Kernel.modify, Function.update_noteq hx1,
        Function.update_noteq hx2]
  | cons e rest =>
    have hec : e ≠ cur := by
      rintro rfl
      exact hrn (hr ▸ List.mem_cons_self _ _)
    rw [schedule_cons _ e rest (hst _ (by decide)) (hst _ (by decide)) hr]
    refine ⟨_, rfl, rfl, hec, Or.inr rfl, ?_, ?_, ?_, rfl⟩
    · simp [Kernel.set_status, Kernel.modify, Function.update_noteq hec.symm]
    · simp [Kernel.set_status, Kernel.modify, Function.update_noteq hec]
    · intro x hx1 hx2
      simp only at hx2
      simp [Kernel.set_status, Kernel.modify, Function.update_noteq hx1,
        Function.update_noteq hx2]

theorem mem_foldl_insert (less : Nat → Nat → Bool) (ds : List Nat) :
    ∀ (l : List Nat) (x : Nat),
      x ∈ ds.foldl (fun l t => list_insert_ordered less t l) l ↔ x ∈ l ∨ x ∈ ds := by
  induction ds with
  | nil => intro l x; simp
  | cons d ds ih =>
    intro l x
    rw [List.foldl_cons, ih, (list_insert_ordered_perm less d l).mem_iff]
    simp only [List.mem_cons]
    tauto

/-- The state after `thread_awake (now)` when no element of the sleep list is linked twice
and its due threads are blocked. -/
theorem thread_awake_eq (k : Kernel) (now : Int) (hnd : k.sleep_list.Nodup)
    (hb : ∀ t ∈ k.sleep_list, (k.threads t).wakeup ≤ now →
      (k.threads t).status = THREAD_BLOCKED) :
    thread_awake k now =
      some { k with
        sleep_list := k.sleep_list.filter (fun t => decide (now < (k.threads t).wakeup))
        ready_list :=
          (k.sleep_list.filter (fun t => decide ((k.threads t).wakeup ≤ now))).foldl
            (fun l t => list_insert_ordered (thread_compare_priority k) t l) k.ready_list
        threads := awake_threads k now k.sleep_list } := by
  unfold thread_awake
  rw [thread_awake_loop_eq now k.sleep_list k [] rfl hnd hb]
  rfl

/-- C14: `thread_awake (now)`, on a sleep list without an element linked twice whose due
threads are blocked, goes through the whole list and returns.  Afterwards the sleep list
holds exactly the previous elements with `wakeup > now`, in their previous order; the
threads with `wakeup <= now` have been unblocked one after the other in sleep-list order
(the ready list is the old one with each of them inserted by priority, in that order, and
their status is `THREAD_READY`); every other thread, on the sleep list or not, is as
before, so a sleeper that is not due stays blocked. -/
theorem thread_awake_spec (k : Kernel) (now : Int) (hnd : k.sleep_list.Nodup)
    (hb : ∀ t ∈ k.sleep_list, (k.threads t).wakeup ≤ now →
      (k.threads t).status = THREAD_BLOCKED) :
    ∃ k1, thread_awake k now = some k1 ∧
      k1.sleep_list = k.sleep_list.filter (fun t => decide (now < (k.threads t).wakeup)) ∧
      k1.ready_list =
        (k.sleep_list.filter (fun t => decide ((k.threads t).wakeup ≤ now))).foldl
          (fun l t => list_insert_ordered (thread_compare_priority k) t l) k.ready_list ∧
      (∀ t, t ∈ k.sleep_list → (k.threads t).wakeup ≤ now →
        k1.threads t = { k.threads t with status := THREAD_READY } ∧ t ∈ k1.ready_list ∧
          t ∉ k1.sleep_list) ∧
      (∀ t, ¬ (t ∈ k.sleep_list ∧ (k.threads t).wakeup ≤ now) →
        k1.threads t = k.threads t ∧ (t ∈ k1.ready_list ↔ t ∈ k.ready_list) ∧
          (t ∈ k1.sleep_list ↔ t ∈ k.sleep_list)) ∧
      k1.locks = k.locks ∧ k1.running = k.running := by
  refine ⟨_, thread_awake_eq k now hnd hb, rfl, rfl, ?_, ?_, rfl, rfl⟩
  · intro t hm hdue
    refine ⟨?_, ?_, ?_⟩
    · simp only [awake_threads, hm, hdue, and_self, if_true]
    · simp only
      rw [mem_foldl_insert]
      exact Or.inr (List.mem_filter.mpr ⟨hm, by simpa using hdue⟩)
    · simp only [List.mem_filter, not_and]
      intro _
      simpa using hdue
  · intro t hn
    refine ⟨?_, ?_, ?_⟩
    · simp only [awake_threads, hn, if_false]
    · simp only
      rw [mem_foldl_insert]
      constructor
      · rintro (h | h)
        · exact h
        · have := List.mem_filter.mp h
          exact absurd ⟨this.1, by simpa using this.2⟩ hn
      · exact Or.inl
    · simp only [List.mem_filter]
      constructor
      · exact fun h => h.1
      · intro h
        refine ⟨h, ?_⟩
        have : ¬ (k.threads t).wakeup ≤ now := fun hd => hn ⟨h, hd⟩
        simpa using this

/-- Witness of C14: of the sleepers 3, 4, 5, 6 (wake-up ticks 10, 5, 12, 7),
`thread_awake (7)` leaves 3 and 5 on the sleep list and unblocks 4, then 6. -/
theorem thread_awake_spec_witness :
    ∃ k1, thread_awake demo_sleepers 7 = some k1 ∧ k1.sleep_list = [3, 5] ∧
      k1.ready_list = [11, 6, 12, 13, 4] := by
  obtain ⟨k1, h1, h2, h3, -⟩ := thread_awake_spec demo_sleepers 7 (by decide) (by decide)
  refine ⟨k1, h1, ?_, ?_⟩
  · rw [h2]; decide
  · rw [h3]; decide

/-- C12, failing input: `timer_sleep (0)` and `timer_sleep (-5)`, called by "main" at tick
0, do not return at once: "main" is appended to the sleep list with wake-up tick 0 (-5)
and blocked, and the idle thread runs; the next timer interrupt unblocks "main". -/
theorem timer_sleep_nonpositive_blocks :
    (timer_sleep boot_machine 0).map (fun m =>
        (m.kernel.sleep_list, (m.kernel.threads 1).status, (m.kernel.threads 1).wakeup,
          m.kernel.running)) = some ([1], THREAD_BLOCKED, 0, 2) ∧
    (timer_sleep boot_machine (-5)).map (fun m =>
        (m.kernel.sleep_list, (m.kernel.threads 1).status, (m.kernel.threads 1).wakeup,
          m.kernel.running)) = some ([1], THREAD_BLOCKED, -5, 2) ∧
    ((timer_sleep boot_machine (-5)).bind timer_interrupt).map (fun m =>
        (m.ticks, m.kernel.sleep_list, m.kernel.ready_list, (m.kernel.threads 1).status)) =
      some (1, [], [1], THREAD_READY) := by
  refine ⟨by decide, by decide, by decide⟩

/-! ### The timer interrupt -/

theorem update_statistics_kernel (m : Machine) (k : Kernel) (t : Nat)
    (hi : k.idle_thread = m.kernel.idle_thread) :
    update_statistics { m with kernel := k } t = { update_statistics m t with kernel := k } := by
  unfold update_statistics
  simp only [hi]
  split
  · rfl
  · split <;> rfl

/-- One timer interrupt, statement by statement. -/
theorem timer_interrupt_trace (m : Machine) (r : Nat)
    (hc : thread_current m.kernel = some r) (hnd : m.kernel.sleep_list.Nodup)
    (hb : ∀ t ∈ m.kernel.sleep_list, (m.kernel.threads t).wakeup ≤ m.ticks + 1 →
      (m.kernel.threads t).status = THREAD_BLOCKED) :
    ∃ m2 k3, thread_tick { m with ticks := m.ticks + 1 } = some m2 ∧
      m2.kernel = { m.kernel with thread_ticks := (m.kernel.thread_ticks + 1) % 2 ^ 32 } ∧
      m2.yield_on_return =
        (m.yield_on_return || decide (TIME_SLICE ≤ (m.kernel.thread_ticks + 1) % 2 ^ 32)) ∧
      m2.ticks = m.ticks + 1 ∧
      thread_awake m2.kernel (m.ticks + 1) = some k3 ∧
      k3 = { m.kernel with
        thread_ticks := (m.kernel.thread_ticks + 1) % 2 ^ 32
        sleep_list :=
          m.kernel.sleep_list.filter (fun t => decide (m.ticks + 1 < (m.kernel.threads t).wakeup))
        ready_list :=
          (m.kernel.sleep_list.filter
            (fun t => decide ((m.kernel.threads t).wakeup ≤ m.ticks + 1))).foldl
            (fun l t => list_insert_ordered (thread_compare_priority m.kernel) t l)
            m.kernel.ready_list
        threads := awake_threads m.kernel (m.ticks + 1) m.kernel.sleep_list } ∧
      exec_trace timer_interrupt_body m =
        some [{ m with ticks := m.ticks + 1 }, m2, { m2 with kernel := k3 }] ∧
      timer_interrupt m = some { m2 with kernel := k3 } := by
  obtain ⟨m2, h2, hk, hy, ht, -⟩ := thread_tick_spec { m with ticks := m.ticks + 1 } r hc
  simp only at hk hy ht
  have ha : thread_awake m2.kernel m2.ticks = some { m.kernel with
        thread_ticks := (m.kernel.thread_ticks + 1) % 2 ^ 32
        sleep_list :=
          m.kernel.sleep_list.filter (fun t => decide (m.ticks + 1 < (m.kernel.threads t).wakeup))
        ready_list :=
          (m.kernel.sleep_list.filter
            (fun t => decide ((m.kernel.threads t).wakeup ≤ m.ticks + 1))).foldl
            (fun l t => list_insert_ordered (thread_compare_priority m.kernel) t l)
            m.kernel.ready_list
        threads := awake_threads m.kernel (m.ticks + 1) m.kernel.sleep_list } := by
    rw [hk, ht]
    exact thread_awake_eq { m.kernel with
      thread_ticks := (m.kernel.thread_ticks + 1) % 2 ^ 32 } (m.ticks + 1) hnd hb
  refine ⟨m2, _, h2, hk, hy, ht, ht ▸ ha, rfl, ?_, ?_⟩
  · simp only [exec_trace, timer_interrupt_body, h2, ha, Option.map_some']
  · simp only [timer_interrupt, exec, timer_interrupt_body, h2, ha, Option.map_some']


theorem thread_current_awake (k : Kernel) (now : Int) (r : Nat) (l1 l2 : List Nat) (n : Nat)
    (hc : thread_current k = some r)
    (hb : ∀ t ∈ k.sleep_list, (k.threads t).wakeup ≤ now →
      (k.threads t).status = THREAD_BLOCKED) :
    thread_current { k with
      thread_ticks := n, sleep_list := l1, ready_list := l2,
      threads := awake_threads k now k.sleep_list } = some r := by
  obtain ⟨hr, hs⟩ := thread_current_eq k r hc
  have hnot : ¬ (k.running ∈ k.sleep_list ∧ (k.threads k.running).wakeup ≤ now) := by
    rintro ⟨h1, h2⟩
    rw [hb _ h1 h2] at hs
    cases hs
  simp only [thread_current, awake_threads, hnot, if_false, hs, if_true, hr]

theorem exec_single (s : Machine → Option Machine) (m : Machine) : exec [s] m = s m := by
  simp only [exec]
  cases s m <;> rfl

theorem thread_tick_kernel (m : Machine) (k : Kernel) (r : Nat)
    (hc : thread_current m.kernel = some r) (hc1 : thread_current k = some r)
    (hi : k.idle_thread = m.kernel.idle_thread) (htt : k.thread_ticks = m.kernel.thread_ticks) :
    thread_tick { m with kernel := k } =
      (thread_tick m).map (fun m2 =>
        { m2 with kernel := { k with thread_ticks := m2.kernel.thread_ticks } }) := by
  unfold thread_tick
  obtain ⟨hk, -⟩ := update_statistics_frame m r
  simp only [hc, hc1, update_statistics_kernel m k r hi, hk, htt]
  split <;> rfl

/-- The order of `thread_tick ()` and `thread_awake (ticks)` in `timer_interrupt` does not
show in the state the handler leaves. -/
theorem timer_interrupt_commutes (m : Machine) (r : Nat)
    (hc : thread_current m.kernel = some r) (hnd : m.kernel.sleep_list.Nodup)
    (hb : ∀ t ∈ m.kernel.sleep_list, (m.kernel.threads t).wakeup ≤ m.ticks + 1 →
      (m.kernel.threads t).status = THREAD_BLOCKED) :
    exec awake_first_body m = timer_interrupt m := by
  obtain ⟨m2, k3, h2, hk, -, -, -, hk3, -, h3⟩ := timer_interrupt_trace m r hc hnd hb
  have ha := thread_awake_eq m.kernel (m.ticks + 1) hnd hb
  have hcur := thread_current_awake m.kernel (m.ticks + 1) r
    (m.kernel.sleep_list.filter (fun t => decide (m.ticks + 1 < (m.kernel.threads t).wakeup)))
    ((m.kernel.sleep_list.filter
            (fun t => decide ((m.kernel.threads t).wakeup ≤ m.ticks + 1))).foldl
            (fun l t => list_insert_ordered (thread_compare_priority m.kernel) t l)
            m.kernel.ready_list) m.kernel.thread_ticks hc hb
  have e1 : exec awake_first_body m = exec [thread_tick]
      { ({ m with ticks := m.ticks + 1 } : Machine) with
        kernel := { m.kernel with
          sleep_list := m.kernel.sleep_list.filter
            (fun t => decide (m.ticks + 1 < (m.kernel.threads t).wakeup))
          ready_list :=
            (m.kernel.sleep_list.filter
              (fun t => decide ((m.kernel.threads t).wakeup ≤ m.ticks + 1))).foldl
              (fun l t => list_insert_ordered (thread_compare_priority m.kernel) t l)
              m.kernel.ready_list
          threads := awake_threads m.kernel (m.ticks + 1) m.kernel.sleep_list } } := by
    simp only [exec, awake_first_body, ha, Option.map_some']
  rw [e1, exec_single, h3]
  refine (thread_tick_kernel { m with ticks := m.ticks + 1 } _ r hc hcur rfl rfl).trans ?_
  rw [h2, Option.map_some', hk3, hk]

/-- C15, counterexample: at tick 3 the idle thread has run for 3 ticks and "main" sleeps
until tick 4.  The states after the three statements of the next `timer_interrupt` are:
after `ticks++` the tick is 4; after `thread_tick ()` the time-slice test has been made
(`thread_ticks` is 4 and the yield is requested) while "main", due at tick 4, is still
blocked on the sleep list; only `thread_awake (ticks)` then unblocks it. -/
theorem timer_interrupt_tick_before_awake :
    (exec_trace timer_interrupt_body slice_end).map (fun tr => tr.map (fun m =>
      (m.ticks, m.kernel.thread_ticks, m.yield_on_return, m.kernel.sleep_list,
        (m.kernel.threads 1).status))) =
    some [(4, 3, false, [1], THREAD_BLOCKED), (4, 4, true, [1], THREAD_BLOCKED),
          (4, 4, true, [], THREAD_READY)] := by
  rfl

/-- C15, as amended: in every timer interrupt (taken while a thread runs, on a sleep list
without an element linked twice whose due threads are blocked) the tick counter is
incremented first, then `thread_tick` makes the time-slice test, on a state in which the
sleep list, the ready list and the threads are still as before the interrupt, and only
after that `thread_awake` unblocks the due sleepers, leaving the flag and the counter as
`thread_tick` set them.  The test only sets the yield-on-return flag, and the handler
leaves the same state as with the two calls exchanged. -/
theorem timer_interrupt_order (m : Machine) (r : Nat)
    (hc : thread_current m.kernel = some r) (hnd : m.kernel.sleep_list.Nodup)
    (hb : ∀ t ∈ m.kernel.sleep_list, (m.kernel.threads t).wakeup ≤ m.ticks + 1 →
      (m.kernel.threads t).status = THREAD_BLOCKED) :
    ∃ m1 m2 m3, exec_trace timer_interrupt_body m = some [m1, m2, m3] ∧
      timer_interrupt m = some m3 ∧
      m1 = { m with ticks := m.ticks + 1 } ∧
      thread_tick m1 = some m2 ∧
      m2.kernel.sleep_list = m.kernel.sleep_list ∧ m2.kernel.threads = m.kernel.threads ∧
      m2.kernel.ready_list = m.kernel.ready_list ∧
      m2.yield_on_return =
        (m.yield_on_return || decide (TIME_SLICE ≤ m2.kernel.thread_ticks)) ∧
      thread_awake m2.kernel (m.ticks + 1) = some m3.kernel ∧
      m3.yield_on_return = m2.yield_on_return ∧
      m3.kernel.thread_ticks = m2.kernel.thread_ticks ∧ m3.ticks = m.ticks + 1 ∧
      exec awake_first_body m = some m3 := by
  obtain ⟨m2, k3, h2, hk, hy, ht, ha, hk3, htr, h3⟩ := timer_interrupt_trace m r hc hnd hb
  refine ⟨_, m2, _, htr, h3, rfl, h2, by rw [hk], by rw [hk], by rw [hk], ?_, ha, rfl, ?_, ht,
    ?_⟩
  · rw [hy, hk]
  · rw [hk3, hk]
  · rw [timer_interrupt_commutes m r hc hnd hb, h3]

/-- Witness of C15: the interrupt at the end of tick 3 of `slice_end` requests the yield
and makes "main" ready, in either order of the two calls. -/
theorem timer_interrupt_order_witness :
    ∃ m3, timer_interrupt slice_end = some m3 ∧ exec awake_first_body slice_end = some m3 ∧
      m3.yield_on_return = true ∧ m3.kernel.ready_list = [1] := by
  obtain ⟨m1, m2, m3, -, h3, -, -, -, -, -, -, -, -, -, -, h4⟩ :=
    timer_interrupt_order slice_end 2 (by decide) (by decide) (by decide)
  have e : (timer_interrupt slice_end).map (fun a => (a.yield_on_return, a.kernel.ready_list)) =
      some (true, [1]) := by decide
  rw [h3] at e
  simp only [Option.map_some', Option.some.injEq, Prod.mk.injEq] at e
  exact ⟨m3, h3, h4, e.1, e.2⟩

/-! ### The timer: calibration -/

/-- C18, failing input: with `too_many_loops (n)` true exactly for `n > 1536`, the
doubling loop of `timer_calibrate` stops at the high bit 1024, and the refining loop, which
tests each lower bit together with the high bit alone, sets all of the bits 512, 256, ..,
2: `loops_per_tick` ends as 2046, for which `too_many_loops` is true, and not as 1536,
the largest count with these bits that fits in a tick. -/
theorem timer_calibrate_overshoots :
    timer_calibrate_double (too_many_above 1536) 32 (1 <<< 10) = some 1024 ∧
    (timer_calibrate (too_many_above 1536) boot_machine).map (fun m => m.loops_per_tick) =
      some 2046 ∧
    too_many_above 1536 2046 = true ∧ too_many_above 1536 1536 = false := by
  refine ⟨by decide, by decide, by decide, by decide⟩

/-- The sleepers and the other threads in a state whose sleep list, ready list and threads
are those that `thread_awake (now)` leaves. -/
theorem awake_fields_facts (k k1 : Kernel) (now : Int)
    (hs : k1.sleep_list = k.sleep_list.filter (fun t => decide (now < (k.threads t).wakeup)))
    (hr : k1.ready_list =
      (k.sleep_list.filter (fun t => decide ((k.threads t).wakeup ≤ now))).foldl
        (fun l t => list_insert_ordered (thread_compare_priority k) t l) k.ready_list)
    (ht : k1.threads = awake_threads k now k.sleep_list) :
    (∀ t, t ∈ k.sleep_list → (k.threads t).wakeup ≤ now →
      k1.threads t = { k.threads t with status := THREAD_READY } ∧ t ∈ k1.ready_list ∧
        t ∉ k1.sleep_list) ∧
    (∀ t, ¬ (t ∈ k.sleep_list ∧ (k.threads t).wakeup ≤ now) →
      k1.threads t = k.threads t ∧ (t ∈ k1.ready_list ↔ t ∈ k.ready_list) ∧
        (t ∈ k1.sleep_list ↔ t ∈ k.sleep_list)) := by
  constructor
  · intro t hm hdue
    refine ⟨?_, ?_, ?_⟩
    · simp only [ht, awake_threads, hm, hdue, and_self, if_true]
    · rw [hr, mem_foldl_insert]
      exact Or.inr (List.mem_filter.mpr ⟨hm, by simpa using hdue⟩)
    · rw [hs]
      simp only [List.mem_filter, not_and]
      intro _
      simpa using hdue
  · intro t hn
    refine ⟨?_, ?_, ?_⟩
    · simp only [ht, awake_threads, hn, if_false]
    · rw [hr, mem_foldl_insert]
      constructor
      · rintro (h | h)
        · exact h
        · have := List.mem_filter.mp h
          exact absurd ⟨this.1, by simpa using this.2⟩ hn
      · exact Or.inl
    · rw [hs]
      simp only [List.mem_filter]
      constructor
      · exact fun h => h.1
      · intro h
        refine ⟨h, ?_⟩
        have : ¬ (k.threads t).wakeup ≤ now := fun hd => hn ⟨h, hd⟩
        simpa using this

/-- One timer interrupt and the sleepers. -/
theorem timer_interrupt_step (m : Machine) (r : Nat)
    (hc : thread_current m.kernel = some r) (hso : sleepers_ok m.kernel) :
    ∃ m3, timer_interrupt m = some m3 ∧ m3.ticks = m.ticks + 1 ∧ sleepers_ok m3.kernel ∧
      thread_current m3.kernel = some r ∧
      ∀ x ∈ m.kernel.sleep_list,
        (m.ticks + 1 < (m.kernel.threads x).wakeup →
          x ∈ m3.kernel.sleep_list ∧ m3.kernel.threads x = m.kernel.threads x ∧
            (x ∈ m3.kernel.ready_list ↔ x ∈ m.kernel.ready_list)) ∧
        ((m.kernel.threads x).wakeup ≤ m.ticks + 1 →
          x ∉ m3.kernel.sleep_list ∧ x ∈ m3.kernel.ready_list ∧
            m3.kernel.threads x = { m.kernel.threads x with status := THREAD_READY }) := by
  obtain ⟨hnd, hbl⟩ := hso
  have hb : ∀ t ∈ m.kernel.sleep_list, (m.kernel.threads t).wakeup ≤ m.ticks + 1 →
      (m.kernel.threads t).status = THREAD_BLOCKED := fun t ht _ => hbl t ht
  obtain ⟨m2, k3, -, -, -, ht, -, hk3, -, h3⟩ := timer_interrupt_trace m r hc hnd hb
  obtain ⟨hdue, hnot⟩ := awake_fields_facts m.kernel k3 (m.ticks + 1)
    (by rw [hk3]) (by rw [hk3]) (by rw [hk3])
  refine ⟨_, h3, ht, ⟨?_, ?_⟩, ?_, ?_⟩
  · show k3.sleep_list.Nodup
    rw [hk3]
    exact hnd.sublist (List.filter_sublist _)
  · intro t htm
    show (k3.threads t).status = THREAD_BLOCKED
    have hm : t ∈ m.kernel.sleep_list ∧ ¬ (m.kernel.threads t).wakeup ≤ m.ticks + 1 := by
      rw [hk3] at htm
      have := List.mem_filter.mp htm
      exact ⟨this.1, by simpa using this.2⟩
    rw [(hnot t (fun h => hm.2 h.2)).1]
    exact hbl t hm.1
  · show thread_current k3 = some r
    rw [hk3]
    exact thread_current_awake m.kernel (m.ticks + 1) r _ _ _ hc hb
  · intro x hx
    constructor
    · intro hlt
      have hn : ¬ (x ∈ m.kernel.sleep_list ∧ (m.kernel.threads x).wakeup ≤ m.ticks + 1) :=
        fun h => absurd h.2 (not_le.mpr hlt)
      obtain ⟨h1, h2, h3⟩ := hnot x hn
      exact ⟨h3.mpr hx, h1, h2⟩
    · intro hle
      obtain ⟨h1, h2, h3⟩ := hdue x hx hle
      exact ⟨h3, h2, h1⟩

theorem timer_interrupts_succ (n : Nat) : ∀ (m : Machine),
    timer_interrupts (n + 1) m = (timer_interrupts n m).bind timer_interrupt := by
  induction n with
  | zero =>
    intro m
    simp only [timer_interrupts, Option.some_bind]
    cases timer_interrupt m <;> rfl
  | succ n ih =>
    intro m
    rw [timer_interrupts]
    cases h : timer_interrupt m with
    | none => simp [timer_interrupts, h]
    | some m1 =>
      simp only
      rw [ih m1]
      conv_rhs => rw [timer_interrupts, h]

/-- A sleeper stays asleep through `n` timer interrupts in a row that end before its
wake-up tick. -/
theorem timer_interrupts_asleep (n : Nat) : ∀ (m : Machine) (r x : Nat),
    thread_current m.kernel = some r → sleepers_ok m.kernel → x ∈ m.kernel.sleep_list →
    m.ticks + n < (m.kernel.threads x).wakeup →
    ∃ m1, timer_interrupts n m = some m1 ∧ m1.ticks = m.ticks + n ∧ sleepers_ok m1.kernel ∧
      thread_current m1.kernel = some r ∧ x ∈ m1.kernel.sleep_list ∧
      m1.kernel.threads x = m.kernel.threads x ∧
      (x ∈ m1.kernel.ready_list ↔ x ∈ m.kernel.ready_list) := by
  induction n with
  | zero =>
    intro m r x hc hso hx _
    exact ⟨m, rfl, by simp, hso, hc, hx, rfl, Iff.rfl⟩
  | succ n ih =>
    intro m r x hc hso hx hlt
    obtain ⟨m3, h3, ht3, hso3, hc3, hsl⟩ := timer_interrupt_step m r hc hso
    obtain ⟨hx3, hth3, hr3⟩ := (hsl x hx).1 (by push_cast at hlt; omega)
    obtain ⟨m1, h1, ht1, hso1, hc1, hx1, hth1, hr1⟩ := ih m3 r x hc3 hso3 hx3
      (by rw [hth3, ht3]; push_cast at hlt; omega)
    refine ⟨m1, by simp only [timer_interrupts, h3, h1], ?_, hso1, hc1, hx1, ?_, ?_⟩
    · rw [ht1, ht3]; push_cast; omega
    · rw [hth1, hth3]
    · rw [hr1, hr3]


/-- What `timer_sleep (d)` does when `start + d` is an `int64_t`. -/
theorem timer_sleep_spec (m : Machine) (cur i : Nat) (d : Int)
    (hlo : -(2 : Int) ^ 63 ≤ m.ticks + d) (hov : m.ticks + d < (2 : Int) ^ 63)
    (hc : thread_current m.kernel = some cur) (hi : m.kernel.idle_thread = some i)
    (hne : i ≠ cur) (hok : lists_ok m.kernel)
    (hsb : ∀ t ∈ m.kernel.sleep_list, (m.kernel.threads t).status = THREAD_BLOCKED) :
    ∃ m1, timer_sleep m d = some m1 ∧ m1.ticks = m.ticks ∧
      m1.kernel.threads cur =
        { m.kernel.threads cur with wakeup := m.ticks + d, status := THREAD_BLOCKED } ∧
      cur ∈ m1.kernel.sleep_list ∧ cur ∉ m1.kernel.ready_list ∧ sleepers_ok m1.kernel ∧
      thread_current m1.kernel = some m1.kernel.running := by
  obtain ⟨-, -, hrn, hsn, hsr, hidle⟩ := hok
  obtain ⟨hce, hcs⟩ := thread_current_eq m.kernel cur hc
  have hcr : cur ∉ m.kernel.ready_list := hce ▸ hrn
  obtain ⟨k1, h1, hsl, hrun, hrl, hcur, hnext, hoth, -⟩ :=
    thread_sleep_spec m.kernel cur i (m.ticks + d) hc hi hne hcr
  have hcs1 : cur ∉ m.kernel.sleep_list := fun hx => (hsr cur hx).2 hce
  have hnx : k1.running ∉ m.kernel.sleep_list := by
    rcases hrl with ⟨-, h2, -⟩ | h2
    · rw [h2]; exact hidle i hi
    · intro hx
      exact (hsr _ hx).1 (h2 ▸ List.mem_cons_self _ _)
  refine ⟨{ m with kernel := k1 }, ?_, rfl, hcur, ?_, ?_, ⟨?_, ?_⟩, ?_⟩
  · simp only [timer_sleep, timer_ticks, int64_add, hlo, hov, and_self, if_true, h1,
      Option.map_some']
  · show cur ∈ k1.sleep_list
    rw [hsl]; simp
  · show cur ∉ k1.ready_list
    rcases hrl with ⟨-, -, h2⟩ | h2
    · rw [h2]; simp
    · intro hx
      exact hcr (h2 ▸ List.mem_cons_of_mem _ hx)
  · show k1.sleep_list.Nodup
    rw [hsl]
    exact List.nodup_append.mpr ⟨hsn, List.nodup_singleton _, by
      intro a ha hb
      simp at hb
      subst hb
      exact hcs1 ha⟩
  · intro t ht
    show (k1.threads t).status = THREAD_BLOCKED
    rw [hsl] at ht
    rcases List.mem_append.mp ht with h | h
    · have h1 : t ≠ cur := fun e => hcs1 (e ▸ h)
      have h2 : t ≠ k1.running := fun e => hnx (e ▸ h)
      rw [hoth t h1 h2]
      exact hsb t h
    · simp at h
      subst h
      rw [hcur]
  · show thread_current k1 = some k1.running
    simp only [thread_current, hnext, if_true]

/-- C13, counterexample: at tick 1, `timer_sleep (d)` with `d = 2^63 - 1`, the largest
`int64_t`, does not give the caller `wakeup = t + d`: the sum `start + ticks` is `2^63`,
which no `int64_t` holds (a signed overflow). -/
theorem timer_sleep_overflow :
    (0 : Int) < 2 ^ 63 - 1 ∧ tick_one.ticks = 1 ∧
    ¬ ∃ m1, timer_sleep tick_one (2 ^ 63 - 1) = some m1 ∧
      (m1.kernel.threads 1).wakeup = 1 + (2 ^ 63 - 1) := by
  refine ⟨by decide, rfl, ?_⟩
  rintro ⟨m1, h1, -⟩
  have e : (timer_sleep tick_one (2 ^ 63 - 1)).isSome = false := by decide
  rw [h1] at e
  cases e

/-! ### The argument stack -/

theorem sub64_eq (a b : Nat) (hb : b ≤ a) (ha : a < 2 ^ 64) : sub64 a b = a - b := by
  unfold sub64
  have h1 : b % 2 ^ 64 = b := Nat.mod_eq_of_lt (by omega)
  rw [h1]
  have h2 : a + 2 ^ 64 - b = (a - b) + 2 ^ 64 := by omega
  rw [h2, Nat.add_mod_right]
  exact Nat.mod_eq_of_lt (by omega)

theorem write_bytes_spec (mapped : Nat → Bool) (bs : List Nat) :
    ∀ (mem : Memory) (a : Nat), a + bs.length < 2 ^ 64 →
      (∀ x, a ≤ x → x < a + bs.length → mapped x = true) →
      ∃ mem1, write_bytes mapped mem a bs = some mem1 ∧
        (∀ j (h : j < bs.length), mem1 (a + j) = bs[j]) ∧
        (∀ x, x < a ∨ a + bs.length ≤ x → mem1 x = mem x) := by
  induction bs with
  | nil =>
    intro mem a _ _
    exact ⟨mem, rfl, fun j h => absurd h (by simp), fun _ _ => rfl⟩
  | cons b bs ih =>
    intro mem a ha hm
    simp only [List.length_cons] at ha hm
    have hma : mapped a = true := hm a (le_refl _) (by omega)
    have hmod : (a + 1) % 2 ^ 64 = a + 1 := Nat.mod_eq_of_lt (by omega)
    obtain ⟨mem1, h1, h2, h3⟩ := ih (Function.update mem a b) (a + 1) (by omega)
      (fun x hx1 hx2 => hm x (by omega) (by omega))
    refine ⟨mem1, by simp only [write_bytes, hma, if_true, hmod, h1], ?_, ?_⟩
    · intro j hj
      cases j with
      | zero =>
        rw [Nat.add_zero, h3 a (Or.inl (by omega))]
        simp
      | succ j =>
        have := h2 j (by simpa using hj)
        rw [show a + (j + 1) = a + 1 + j by omega, this]
        simp
    · intro x hx
      rw [h3 x (by simp only [List.length_cons] at hx; omega)]
      exact Function.update_noteq (by simp only [List.length_cons] at hx; omega) _ _

theorem read_le_congr (mem mem1 : Memory) (n : Nat) :
    ∀ a, (∀ x, a ≤ x → x < a + n → mem1 x = mem x) → read_le mem1 n a = read_le mem n a := by
  induction n with
  | zero => intro a _; rfl
  | succ n ih =>
    intro a h
    simp only [read_le]
    rw [h a (le_refl _) (by omega), ih (a + 1) (fun x h1 h2 => h x (by omega) (by omega))]

theorem read_bytes_congr (mem mem1 : Memory) (a n : Nat)
    (h : ∀ x, a ≤ x → x < a + n → mem1 x = mem x) : read_bytes mem1 a n = read_bytes mem a n := by
  unfold read_bytes
  apply List.map_congr_left
  intro j hj
  exact h (a + j) (by omega) (by have := List.mem_range.mp hj; omega)

theorem read_bytes_of_written (mem : Memory) (a : Nat) (bs : List Nat)
    (h : ∀ j (h : j < bs.length), mem (a + j) = bs[j]) : read_bytes mem a bs.length = bs := by
  apply List.ext_getElem
  · simp [read_bytes]
  · intro j h1 h2
    simp only [read_bytes, List.getElem_map, List.getElem_range]
    exact h j h2

theorem read_le_le_bytes (mem : Memory) (n : Nat) :
    ∀ (a v : Nat), v < 256 ^ n → (∀ j (h : j < (le_bytes n v).length), mem (a + j) = (le_bytes n v)[j]) →
      read_le mem n a = v := by
  induction n with
  | zero => intro a v hv _; simp only [read_le]; simp at hv; omega
  | succ n ih =>
    intro a v hv h
    simp only [read_le]
    have h0 := h 0 (by simp [le_bytes])
    simp only [le_bytes, Nat.add_zero, List.getElem_cons_zero] at h0
    rw [h0, ih (a + 1) (v / 256) ?_ ?_]
    · omega
    · rw [pow_succ] at hv
      exact Nat.div_lt_of_lt_mul (by omega)
    · intro j hj
      have := h (j + 1) (by simp only [le_bytes, List.length_cons]; omega)
      simp only [le_bytes, List.getElem_cons_succ] at this
      rw [show a + 1 + j = a + (j + 1) by omega, this]

theorem le_bytes_length (n v : Nat) : (le_bytes n v).length = n := by
  induction n generalizing v with
  | zero => rfl
  | succ n ih => simp [le_bytes, ih]

theorem read_le_zeros (mem : Memory) (n : Nat) :
    ∀ a, (∀ j, j < n → mem (a + j) = 0) → read_le mem n a = 0 := by
  induction n with
  | zero => intro a _; rfl
  | succ n ih =>
    intro a h
    simp only [read_le]
    have h0 := h 0 (by omega)
    rw [Nat.add_zero] at h0
    rw [h0, ih (a + 1) (fun j hj => by rw [show a + 1 + j = a + (j + 1) by omega]; exact h _ (by omega))]


theorem c_string_length (s : List Nat) : (c_string s).length = strlen s + 1 := by
  simp [c_string, strlen]

/-- The first loop of `argument_stack`: the strings lie below the old `rsp`, string `j` at
the new `rsp` plus the size of the strings before it. -/
theorem push_strings_spec (mapped : Nat → Bool) (argv : Nat → Option (List Nat)) (i : Nat) :
    ∀ st : ArgState, i ≤ 128 → st.frame.rsp < 2 ^ 64 → strings_below argv i ≤ st.frame.rsp →
      (∀ x, st.frame.rsp - strings_below argv i ≤ x → x < st.frame.rsp → mapped x = true) →
      ∃ st1, push_strings mapped argv i st = some st1 ∧
        st1.frame = { st.frame with rsp := st.frame.rsp - strings_below argv i } ∧
        (∀ j s, j < i → argv j = some s →
          st1.argv_address j = some (st1.frame.rsp + strings_below argv j) ∧
          read_bytes st1.mem (st1.frame.rsp + strings_below argv j) (strlen s + 1) =
            c_string s) ∧
        (∀ j, i ≤ j → st1.argv_address j = st.argv_address j) ∧
        (∀ x, x < st1.frame.rsp ∨ st.frame.rsp ≤ x → st1.mem x = st.mem x) := by
  induction i with
  | zero =>
    intro st _ _ _ _
    refine ⟨st, rfl, ?_, ?_, fun _ _ => rfl, fun _ _ => rfl⟩
    · simp [strings_below]
    · intro j s hj; omega
  | succ i ih =>
    intro st hi hr hle hm
    cases ha : argv i with
    | none =>
      have hsb : strings_below argv (i + 1) = strings_below argv i := by
        simp [strings_below, ha]
      rw [hsb] at hle hm ⊢
      obtain ⟨st1, h1, h2, h3, h4, h5⟩ := ih st (by omega) hr hle hm
      refine ⟨st1, by simp only [push_strings, ha, h1], h2, ?_, fun j hj => h4 j (by omega), h5⟩
      intro j s hj hs
      have hji : j ≠ i := by rintro rfl; rw [ha] at hs; cases hs
      exact h3 j s (by omega) hs
    | some s =>
      have hsb : strings_below argv (i + 1) = strings_below argv i + (strlen s + 1) := by
        simp [strings_below, ha]
      rw [hsb] at hle hm ⊢
      have hmod : (strlen s + 1) % 2 ^ 64 = strlen s + 1 := Nat.mod_eq_of_lt (by omega)
      have hsub : sub64 st.frame.rsp ((strlen s + 1) % 2 ^ 64) = st.frame.rsp - (strlen s + 1) := by
        rw [hmod]; exact sub64_eq _ _ (by omega) hr
      obtain ⟨mem1, hw1, hw2, hw3⟩ := write_bytes_spec mapped (c_string s) st.mem
        (st.frame.rsp - (strlen s + 1)) (by rw [c_string_length]; omega)
        (fun x hx1 hx2 => hm x (by omega) (by rw [c_string_length] at hx2; omega))
      obtain ⟨st1, h1, h2, h3, h4, h5⟩ := ih
        { frame := { st.frame with rsp := st.frame.rsp - (strlen s + 1) }, mem := mem1,
          argv_address := Function.update st.argv_address i
            (some (st.frame.rsp - (strlen s + 1))) }
        (by omega) (by simp only; omega) (by simp only; omega)
        (fun x hx1 hx2 => hm x (by simp only at hx1; omega) (by simp only at hx2; omega))
      simp only at h2 h4 h5
      have hrsp : st1.frame.rsp = st.frame.rsp - (strlen s + 1) - strings_below argv i := by
        rw [h2]
      refine ⟨st1, ?_, ?_, ?_, ?_, ?_⟩
      · simp only [push_strings, ha, hsub, hw1, show i < 128 by omega, if_true, h1]
      · rw [h2]
        simp only [intr_frame.mk.injEq, and_true]
        omega
      · intro j s1 hj hs1
        by_cases hji : j = i
        · subst hji
          rw [ha] at hs1
          injection hs1 with hs1
          subst hs1
          have hadr : st1.frame.rsp + strings_below argv j = st.frame.rsp - (strlen s + 1) := by
            rw [hrsp]; omega
          rw [hadr]
          refine ⟨?_, ?_⟩
          · rw [h4 j (le_refl _)]
            simp
          · rw [read_bytes_congr mem1 st1.mem _ _ (fun x hx1 hx2 => h5 x (Or.inr hx1))]
            have hrd := read_bytes_of_written mem1 _ _ hw2
            rw [c_string_length] at hrd
            exact hrd
        · exact h3 j s1 (by omega) hs1
      · intro j hj
        rw [h4 j (by omega)]
        exact Function.update_noteq (by omega) _ _
      · intro x hx
        rw [h5 x (by rcases hx with h | h; exact Or.inl h; exact Or.inr (by omega))]
        apply hw3
        rw [c_string_length]
        rcases hx with h | h
        · left; rw [hrsp] at h; omega
        · right; omega


/-- The second loop of `argument_stack` ends, with `rsp` the next multiple of 8 below and
zero bytes in between. -/
theorem align_stack_spec (mapped : Nat → Bool) (fuel : Nat) :
    ∀ st : ArgState, st.frame.rsp % 8 < fuel → st.frame.rsp < 2 ^ 64 →
      (∀ x, st.frame.rsp - st.frame.rsp % 8 ≤ x → x < st.frame.rsp → mapped x = true) →
      ∃ st1, align_stack mapped fuel st = some st1 ∧
        st1.frame = { st.frame with rsp := st.frame.rsp - st.frame.rsp % 8 } ∧
        st1.argv_address = st.argv_address ∧
        (∀ x, st1.frame.rsp ≤ x → x < st.frame.rsp → st1.mem x = 0) ∧
        (∀ x, x < st1.frame.rsp ∨ st.frame.rsp ≤ x → st1.mem x = st.mem x) := by
  induction fuel with
  | zero => intro st h; omega
  | succ fuel ih =>
    intro st hf hr hm
    by_cases h8 : st.frame.rsp % 8 = 0
    · refine ⟨st, by simp only [align_stack, h8, ne_eq, not_true_eq_false, if_false], ?_, rfl,
        ?_, fun _ _ => rfl⟩
      · simp [h8]
      · intro x h1 h2; omega
    · have hsub : sub64 st.frame.rsp 1 = st.frame.rsp - 1 := sub64_eq _ _ (by omega) hr
      obtain ⟨mem1, hw1, hw2, hw3⟩ := write_bytes_spec mapped [0] st.mem (st.frame.rsp - 1)
        (by simp only [List.length_singleton]; omega)
        (fun x hx1 hx2 => hm x (by omega) (by simp only [List.length_singleton] at hx2; omega))
      obtain ⟨st1, h1, h2, h3, h4, h5⟩ := ih
        { st with frame := { st.frame with rsp := st.frame.rsp - 1 }, mem := mem1 }
        (by simp only; omega) (by simp only; omega)
        (fun x hx1 hx2 => hm x (by simp only at hx1; omega) (by simp only at hx2; omega))
      simp only at h2 h3 h4 h5
      have hrsp : st1.frame.rsp = st.frame.rsp - st.frame.rsp % 8 := by
        rw [h2]; simp only; omega
      refine ⟨st1, ?_, ?_, h3, ?_, ?_⟩
      · simp only [align_stack, ne_eq, h8, not_false_eq_true, if_true, hsub, hw1, h1]
      · rw [h2]
        simp only [intr_frame.mk.injEq, and_true, true_and]
        omega
      · intro x hx1 hx2
        by_cases hx : x = st.frame.rsp - 1
        · rw [h5 x (Or.inr (by omega))]
          have := hw2 0 (by simp)
          simp only [Nat.add_zero, List.getElem_cons_zero] at this
          rw [hx, this]
        · exact h4 x hx1 (by omega)
      · intro x hx
        rw [h5 x (by rcases hx with h | h; exact Or.inl h; exact Or.inr (by omega))]
        apply hw3
        simp only [List.length_singleton]
        rcases hx with h | h
        · left; omega
        · right; omega

/-- The third loop of `argument_stack`: the NULL pointer and the recorded addresses. -/
theorem push_pointers_spec (mapped : Nat → Bool) (n : Nat) (a : Nat → Nat) (i : Nat) :
    ∀ st : ArgState, i ≤ n + 1 → n ≤ 128 → st.frame.rsp < 2 ^ 64 → 8 * i ≤ st.frame.rsp →
      (∀ x, st.frame.rsp - 8 * i ≤ x → x < st.frame.rsp → mapped x = true) →
      (∀ j, j < i → j ≠ n → st.argv_address j = some (a j) ∧ a j < 2 ^ 64) →
      ∃ st1, push_pointers mapped (n : Int) i st = some st1 ∧
        st1.frame = { st.frame with rsp := st.frame.rsp - 8 * i } ∧
        (∀ j, j < i → read_le st1.mem 8 (st1.frame.rsp + 8 * j) = if j = n then 0 else a j) ∧
        (∀ x, x < st1.frame.rsp ∨ st.frame.rsp ≤ x → st1.mem x = st.mem x) := by
  induction i with
  | zero =>
    intro st _ _ _ _ _ _
    refine ⟨st, rfl, by simp, fun j hj => by omega, fun _ _ => rfl⟩
  | succ i ih =>
    intro st hi hn hr hle hm ha
    have hsub : sub64 st.frame.rsp 8 = st.frame.rsp - 8 := sub64_eq _ _ (by omega) hr
    have hword : ∃ bs : List Nat, (if (i : Int) = (n : Int) then some (List.replicate 8 0)
          else if i < 128 then (st.argv_address i).map (le_bytes 8) else none) = some bs ∧
        bs.length = 8 ∧
        ∀ mem : Memory, (∀ j (h : j < bs.length), mem (st.frame.rsp - 8 + j) = bs[j]) →
          read_le mem 8 (st.frame.rsp - 8) = if i = n then 0 else a i := by
      by_cases hin : i = n
      · refine ⟨List.replicate 8 0, by simp [hin], by simp, ?_⟩
        intro mem h
        rw [if_pos hin]
        apply read_le_zeros
        intro j hj
        have := h j (by rw [List.length_replicate]; exact hj)
        rw [this, List.getElem_replicate]
      · have hin1 : ¬ ((i : Int) = (n : Int)) := by exact_mod_cast hin
        obtain ⟨h1, h2⟩ := ha i (by omega) hin
        refine ⟨le_bytes 8 (a i), by simp [hin1, show i < 128 by omega, h1],
          le_bytes_length _ _, ?_⟩
        intro mem h
        rw [if_neg hin]
        exact read_le_le_bytes mem 8 _ _ (by simpa using h2) h
    obtain ⟨bs, hbs, hlen, hread⟩ := hword
    obtain ⟨mem1, hw1, hw2, hw3⟩ := write_bytes_spec mapped bs st.mem (st.frame.rsp - 8)
      (by omega) (fun x hx1 hx2 => hm x (by omega) (by omega))
    obtain ⟨st1, h1, h2, h3, h5⟩ := ih
      { st with frame := { st.frame with rsp := st.frame.rsp - 8 }, mem := mem1 }
      (by omega) hn (by simp only; omega) (by simp only; omega)
      (fun x hx1 hx2 => hm x (by simp only at hx1; omega) (by simp only at hx2; omega))
      (fun j hj hjn => ha j (by omega) hjn)
    simp only at h2 h3 h5
    have hrsp : st1.frame.rsp = st.frame.rsp - 8 - 8 * i := by rw [h2]
    refine ⟨st1, ?_, ?_, ?_, ?_⟩
    · simp only [push_pointers, hsub]
      rw [hbs]
      simp only [hw1, h1]
    · rw [h2]
      simp only [intr_frame.mk.injEq, and_true, true_and]
      omega
    · intro j hj
      by_cases hji : j = i
      · subst hji
        have hadr : st1.frame.rsp + 8 * j = st.frame.rsp - 8 := by rw [hrsp]; omega
        rw [hadr, read_le_congr mem1 st1.mem 8 _ (fun x hx1 hx2 => h5 x (Or.inr hx1))]
        exact hread mem1 hw2
      · exact h3 j (by omega)
    · intro x hx
      rw [h5 x (by rcases hx with h | h; exact Or.inl h; exact Or.inr (by omega))]
      apply hw3
      rcases hx with h | h
      · left; rw [hrsp] at h; omega
      · right; omega


theorem strings_below_mono (argv : Nat → Option (List Nat)) (j i : Nat) (h : j ≤ i) :
    strings_below argv j ≤ strings_below argv i := by
  induction i with
  | zero =>
    have : j = 0 := by omega
    subst this; exact le_refl _
  | succ i ih =>
    by_cases hj : j = i + 1
    · subst hj; exact le_refl _
    · have := ih (by omega)
      simp only [strings_below]
      omega

/-- What `argument_stack` leaves on the stack and in the registers. -/
theorem argument_stack_core (mapped : Nat → Bool) (if_ : intr_frame) (mem : Memory)
    (argv : Nat → Option (List Nat)) (n : Nat) (hn : n ≤ 128) (hS : if_.rsp < 2 ^ 64)
    (hT : strings_below argv n ≤ if_.rsp)
    (hP : 8 * (n + 2) ≤ round_down8 (strings_start if_.rsp argv n))
    (hm : ∀ x, final_rsp if_.rsp argv n ≤ x → x < if_.rsp → mapped x = true)
    (harg : ∀ j, j < n → ∃ s, argv j = some s) :
    ∃ f mem1, argument_stack mapped if_ mem argv (n : Int) = some (f, mem1) ∧
      f.rsp = final_rsp if_.rsp argv n ∧ f.rdi = n ∧ f.rsi = f.rsp + 8 ∧
      read_le mem1 8 f.rsp = 0 ∧
      (∀ j s, j < n → argv j = some s →
        read_le mem1 8 (f.rsp + 8 + 8 * j) = strings_start if_.rsp argv n + strings_below argv j ∧
        read_bytes mem1 (strings_start if_.rsp argv n + strings_below argv j) (strlen s + 1) =
          c_string s) ∧
      read_le mem1 8 (f.rsp + 8 + 8 * n) = 0 ∧
      (∀ x, round_down8 (strings_start if_.rsp argv n) ≤ x →
        x < strings_start if_.rsp argv n → mem1 x = 0) ∧
      (∀ x, x < f.rsp ∨ if_.rsp ≤ x → mem1 x = mem x) := by
  unfold final_rsp at hm ⊢
  unfold round_down8 at hP hm ⊢
  unfold strings_start at hP hm ⊢
  generalize hQ : if_.rsp - strings_below argv n = Q at hP hm ⊢
  obtain ⟨st1, e1, f1, a1, -, m1⟩ := push_strings_spec mapped argv n
    { frame := if_, mem := mem, argv_address := fun _ => none } hn hS hT
    (fun x hx1 hx2 => hm x (by simp only at hx1; omega) hx2)
  simp only at f1 m1
  rw [hQ] at f1
  have r1 : st1.frame.rsp = Q := by rw [f1]
  obtain ⟨st2, e2, f2, a2, z2, m2⟩ := align_stack_spec mapped 8 st1 (by omega) (by omega)
    (fun x hx1 hx2 => hm x (by rw [r1] at hx1; omega) (by rw [r1] at hx2; omega))
  have r2 : st2.frame.rsp = Q - Q % 8 := by rw [f2, r1]
  obtain ⟨st3, e3, f3, w3, m3⟩ := push_pointers_spec mapped n
    (fun j => Q + strings_below argv j) (n + 1) st2 (le_refl _) hn (by omega) (by omega)
    (fun x hx1 hx2 => hm x (by rw [r2] at hx1; omega) (by rw [r2] at hx2; omega))
    (fun j hj hjn => by
      obtain ⟨s, hs⟩ := harg j (by omega)
      have := (a1 j s (by omega) hs).1
      rw [r1] at this
      rw [a2]
      refine ⟨this, ?_⟩
      have := strings_below_mono argv j n (by omega)
      simp only
      omega)
  have r3 : st3.frame.rsp = Q - Q % 8 - 8 * (n + 1) := by rw [f3, r2]
  have hsub : sub64 st3.frame.rsp 8 = Q - Q % 8 - 8 * (n + 2) :=
    (sub64_eq _ _ (by omega) (by omega)).trans (by omega)
  obtain ⟨mem4, hw1, hw2, hw3⟩ := write_bytes_spec mapped (List.replicate 8 0) st3.mem
    (Q - Q % 8 - 8 * (n + 2)) (by simp only [List.length_replicate]; omega)
    (fun x hx1 hx2 => hm x hx1 (by simp only [List.length_replicate] at hx2; omega))
  simp only [List.length_replicate] at hw2 hw3
  have above3 : ∀ x, Q - Q % 8 - 8 * (n + 1) ≤ x → mem4 x = st3.mem x :=
    fun x hx => hw3 x (Or.inr (by omega))
  have above2 : ∀ x, Q - Q % 8 ≤ x → mem4 x = st2.mem x := fun x hx => by
    rw [above3 x (by omega), m3 x (Or.inr (by omega))]
  have above1 : ∀ x, Q ≤ x → mem4 x = st1.mem x := fun x hx => by
    rw [above2 x (by omega), m2 x (Or.inr (by omega))]
  refine ⟨{ rsp := Q - Q % 8 - 8 * (n + 2), rdi := ((n : Int) % 2 ^ 64).toNat,
            rsi := (Q - Q % 8 - 8 * (n + 2) + 8) % 2 ^ 64 }, mem4, ?_, rfl, ?_, ?_, ?_, ?_, ?_,
    ?_, ?_⟩
  · simp only [argument_stack, Int.toNat_ofNat, e1, e2,
      show ((n : Int) + 1).toNat = n + 1 by omega, e3, hsub, hw1]
  · show ((n : Int) % 2 ^ 64).toNat = n
    have : (n : Int) % 2 ^ 64 = n := Int.emod_eq_of_lt (by omega) (by omega)
    rw [this]; rfl
  · show (Q - Q % 8 - 8 * (n + 2) + 8) % 2 ^ 64 = Q - Q % 8 - 8 * (n + 2) + 8
    exact Nat.mod_eq_of_lt (by omega)
  · apply read_le_zeros
    intro j hj
    rw [hw2 j hj, List.getElem_replicate]
  · intro j s hj hs
    constructor
    · have := w3 j (by omega)
      rw [if_neg (by omega), r3] at this
      rw [← this]
      simp only
      rw [show Q - Q % 8 - 8 * (n + 2) + 8 + 8 * j = Q - Q % 8 - 8 * (n + 1) + 8 * j by omega]
      exact read_le_congr _ _ 8 _ (fun x hx1 hx2 => above3 x (by omega))
    · have := (a1 j s hj hs).2
      rw [r1] at this
      rw [← this]
      exact read_bytes_congr _ _ _ _ (fun x hx1 hx2 => above1 x (by omega))
  · have := w3 n (by omega)
    rw [if_pos rfl, r3] at this
    rw [← this]
    simp only
    rw [show Q - Q % 8 - 8 * (n + 2) + 8 + 8 * n = Q - Q % 8 - 8 * (n + 1) + 8 * n by omega]
    exact read_le_congr _ _ 8 _ (fun x hx1 hx2 => above3 x (by omega))
  · intro x hx1 hx2
    rw [above2 x hx1]
    exact z2 x (by rw [r2]; exact hx1) (by rw [r1]; exact hx2)
  · intro x hx
    simp only at hx
    rw [hw3 x (by rcases hx with h | h; exact Or.inl h; exact Or.inr (by omega)),
      m3 x (by rw [r3, r2]; rcases hx with h | h; exact Or.inl (by omega); exact Or.inr (by omega)),
      m2 x (by rw [r2, r1]; rcases hx with h | h; exact Or.inl (by omega); exact Or.inr (by omega)),
      m1 x (by rw [r1]; rcases hx with h | h; exact Or.inl (by omega); exact Or.inr (by omega))]


theorem takeWhile_nul_free (t : List Nat) (h : 0 ∉ t) :
    t.takeWhile (fun b => decide (b ≠ 0)) = t := by
  rw [List.takeWhile_eq_self_iff]
  intro b hb
  simp only [ne_eq, decide_not, Bool.not_eq_true', decide_eq_false_iff_not]
  rintro rfl
  exact h hb

theorem strlen_nul_free (t : List Nat) (h : 0 ∉ t) : strlen t = t.length := by
  rw [strlen, takeWhile_nul_free t h]

theorem c_string_nul_free (t : List Nat) (h : 0 ∉ t) : c_string t = t ++ [0] := by
  rw [c_string, takeWhile_nul_free t h]

theorem strings_below_argv_of (ts : List (List Nat)) (h : ∀ t ∈ ts, 0 ∉ t) (i : Nat) :
    i ≤ ts.length → strings_below (argv_of ts) i = tokens_size (ts.take i) := by
  induction i with
  | zero => intro _; simp [strings_below, tokens_size]
  | succ i ih =>
    intro hi
    have hlt : i < ts.length := by omega
    have hget : argv_of ts i = some ts[i] := by
      simp only [argv_of]
      exact List.getElem?_eq_getElem hlt
    have htk : ts.take (i + 1) = ts.take i ++ [ts[i]] := by
      rw [List.take_succ, List.getElem?_eq_getElem hlt]
      rfl
    simp only [strings_below, hget]
    rw [ih (by omega), strlen_nul_free _ (h _ (List.getElem_mem hlt))]
    unfold tokens_size
    rw [htk, List.map_append, List.sum_append]
    simp only [List.map_cons, List.map_nil, List.sum_cons, List.sum_nil, Nat.add_zero]

theorem strings_below_argv_of_length (ts : List (List Nat)) (h : ∀ t ∈ ts, 0 ∉ t) :
    strings_below (argv_of ts) ts.length = tokens_size ts := by
  rw [strings_below_argv_of ts h ts.length (le_refl _), List.take_length]

theorem strings_below_succ_argv_of (ts : List (List Nat)) (h : ∀ t ∈ ts, 0 ∉ t) (i : Nat)
    (hi : i < ts.length) :
    argv_of ts i = some ts[i] ∧
      strings_below (argv_of ts) (i + 1) = strings_below (argv_of ts) i + (ts[i].length + 1) := by
  have hget : argv_of ts i = some ts[i] := by
    simp only [argv_of]
    exact List.getElem?_eq_getElem hi
  refine ⟨hget, ?_⟩
  simp only [strings_below, hget]
  rw [strlen_nul_free _ (h _ (List.getElem_mem hi))]

/-- C19: for every list `ts` of `n` tokens, `n <= 128` (so for `0 < n <= 128`), each NUL-free, and an initial
`rsp` below `2^64` with the stack mapped from the final `rsp` up to it: `argument_stack`
returns and leaves `rdi = n`, `rsi = rsp + 8` and the 8-byte word 0 (the fake return
address) at `rsp`; for each `i < n` the word at `rsi + 8 * i` is the address `addr i` of
a copy of token `i` followed by NUL; the word at `rsi + 8 * n` is 0 (NULL); the copies
lie above the pointers, at increasing addresses in the order of `i`, without overlap,
and the copy of token `n - 1`, pushed first, ends at the initial `rsp`. -/
theorem argument_stack_layout (mapped : Nat → Bool) (if_ : intr_frame) (mem : Memory)
    (ts : List (List Nat)) (hn : ts.length ≤ 128)
    (hnul : ∀ t ∈ ts, 0 ∉ t) (hS : if_.rsp < 2 ^ 64) (hT : tokens_size ts ≤ if_.rsp)
    (hP : 8 * (ts.length + 2) ≤ round_down8 (if_.rsp - tokens_size ts))
    (hm : ∀ x, round_down8 (if_.rsp - tokens_size ts) - 8 * (ts.length + 2) ≤ x →
      x < if_.rsp → mapped x = true) :
    ∃ (f : intr_frame) (mem1 : Memory) (addr : Nat → Nat),
      argument_stack mapped if_ mem (argv_of ts) ts.length = some (f, mem1) ∧
      f.rdi = ts.length ∧ f.rsi = f.rsp + 8 ∧ read_le mem1 8 f.rsp = 0 ∧
      (∀ i (h : i < ts.length), read_le mem1 8 (f.rsi + 8 * i) = addr i ∧
        read_bytes mem1 (addr i) (ts[i].length + 1) = ts[i] ++ [0]) ∧
      read_le mem1 8 (f.rsi + 8 * ts.length) = 0 ∧
      f.rsi + 8 * (ts.length + 1) ≤ addr 0 ∧
      (∀ i j (_ : i < j) (_ : j < ts.length) (h : i < ts.length),
        addr i + (ts[i].length + 1) ≤ addr j) ∧
      (∀ i (h : i < ts.length), i + 1 = ts.length → addr i + (ts[i].length + 1) = if_.rsp) := by
  have hsb := strings_below_argv_of_length ts hnul
  obtain ⟨f, mem1, h1, h2, h3, h4, h5, h6, h7, -, -⟩ := argument_stack_core mapped if_ mem
    (argv_of ts) ts.length hn hS (by rw [hsb]; exact hT)
    (by rw [strings_start, hsb]; exact hP)
    (by rw [final_rsp, strings_start, hsb]; exact hm)
    (fun j hj => ⟨ts[j], (strings_below_succ_argv_of ts hnul j hj).1⟩)
  have hQ : strings_start if_.rsp (argv_of ts) ts.length = if_.rsp - tokens_size ts := by
    rw [strings_start, hsb]
  have hR : f.rsp + 8 * (ts.length + 2) = round_down8 (if_.rsp - tokens_size ts) := by
    rw [h2, final_rsp, hQ]; omega
  refine ⟨f, mem1, fun i => if_.rsp - tokens_size ts + strings_below (argv_of ts) i, h1, h3,
    h4, h5, ?_, ?_, ?_, ?_, ?_⟩
  · intro i hi
    obtain ⟨hget, -⟩ := strings_below_succ_argv_of ts hnul i hi
    obtain ⟨ha, hb⟩ := h6 i ts[i] hi hget
    rw [hQ] at ha hb
    rw [strlen_nul_free _ (hnul _ (List.getElem_mem hi)),
      c_string_nul_free _ (hnul _ (List.getElem_mem hi))] at hb
    rw [h4]
    exact ⟨ha, hb⟩
  · rw [h4]; exact h7
  · simp only [strings_below, Nat.add_zero]
    rw [h4]
    have : round_down8 (if_.rsp - tokens_size ts) ≤ if_.rsp - tokens_size ts := by
      unfold round_down8; omega
    omega
  · intro i j hij hj hi
    obtain ⟨-, hs⟩ := strings_below_succ_argv_of ts hnul i hi
    have := strings_below_mono (argv_of ts) (i + 1) j (by omega)
    simp only
    omega
  · intro i hi hlast
    obtain ⟨-, hs⟩ := strings_below_succ_argv_of ts hnul i hi
    rw [hlast, hsb] at hs
    simp only
    omega


/-- Witness of C19: the tokens of `echo x y z` on the stack page below `USER_STACK`. -/
theorem argument_stack_layout_witness :
    ∃ (f : intr_frame) (mem1 : Memory),
      argument_stack stack_page echo_frame (fun _ => 0) (argv_of echo_tokens) 4 =
        some (f, mem1) ∧
      f.rdi = 4 ∧ f.rsi = f.rsp + 8 ∧
      read_bytes mem1 (read_le mem1 8 f.rsi) 5 = ascii "echo" ++ [0] ∧
      read_le mem1 8 (f.rsi + 32) = 0 := by
  obtain ⟨f, mem1, addr, h1, h2, h3, -, h5, h6, -⟩ :=
    argument_stack_layout stack_page echo_frame (fun _ => 0) echo_tokens (by decide)
      (by decide) (by decide) (by decide) (by decide)
      (fun x hx1 hx2 => by
        have e : round_down8 (echo_frame.rsp - tokens_size echo_tokens) -
            8 * (echo_tokens.length + 2) = 1195900864 := by decide
        have e2 : echo_frame.rsp = 1195900928 := by decide
        rw [e] at hx1
        rw [e2] at hx2
        simp only [stack_page, USER_STACK, PGSIZE, decide_eq_true_eq]
        omega)
  refine ⟨f, mem1, h1, h2, h3, ?_, h6⟩
  obtain ⟨ha, hb⟩ := h5 0 (by decide)
  rw [Nat.mul_zero, Nat.add_zero] at ha
  rw [ha]
  exact hb

theorem tokenize_echo :
    tokenize (ascii "echo x y z") = some (argv_of echo_tokens, 4) := by
  have h : ∃ argv, tokenize (ascii "echo x y z") = some (argv, 4) ∧
      ∀ i, argv i = argv_of echo_tokens i := by
    refine ⟨_, rfl, ?_⟩
    intro i
    match i with
    | 0 => rfl
    | 1 => rfl
    | 2 => rfl
    | 3 => rfl
    | i + 4 =>
      simp [argv_of, echo_tokens, Function.update]
  obtain ⟨argv, h1, h2⟩ := h
  rw [h1, funext h2]

/-- C20, counterexample: for the command line `echo x y z` and `rsp = USER_STACK`, with
the stack page mapped, `process_exec` leaves `argc = 4` in `rdi` and
`rsp = USER_STACK - 64`, which is 0 modulo 16, not 8. -/
theorem exec_echo_rsp_mod_16 :
    (process_exec_stack stack_page echo_frame (fun _ => 0) (ascii "echo x y z")).map
      (fun r => (r.1.rdi, USER_STACK - r.1.rsp, r.1.rsp % 16)) = some (4, 64, 0) := by
  decide

/-- C20, as amended: for the command line `echo x y z` and an initial `rsp` equal to a
page-aligned `USER_STACK = S` whose stack page is mapped: the tokens are `echo`, `x`,
`y`, `z` and `argc = 4`; `argument_stack` leaves `rdi = 4`, `rsi = rsp + 8`, the
addresses of NUL-terminated copies of the four tokens in `argv[0..3]`, `argv[4] = NULL`,
and the final `rsp = S - 64`, a multiple of 8 (and here of 16: `rsp mod 16 = 0`). -/
theorem exec_echo_stack (mapped : Nat → Bool) (S : Nat) (mem : Memory)
    (hS : S % 4096 = 0) (h0 : 4096 ≤ S) (h64 : S < 2 ^ 64)
    (hm : ∀ x, S - 4096 ≤ x → x < S → mapped x = true) :
    tokenize (ascii "echo x y z") = some (argv_of echo_tokens, 4) ∧
    ∃ (f : intr_frame) (mem1 : Memory),
      process_exec_stack mapped { rsp := S, rdi := 0, rsi := 0 } mem (ascii "echo x y z") =
        some (f, mem1) ∧
      f.rdi = 4 ∧ f.rsi = f.rsp + 8 ∧ f.rsp = S - 64 ∧ f.rsp % 8 = 0 ∧ f.rsp % 16 = 0 ∧
      (∀ i (h : i < echo_tokens.length),
        read_bytes mem1 (read_le mem1 8 (f.rsi + 8 * i)) (echo_tokens[i].length + 1) =
          echo_tokens[i] ++ [0]) ∧
      read_le mem1 8 (f.rsi + 8 * 4) = 0 := by
  have hnul : ∀ t ∈ echo_tokens, 0 ∉ t := by decide
  have hsb : strings_below (argv_of echo_tokens) 4 = 11 := by decide
  have hQ : strings_start S (argv_of echo_tokens) 4 = S - 11 := by rw [strings_start, hsb]
  have hR : final_rsp S (argv_of echo_tokens) 4 = S - 64 := by
    rw [final_rsp, hQ, round_down8]; omega
  obtain ⟨f, mem1, h1, h2, h3, h4, -, h6, h7, -, -⟩ := argument_stack_core mapped
    { rsp := S, rdi := 0, rsi := 0 } mem (argv_of echo_tokens) 4 (by decide) h64
    (show strings_below (argv_of echo_tokens) 4 ≤ S by rw [hsb]; omega)
    (show 8 * (4 + 2) ≤ round_down8 (strings_start S (argv_of echo_tokens) 4) by
      rw [hQ, round_down8]; omega)
    (show ∀ x, final_rsp S (argv_of echo_tokens) 4 ≤ x → x < S → mapped x = true from
      fun x hx1 hx2 => hm x (by rw [hR] at hx1; omega) hx2)
    (fun j hj => ⟨echo_tokens[j], (strings_below_succ_argv_of echo_tokens hnul j hj).1⟩)
  have h2 : f.rsp = S - 64 := h2.trans hR
  refine ⟨tokenize_echo, f, mem1, ?_, h3, h4, h2, by omega, by omega, ?_, ?_⟩
  · simp only [process_exec_stack, tokenize_echo]
    exact h1
  · intro i hi
    obtain ⟨hget, -⟩ := strings_below_succ_argv_of echo_tokens hnul i hi
    obtain ⟨ha, hb⟩ := h6 i echo_tokens[i] hi hget
    rw [strlen_nul_free _ (hnul _ (List.getElem_mem hi)),
      c_string_nul_free _ (hnul _ (List.getElem_mem hi))] at hb
    rw [h4, ha]
    exact hb
  · rw [h4]; exact h7

/-- Witness of C20: the stack page below `USER_STACK`. -/
theorem exec_echo_stack_witness :
    ∃ (f : intr_frame) (mem1 : Memory),
      process_exec_stack stack_page echo_frame (fun _ => 0) (ascii "echo x y z") =
        some (f, mem1) ∧ f.rdi = 4 ∧ f.rsp = USER_STACK - 64 ∧ f.rsp % 16 = 0 := by
  obtain ⟨-, f, mem1, h1, h2, -, h4, -, h6, -⟩ :=
    exec_echo_stack stack_page USER_STACK (fun _ => 0) (by decide) (by decide) (by decide)
      (fun x hx1 hx2 => by
        simp only [stack_page, USER_STACK, PGSIZE, decide_eq_true_eq] at hx1 hx2 ⊢
        omega)
  exact ⟨f, mem1, h1, h2, h4, h6⟩

/-! ### Releasing a lock -/

theorem is_max_priority_unique (k : Kernel) (D : List Nat) (base v w : Int)
    (hv : is_max_priority k D base v) (hw : is_max_priority k D base w) : v = w := by
  obtain ⟨v1, v2, v3⟩ := hv
  obtain ⟨w1, w2, w3⟩ := hw
  apply le_antisymm
  · rcases v3 with h | ⟨d, hd, h⟩
    · rw [h]; exact w1
    · rw [h]; exact w2 d hd
  · rcases w3 with h | ⟨d, hd, h⟩
    · rw [h]; exact v1
    · rw [h]; exact v2 d hd

/-- C11, as amended: let `k0` be the state before the thread `H` acquired the lock `L`
and `k` a state in which `H` runs and releases it, such that `H` has its base priority of
`k0` and the donors of `H` that do not wait for `L` are the donors it had in `k0`, with
the priorities they had in `k0` (threads waiting for `L` have joined the donations list
and donated since).  The release steps `remove_with_lock (L)` and `refresh_priority`
return and leave `H` with the priority `max (init_priority, priorities of the donors not
waiting for L)`; this is its priority of `k0` whenever that already was the maximum of
its base priority and its donors, in particular when `H` had no donor and its base
priority in `k0`. -/
theorem release_restores_max (k0 k : Kernel) (H L : Nat)
    (hcur : thread_current k = some H) (hnd : (k.threads H).donations.Nodup)
    (hself : H ∉ (k.threads H).donations)
    (hI : (k.threads H).init_priority = (k0.threads H).init_priority)
    (hD : ∀ d, d ∈ (k0.threads H).donations ↔
      (d ∈ (k.threads H).donations ∧ (k.threads d).wait_lock ≠ some L))
    (hp : ∀ d ∈ (k0.threads H).donations, k.prio d = k0.prio d) :
    ∃ k1 k2, remove_with_lock k L = some k1 ∧ refresh_priority k1 = some k2 ∧
      is_max_priority k ((k.threads H).donations.filter (keeps k L))
        (k.threads H).init_priority (k2.prio H) ∧
      (is_max_priority k0 (k0.threads H).donations (k0.threads H).init_priority (k0.prio H) →
        k2.prio H = k0.prio H) ∧
      ((k0.threads H).donations = [] → k0.prio H = (k0.threads H).init_priority →
        k2.prio H = k0.prio H) := by
  have h1 := remove_with_lock_eq k L H hcur hnd
  have hc1 : thread_current (k.modify H (fun r =>
      { r with donations := r.donations.filter (keeps k L) })) = some H :=
    thread_current_modify k H H _ rfl hcur
  have hd1 : ((k.modify H (fun r =>
      { r with donations := r.donations.filter (keeps k L) })).threads H).donations =
      (k.threads H).donations.filter (keeps k L) := by
    simp [modify_threads]
  have hi1 : ((k.modify H (fun r =>
      { r with donations := r.donations.filter (keeps k L) })).threads H).init_priority =
      (k.threads H).init_priority := by
    simp [modify_threads]
  have hp1 : ∀ x, (k.modify H (fun r =>
      { r with donations := r.donations.filter (keeps k L) })).prio x = k.prio x :=
    fun x => modify_prio_of_priority_eq k H _ rfl x
  obtain ⟨k2, h2, -, hmax, -⟩ := refresh_priority_core _ H hc1
    (by rw [hd1]; exact fun h => hself (List.mem_filter.mp h).1)
  rw [hd1, hi1] at hmax
  have hmax1 : is_max_priority k ((k.threads H).donations.filter (keeps k L))
      (k.threads H).init_priority (k2.prio H) :=
    is_max_priority_congr k _ _ _ _ _ (fun _ => Iff.rfl) (fun d _ => hp1 d) hmax
  have hmax0 : is_max_priority k0 (k0.threads H).donations (k0.threads H).init_priority
      (k2.prio H) := by
    rw [← hI]
    refine is_max_priority_congr k0 k _ _ _ _ ?_ hp hmax1
    intro d
    rw [hD d, List.mem_filter]
    simp [keeps]
  refine ⟨_, k2, h1, h2, hmax1, fun h => is_max_priority_unique k0 _ _ _ _ hmax0 h, ?_⟩
  intro hnil hbase
  apply is_max_priority_unique k0 _ _ _ _ hmax0
  rw [hnil, hbase]
  exact ⟨le_refl _, fun d hd => absurd hd (List.not_mem_nil d), Or.inl rfl⟩

/-- A sleeper with wake-up tick `t + n + 1` stays asleep through `n` timer interrupts in a
row from tick `t` and is made ready by the next one. -/
theorem timer_interrupts_wake (m : Machine) (r x n : Nat)
    (hc : thread_current m.kernel = some r) (hso : sleepers_ok m.kernel)
    (hx : x ∈ m.kernel.sleep_list) (hw : (m.kernel.threads x).wakeup = m.ticks + (n + 1)) :
    (∀ j, j ≤ n → ∃ m1, timer_interrupts j m = some m1 ∧ m1.ticks = m.ticks + j ∧
      x ∈ m1.kernel.sleep_list ∧ (m1.kernel.threads x).status = THREAD_BLOCKED ∧
      (x ∈ m1.kernel.ready_list ↔ x ∈ m.kernel.ready_list)) ∧
    ∃ m2, timer_interrupts (n + 1) m = some m2 ∧ m2.ticks = m.ticks + (n + 1) ∧
      x ∉ m2.kernel.sleep_list ∧ x ∈ m2.kernel.ready_list ∧
      (m2.kernel.threads x).status = THREAD_READY := by
  constructor
  · intro j hj
    obtain ⟨m1, h1, ht1, -, -, hx1, hth1, hr1⟩ :=
      timer_interrupts_asleep j m r x hc hso hx (by rw [hw]; omega)
    exact ⟨m1, h1, ht1, hx1, by rw [hth1]; exact hso.2 x hx, hr1⟩
  · obtain ⟨m1, h1, ht1, hso1, hc1, hx1, hth1, -⟩ :=
      timer_interrupts_asleep n m r x hc hso hx (by rw [hw]; omega)
    obtain ⟨m3, h3, ht3, -, -, hs3⟩ := timer_interrupt_step m1 r hc1 hso1
    obtain ⟨ha, hb, hc3⟩ := (hs3 x hx1).2 (by rw [hth1, hw, ht1]; omega)
    refine ⟨m3, ?_, by rw [ht3, ht1]; omega, ha, hb, by rw [hc3]⟩
    rw [timer_interrupts_succ, h1, Option.some_bind, h3]

/-- Three threads sleep 10, 20 and 30 ticks at tick 0: each is on the sleep list until the
interrupt that makes the tick its wake-up tick, which moves it to the ready list. -/
theorem three_sleepers_wake :
    ∃ m0, timer_sleeps [10, 20, 30] three_threads = some m0 ∧ m0.ticks = 0 ∧
      m0.kernel.sleep_list = [1, 3, 4] ∧
      ∀ p ∈ [((1 : Nat), (10 : Nat)), (3, 20), (4, 30)],
        (∀ j, j < p.2 → ∃ m1, timer_interrupts j m0 = some m1 ∧
          p.1 ∈ m1.kernel.sleep_list ∧ p.1 ∉ m1.kernel.ready_list) ∧
        (∃ m2, timer_interrupts p.2 m0 = some m2 ∧ m2.ticks = p.2 ∧
          p.1 ∈ m2.kernel.ready_list ∧ p.1 ∉ m2.kernel.sleep_list) := by
  have hobs : (timer_sleeps [10, 20, 30] three_threads).map (fun m =>
      decide (thread_current m.kernel = some 2 ∧ m.ticks = 0 ∧
        m.kernel.sleep_list = [1, 3, 4] ∧ m.kernel.ready_list = [] ∧
        (m.kernel.threads 1).status = THREAD_BLOCKED ∧
        (m.kernel.threads 3).status = THREAD_BLOCKED ∧
        (m.kernel.threads 4).status = THREAD_BLOCKED ∧
        (m.kernel.threads 1).wakeup = 10 ∧ (m.kernel.threads 3).wakeup = 20 ∧
        (m.kernel.threads 4).wakeup = 30)) = some true := by decide
  cases hm : timer_sleeps [10, 20, 30] three_threads with
  | none => rw [hm] at hobs; cases hobs
  | some m0 =>
    rw [hm] at hobs
    simp only [Option.map_some', Option.some.injEq, decide_eq_true_eq] at hobs
    obtain ⟨hc, ht, hsl, hrl, hb1, hb3, hb4, hw1, hw3, hw4⟩ := hobs
    have hso : sleepers_ok m0.kernel := by
      refine ⟨by rw [hsl]; decide, ?_⟩
      intro x hx
      rw [hsl] at hx
      simp only [List.mem_cons, List.mem_singleton, List.not_mem_nil, or_false] at hx
      rcases hx with rfl | rfl | rfl
      · exact hb1
      · exact hb3
      · exact hb4
    have key : ∀ x n : Nat, x ∈ m0.kernel.sleep_list →
        (m0.kernel.threads x).wakeup = ((n + 1 : Nat) : Int) →
        (∀ j, j < n + 1 → ∃ m1, timer_interrupts j m0 = some m1 ∧
          x ∈ m1.kernel.sleep_list ∧ x ∉ m1.kernel.ready_list) ∧
        (∃ m2, timer_interrupts (n + 1) m0 = some m2 ∧ m2.ticks = ((n + 1 : Nat) : Int) ∧
          x ∈ m2.kernel.ready_list ∧ x ∉ m2.kernel.sleep_list) := by
      intro x n hx hw
      obtain ⟨ha, m2, h2, ht2, hs2, hr2, -⟩ := timer_interrupts_wake m0 2 x n hc hso hx
        (by rw [hw, ht]; push_cast; omega)
      refine ⟨?_, m2, h2, by rw [ht2, ht]; push_cast; omega, hr2, hs2⟩
      intro j hj
      obtain ⟨m1, h1, -, hx1, -, hr1⟩ := ha j (by omega)
      refine ⟨m1, h1, hx1, fun h => ?_⟩
      have := hr1.mp h
      rw [hrl] at this
      exact absurd this (List.not_mem_nil x)
    refine ⟨m0, rfl, ht, hsl, ?_⟩
    intro p hp
    simp only [List.mem_cons, List.mem_singleton, List.not_mem_nil, or_false] at hp
    rcases hp with rfl | rfl | rfl
    · exact key 1 9 (by rw [hsl]; decide) (by rw [hw1]; rfl)
    · exact key 3 19 (by rw [hsl]; decide) (by rw [hw3]; rfl)
    · exact key 4 29 (by rw [hsl]; decide) (by rw [hw4]; rfl)

/-- C13, as amended: for every `d > 0` for which `t + d` is an `int64_t`
(`t + d <= 2^63 - 1`): a thread `cur`, not the idle thread, that calls `timer_sleep (d)`
at tick `t` (scheduler lists well formed, sleepers blocked) gets `wakeup = t + d` and is
blocked on the sleep list.  Any timer interrupt taken while it is there, whatever has run
in between, leaves it blocked on the sleep list when the new tick is `< t + d` and moves
it to the ready list when the new tick is `>= t + d`; so after `n < d` interrupts in a
row it is still asleep, and the interrupt that makes the tick `t + d` moves it to the
ready list.  Three threads that sleep 10, 20 and 30 ticks at tick 0 (`timer_sleeps`) are on
the sleep list after fewer than 10, 20 and 30 interrupts and enter the ready list in the
interrupts that make the tick 10, 20 and 30, in that order. -/
theorem timer_sleep_wakes_on_time (m : Machine) (cur i : Nat) (d : Int)
    (hd : 0 < d) (hlo : -(2 : Int) ^ 63 ≤ m.ticks) (hov : m.ticks + d < (2 : Int) ^ 63)
    (hc : thread_current m.kernel = some cur) (hi : m.kernel.idle_thread = some i)
    (hne : i ≠ cur) (hok : lists_ok m.kernel)
    (hsb : ∀ t ∈ m.kernel.sleep_list, (m.kernel.threads t).status = THREAD_BLOCKED) :
    ∃ m1, timer_sleep m d = some m1 ∧ m1.ticks = m.ticks ∧
      (m1.kernel.threads cur).wakeup = m.ticks + d ∧
      (m1.kernel.threads cur).status = THREAD_BLOCKED ∧ cur ∈ m1.kernel.sleep_list ∧
      (∀ (m2 : Machine) (r : Nat), thread_current m2.kernel = some r → sleepers_ok m2.kernel →
        cur ∈ m2.kernel.sleep_list → (m2.kernel.threads cur).wakeup = m.ticks + d →
        ∃ m3, timer_interrupt m2 = some m3 ∧ m3.ticks = m2.ticks + 1 ∧
          (m3.ticks < m.ticks + d →
            cur ∈ m3.kernel.sleep_list ∧ (m3.kernel.threads cur).status = THREAD_BLOCKED ∧
              (m3.kernel.threads cur).wakeup = m.ticks + d) ∧
          (m.ticks + d ≤ m3.ticks →
            cur ∉ m3.kernel.sleep_list ∧ cur ∈ m3.kernel.ready_list ∧
              (m3.kernel.threads cur).status = THREAD_READY)) ∧
      (∀ n : Nat, (n : Int) < d →
        ∃ m2, timer_interrupts n m1 = some m2 ∧ m2.ticks = m.ticks + n ∧
          cur ∈ m2.kernel.sleep_list ∧ (m2.kernel.threads cur).status = THREAD_BLOCKED ∧
          cur ∉ m2.kernel.ready_list) ∧
      (∃ m2, timer_interrupts d.toNat m1 = some m2 ∧ m2.ticks = m.ticks + d ∧
        cur ∉ m2.kernel.sleep_list ∧ cur ∈ m2.kernel.ready_list ∧
        (m2.kernel.threads cur).status = THREAD_READY) ∧
      (∃ m0, timer_sleeps [10, 20, 30] three_threads = some m0 ∧ m0.ticks = 0 ∧
        m0.kernel.sleep_list = [1, 3, 4] ∧
        ∀ p ∈ [((1 : Nat), (10 : Nat)), (3, 20), (4, 30)],
          (∀ j, j < p.2 → ∃ m1, timer_interrupts j m0 = some m1 ∧
            p.1 ∈ m1.kernel.sleep_list ∧ p.1 ∉ m1.kernel.ready_list) ∧
          (∃ m2, timer_interrupts p.2 m0 = some m2 ∧ m2.ticks = p.2 ∧
            p.1 ∈ m2.kernel.ready_list ∧ p.1 ∉ m2.kernel.sleep_list)) := by
  obtain ⟨m1, h1, ht1, hcur, hsl, hrl, hso, hrun⟩ :=
    timer_sleep_spec m cur i d (by omega) hov hc hi hne hok hsb
  have hw : (m1.kernel.threads cur).wakeup = m.ticks + d := by rw [hcur]
  have hst : (m1.kernel.threads cur).status = THREAD_BLOCKED := by rw [hcur]
  have hasleep : ∀ n : Nat, (n : Int) < d →
      ∃ m2, timer_interrupts n m1 = some m2 ∧ m2.ticks = m.ticks + n ∧
        sleepers_ok m2.kernel ∧ thread_current m2.kernel = some m1.kernel.running ∧
        cur ∈ m2.kernel.sleep_list ∧ m2.kernel.threads cur = m1.kernel.threads cur ∧
        cur ∉ m2.kernel.ready_list := by
    intro n hn
    obtain ⟨m2, h2, ht2, hso2, hc2, hx2, hth2, hr2⟩ :=
      timer_interrupts_asleep n m1 _ cur hrun hso hsl (by rw [hw, ht1]; omega)
    exact ⟨m2, h2, by rw [ht2, ht1], hso2, hc2, hx2, hth2, fun h => hrl (hr2.mp h)⟩
  refine ⟨m1, h1, ht1, hw, hst, hsl, ?_, ?_, ?_, three_sleepers_wake⟩
  · intro m2 r hc2 hso2 hx2 hw2
    obtain ⟨m3, h3, ht3, -, -, hs3⟩ := timer_interrupt_step m2 r hc2 hso2
    refine ⟨m3, h3, ht3, ?_, ?_⟩
    · intro hlt
      obtain ⟨ha, hb, -⟩ := (hs3 cur hx2).1 (by rw [hw2]; omega)
      exact ⟨ha, by rw [hb]; exact hso2.2 cur hx2, by rw [hb, hw2]⟩
    · intro hle
      obtain ⟨ha, hb, hc3⟩ := (hs3 cur hx2).2 (by rw [hw2]; omega)
      exact ⟨ha, hb, by rw [hc3]⟩
  · intro n hn
    obtain ⟨m2, h2, ht2, -, -, hx2, hth2, hr2⟩ := hasleep n hn
    exact ⟨m2, h2, ht2, hx2, by rw [hth2]; exact hst, hr2⟩
  · obtain ⟨n, hn⟩ : ∃ n : Nat, d.toNat = n + 1 := ⟨d.toNat - 1, by omega⟩
    obtain ⟨m2, h2, ht2, hso2, hc2, hx2, hth2, -⟩ := hasleep n (by omega)
    obtain ⟨m3, h3, ht3, -, -, hs3⟩ := timer_interrupt_step m2 _ hc2 hso2
    obtain ⟨ha, hb, hc3⟩ := (hs3 cur hx2).2 (by rw [hth2, hw, ht2]; omega)
    refine ⟨m3, ?_, by rw [ht3, ht2]; omega, ha, hb, by rw [hc3]⟩
    rw [hn, timer_interrupts_succ, h2, Option.some_bind, h3]

/-- Witness of C13: "main" sleeps 10 ticks at tick 0 with the threads 3 and 4 ready; it is
on the sleep list after 9 interrupts and on the ready list after the 10th. -/
theorem timer_sleep_wakes_on_time_witness :
    ∃ m1, timer_sleep three_threads 10 = some m1 ∧ (m1.kernel.threads 1).wakeup = 10 ∧
      (∃ m2, timer_interrupts 9 m1 = some m2 ∧ m2.ticks = 9 ∧ 1 ∈ m2.kernel.sleep_list) ∧
      (∃ m2, timer_interrupts 10 m1 = some m2 ∧ m2.ticks = 10 ∧ 1 ∈ m2.kernel.ready_list) := by
  have hobs : decide (thread_current three_threads.kernel = some 1 ∧
      three_threads.kernel.idle_thread = some 2 ∧ three_threads.kernel.sleep_list = [] ∧
      three_threads.ticks = 0 ∧ three_threads.kernel.ready_list = [3, 4] ∧
      three_threads.kernel.running = 1 ∧ three_threads.kernel.prio 3 = 31 ∧
      three_threads.kernel.prio 4 = 31) = true := by decide
  obtain ⟨hc, hi, hsl, ht, hrl, hrun, hp3, hp4⟩ := of_decide_eq_true hobs
  have hok : lists_ok three_threads.kernel := by
    refine ⟨?_, ?_, ?_, ?_, ?_, ?_⟩
    · unfold sorted_by_priority
      rw [hrl]
      simp only [List.pairwise_cons, List.mem_singleton, forall_eq, List.not_mem_nil,
        false_implies, implies_true, List.Pairwise.nil, and_true, hp3, hp4]
      decide
    · rw [hrl]; decide
    · rw [hrl, hrun]; decide
    · rw [hsl]; exact List.nodup_nil
    · intro x hx; rw [hsl] at hx; exact absurd hx (List.not_mem_nil x)
    · intro i _; rw [hsl]; exact List.not_mem_nil i
  obtain ⟨m1, h1, -, h2, -, -, -, h3, h4, -⟩ :=
    timer_sleep_wakes_on_time three_threads 1 2 10 (by decide) (by rw [ht]; decide)
      (by rw [ht]; decide) hc hi (by decide) hok
      (fun x hx => by rw [hsl] at hx; exact absurd hx (List.not_mem_nil x))
  obtain ⟨m2, e2, t2, s2, -⟩ := h3 9 (by decide)
  obtain ⟨m3, e3, t3, -, r3, -⟩ := h4
  refine ⟨m1, h1, h2.trans (by rw [ht]; rfl), ⟨m2, e2, t2.trans (by rw [ht]; rfl), s2⟩,
    ⟨m3, e3, t3.trans (by rw [ht]; rfl), r3⟩⟩

/-- C11, counterexample: in `stale_state`, the state that the run `stale_calls` leaves,
"main" runs with priority 39, base priority 31 and the donor 18, whose priority the
donation of thread 10 has raised to 40 without reaching "main" (the walk of
`donate_priority` stops after 8 holders).  "main" takes the free lock 0 (its priority is
still 39), thread 20 waits for lock 0 and donates 50; the release steps
`remove_with_lock (0)` and `refresh_priority` then leave "main" with priority 40, not
with the 39 it had before it acquired lock 0. -/
theorem release_does_not_restore :
    (stale_state.running, stale_state.prio 1, (stale_state.threads 1).donations,
      stale_state.prio 18, (stale_state.locks 0).holder) = (1, 39, [18], 40, none) ∧
    (run stale_state hold_calls).map (fun k =>
        (k.running, k.prio 1, (k.threads 1).donations, (k.locks 0).holder,
          (k.threads 20).wait_lock)) = some (1, 50, [20, 18], some 1, some 0) ∧
    ((run stale_state hold_calls).bind (fun k =>
        (remove_with_lock k 0).bind refresh_priority)).map (fun k => k.prio 1) = some 40 := by
  have hobs : (run stale_state hold_calls).map (fun k =>
      decide (thread_current k = some 1 ∧ (k.threads 1).donations = [20, 18] ∧
        (k.threads 1).init_priority = 31 ∧ (k.threads 20).wait_lock = some 0 ∧
        (k.threads 18).wait_lock = some 9 ∧ k.prio 18 = 40 ∧ k.running = 1 ∧ k.prio 1 = 50 ∧
        (k.locks 0).holder = some 1)) = some true := by decide
  cases hk : run stale_state hold_calls with
  | none => rw [hk] at hobs; cases hobs
  | some k =>
    rw [hk] at hobs
    simp only [Option.map_some', Option.some.injEq, decide_eq_true_eq] at hobs
    obtain ⟨hcur, hdon, hinit, hw20, hw18, hp18, hrun, hp1, hl0⟩ := hobs
    refine ⟨by decide, ?_, ?_⟩
    · simp only [Option.map_some', hrun, hp1, hdon, hl0, hw20]
    · have hnd : (k.threads 1).donations.Nodup := by rw [hdon]; decide
      have hrem := remove_with_lock_eq k 0 1 hcur hnd
      have hfil : (k.threads 1).donations.filter (keeps k 0) = [18] := by
        rw [hdon]
        simp [List.filter, keeps, hw20, hw18]
      have hc1 : thread_current (k.modify 1 (fun r =>
          { r with donations := r.donations.filter (keeps k 0) })) = some 1 :=
        thread_current_modify k 1 1 _ rfl hcur
      have hd1 : ((k.modify 1 (fun r =>
          { r with donations := r.donations.filter (keeps k 0) })).threads 1).donations =
          [18] := by
        simp only [modify_threads, if_true]
        exact hfil
      have hi1 : ((k.modify 1 (fun r =>
          { r with donations := r.donations.filter (keeps k 0) })).threads 1).init_priority =
          31 := by
        simp only [modify_threads, if_true]
        exact hinit
      have hp : (k.modify 1 (fun r =>
          { r with donations := r.donations.filter (keeps k 0) })).prio 18 = 40 :=
        (modify_prio_of_priority_eq k 1 _ rfl 18).trans hp18
      obtain ⟨k2, h2, -, ⟨m1, m2, m3⟩, -⟩ := refresh_priority_core _ 1 hc1
        (by rw [hd1]; decide)
      rw [hi1] at m1 m3
      rw [hd1] at m2 m3
      have hv : k2.prio 1 = 40 := by
        have h40 := m2 18 (List.mem_singleton.mpr rfl)
        rw [hp] at h40
        rcases m3 with h | ⟨d, hd, h⟩
        · rw [h] at h40; exact absurd h40 (by decide)
        · rw [List.mem_singleton.mp hd, hp] at h
          exact h
      simp only [Option.some_bind, hrem, h2, Option.map_some', hv]

/-- Witness of C11: "main" (priority 31, no donors) takes lock 0; thread 3 (priority 40)
waits for it and donates; the release steps give "main" its priority 31 back. -/
theorem release_restores_max_witness :
    ∃ k1 k2, remove_with_lock held_with_waiter 0 = some k1 ∧ refresh_priority k1 = some k2 ∧
      held_with_waiter.prio 1 = 40 ∧ k2.prio 1 = 31 ∧ boot.prio 1 = 31 := by
  have hobs : decide (thread_current held_with_waiter = some 1 ∧
      (held_with_waiter.threads 1).donations = [3] ∧
      (held_with_waiter.threads 1).init_priority = (boot.threads 1).init_priority ∧
      (held_with_waiter.threads 3).wait_lock = some 0 ∧ held_with_waiter.prio 1 = 40) = true := by
    decide
  obtain ⟨hcur, hdon, hinit, hw3, hp1⟩ := of_decide_eq_true hobs
  have e0 : (boot.threads 1).donations = [] := by decide
  obtain ⟨k1, k2, h1, h2, -, -, h3⟩ := release_restores_max boot held_with_waiter 1 0
    hcur (by rw [hdon]; decide) (by rw [hdon]; decide) hinit
    (fun d => by
      rw [hdon, e0]
      simp only [List.not_mem_nil, List.mem_singleton, false_iff, not_and, not_not]
      rintro rfl
      exact hw3)
    (fun d hd => by
      rw [e0] at hd
      exact absurd hd (List.not_mem_nil d))
  exact ⟨k1, k2, h1, h2, hp1, (h3 e0 (by decide)).trans (by decide), by decide⟩

/-! ### The command line -/

set_option maxRecDepth 100000 in
/-- C21, failing input: a command line of 128 one-letter tokens is parsed with `argc = 128`;
for a command line of 129 tokens the loop of `process_exec` stores the 129th token at
`argv[128]`, outside the array of 128 elements (the model's `none`); and the first loop of
`argument_stack`, called with `argc = 129`, stores at `argv_address[128]`, outside its
array. -/
theorem tokenize_overflows_argv :
    (tokenize (letters_line 128)).map (fun r => r.2) = some 128 ∧
    (tokenize (letters_line 129)).isSome = false ∧
    (push_strings (fun _ => true) (fun _ => some (ascii "a")) 129
      { frame := { rsp := USER_STACK, rdi := 0, rsi := 0 }, mem := fun _ => 0,
        argv_address := fun _ => none }).isSome = false := by
  refine ⟨by decide, by decide, by decide⟩

/-- The intra-page offset `x & PGMASK` is `x mod 4096`. -/
theorem land_PGMASK (x : Nat) : x &&& PGMASK = x % 4096 :=
  Nat.and_pow_two_sub_one_eq_mod x 12

/-- The macro `ROUND_UP (x, PGSIZE)`: the least multiple of the page size from `x` on. -/
theorem ROUND_UP_spec (x : Nat) :
    ROUND_UP x PGSIZE % 4096 = 0 ∧ x ≤ ROUND_UP x PGSIZE ∧ ROUND_UP x PGSIZE < x + 4096 := by
  unfold ROUND_UP PGSIZE
  omega

/-- What a header that `validate_segment` accepts tells about the sizes. -/
theorem validate_segment_facts (kern_base : Nat) (phdr : Phdr) (file_length : Int)
    (hk : kern_base ≤ 2 ^ 64) (hm : phdr.p_memsz < 2 ^ 64)
    (hv : validate_segment kern_base phdr file_length = true) :
    phdr.p_offset % 4096 = phdr.p_vaddr % 4096 ∧ phdr.p_filesz ≤ phdr.p_memsz ∧
      0 < phdr.p_memsz ∧ 4096 ≤ phdr.p_vaddr ∧ phdr.p_vaddr + phdr.p_memsz < 2 ^ 64 := by
  unfold validate_segment is_user_vaddr at hv
  rw [land_PGMASK, land_PGMASK] at hv
  simp only [PGSIZE] at hv
  have e4 : (phdr.p_vaddr + phdr.p_memsz) % 2 ^ 64 =
      if phdr.p_vaddr + phdr.p_memsz < 2 ^ 64 then phdr.p_vaddr + phdr.p_memsz
      else (phdr.p_vaddr + phdr.p_memsz) % 2 ^ 64 := by
    split
    · exact Nat.mod_eq_of_lt (by assumption)
    · rfl
  split_ifs at hv with h1 h2 h3 h4 h5 h6 h7 h8
  simp only [Bool.not_eq_true', decide_eq_false_iff_not, not_lt, ne_eq, not_not] at *
  refine ⟨h1, by omega, by omega, by omega, ?_⟩
  by_contra hcon
  have hge : 2 ^ 64 ≤ phdr.p_vaddr + phdr.p_memsz := by omega
  have : (phdr.p_vaddr + phdr.p_memsz) % 2 ^ 64 = phdr.p_vaddr + phdr.p_memsz - 2 ^ 64 := by
    rw [Nat.mod_eq_sub_mod hge]
    exact Nat.mod_eq_of_lt (by omega)
  omega

/-- The arguments of `load_segment` in closed form, for a header that is accepted. -/
theorem load_segment_args_eq (kern_base : Nat) (phdr : Phdr) (file_length : Int)
    (hk : kern_base ≤ 2 ^ 64) (hm : phdr.p_memsz < 2 ^ 64)
    (hv : validate_segment kern_base phdr file_length = true) :
    load_segment_args phdr =
      (to_off_t ((phdr.p_offset - phdr.p_offset % 4096 : Nat) : Int),
        phdr.p_vaddr - phdr.p_vaddr % 4096,
        (if 0 < phdr.p_filesz then (phdr.p_vaddr % 4096 + phdr.p_filesz) % 2 ^ 32 else 0),
        (if 0 < phdr.p_filesz then
          (ROUND_UP (phdr.p_vaddr % 4096 + phdr.p_memsz) PGSIZE + 2 ^ 64 -
            (phdr.p_vaddr % 4096 + phdr.p_filesz) % 2 ^ 32) % 2 ^ 64 % 2 ^ 32
         else ROUND_UP (phdr.p_vaddr % 4096 + phdr.p_memsz) PGSIZE % 2 ^ 32)) := by
  obtain ⟨f1, f2, f3, f4, f5⟩ := validate_segment_facts kern_base phdr file_length hk hm hv
  have hR := ROUND_UP_spec (phdr.p_vaddr % 4096 + phdr.p_memsz)
  have hpo : phdr.p_vaddr % 4096 < 4096 := Nat.mod_lt _ (by norm_num)
  have a1 : (phdr.p_vaddr % 4096 + phdr.p_filesz) % 2 ^ 64 =
      phdr.p_vaddr % 4096 + phdr.p_filesz := Nat.mod_eq_of_lt (by omega)
  have a2 : (phdr.p_vaddr % 4096 + phdr.p_memsz) % 2 ^ 64 =
      phdr.p_vaddr % 4096 + phdr.p_memsz := Nat.mod_eq_of_lt (by omega)
  have a3 : ROUND_UP (phdr.p_vaddr % 4096 + phdr.p_memsz) PGSIZE % 2 ^ 64 =
      ROUND_UP (phdr.p_vaddr % 4096 + phdr.p_memsz) PGSIZE := Nat.mod_eq_of_lt (by omega)
  unfold load_segment_args
  rw [land_PGMASK]
  simp only [a1, a2, a3, PGMASK]
  by_cases hf : 0 < phdr.p_filesz
  · simp only [gt_iff_lt, hf, if_true]
  · simp only [gt_iff_lt, hf, if_false]

/-- C22: for a header with 64-bit fields and a file length as `file_length` delivers
it, `validate_segment` accepts if and only if, over unbounded integers, `p_offset` and
`p_vaddr` have the same offset within a page, `p_offset <= file length`,
`p_filesz <= p_memsz`, `p_memsz > 0`, `p_vaddr >= PGSIZE`, and `p_vaddr` and
`p_vaddr + p_memsz` (the sum not reduced modulo `2 ^ 64`) lie below `KERN_BASE`. -/
theorem validate_segment_iff (kern_base : Nat) (phdr : Phdr) (file_length : Int)
    (hk : kern_base ≤ 2 ^ 64) (hv : phdr.p_vaddr < 2 ^ 64) (hm : phdr.p_memsz < 2 ^ 64)
    (hl0 : 0 ≤ file_length) (hl : file_length < 2 ^ 31) :
    validate_segment kern_base phdr file_length = true ↔
      (phdr.p_offset % PGSIZE = phdr.p_vaddr % PGSIZE ∧ (phdr.p_offset : Int) ≤ file_length ∧
        phdr.p_filesz ≤ phdr.p_memsz ∧ 0 < phdr.p_memsz ∧ PGSIZE ≤ phdr.p_vaddr ∧
        phdr.p_vaddr < kern_base ∧ phdr.p_vaddr + phdr.p_memsz < kern_base) := by
  have e1 : phdr.p_offset &&& PGMASK = phdr.p_offset % 4096 :=
    Nat.and_pow_two_sub_one_eq_mod phdr.p_offset 12
  have e2 : phdr.p_vaddr &&& PGMASK = phdr.p_vaddr % 4096 :=
    Nat.and_pow_two_sub_one_eq_mod phdr.p_vaddr 12
  have e3 : (file_length % 2 ^ 64).toNat = file_length.toNat := by
    rw [Int.emod_eq_of_lt hl0 (by omega)]
  unfold validate_segment is_user_vaddr
  rw [e1, e2, e3]
  simp only [PGSIZE]
  have e4 : (phdr.p_vaddr + phdr.p_memsz) % 2 ^ 64 =
      if phdr.p_vaddr + phdr.p_memsz < 2 ^ 64 then phdr.p_vaddr + phdr.p_memsz
      else phdr.p_vaddr + phdr.p_memsz - 2 ^ 64 := by
    split
    · rename_i h; exact Nat.mod_eq_of_lt h
    · rw [Nat.mod_eq_sub_mod (by omega)]
      exact Nat.mod_eq_of_lt (by omega)
  generalize (phdr.p_vaddr + phdr.p_memsz) % 2 ^ 64 = s at e4 ⊢
  simp only [Bool.not_eq_true', decide_eq_false_iff_not, not_lt, gt_iff_lt, ne_eq]
  split at e4 <;> split_ifs <;>
    first
    | (constructor
       · intro h; exact absurd h (by decide)
       · rintro ⟨h1, h2, h3, h4, h5, h6, h7⟩; omega)
    | (constructor
       · intro _; refine ⟨?_, ?_, ?_, ?_, ?_, ?_, ?_⟩ <;> omega
       · intro _; rfl)

/-- Witness of C22: the one-page code segment is accepted, an empty segment is not. -/
theorem validate_segment_iff_witness :
    validate_segment KERN_BASE demo_phdr 8192 = true ∧
    validate_segment KERN_BASE { demo_phdr with p_memsz := 0 } 8192 = false := by
  have h := validate_segment_iff KERN_BASE demo_phdr 8192 (by decide) (by decide) (by decide)
    (by decide) (by decide)
  exact ⟨h.mpr (by decide), by decide⟩

/-- The header test of `load`, condition by condition. -/
theorem ehdr_ok_iff (ehdr : ELF64_hdr) :
    ehdr_ok ehdr = true ↔
      (ehdr.e_ident.take 7 = [0x7f, 0x45, 0x4c, 0x46, 2, 1, 1] ∧ ehdr.e_type = 2 ∧
        ehdr.e_machine = 0x3E ∧ ehdr.e_version = 1 ∧ ehdr.e_phentsize = sizeof_Phdr ∧
        ehdr.e_phnum ≤ 1024) := by
  unfold ehdr_ok
  simp only [Bool.not_eq_true', Bool.or_eq_false_iff, decide_eq_false_iff_not, ne_eq,
    not_not, gt_iff_lt, not_lt, and_assoc]

/-- A successful `load` has read a header that passes the test. -/
theorem load_success_header (env : LoadEnv) (name : List Nat) (rip rsp : Nat)
    (h : load env name = some (true, rip, rsp)) :
    ∃ file ehdr, env.filesys_open name = some file ∧ file.ehdr = some ehdr ∧
      ehdr_ok ehdr = true := by
  unfold load at h
  split at h
  · cases h
  · split at h
    · cases h
    · rename_i file hf
      split at h
      · cases h
      · rename_i ehdr he
        split at h
        · cases h
        · rename_i hok
          exact ⟨file, ehdr, hf, he, by simpa using hok⟩

/-- C23: when the files that `filesys_open` delivers have headers with
`e_phnum > 1024`, `load` returns `false` for every name and `process_exec` returns `-1`
for every command line that fits `argv`; the header test accepts exactly the headers
with the seven ident bytes `0x7F 'E' 'L' 'F' 2 1 1`, `e_type = 2`, `e_machine = 0x3E`,
`e_version = 1`, `e_phentsize = sizeof (struct Phdr)` and `e_phnum <= 1024`, and a `load`
that succeeds has read a header that the test accepts. -/
theorem load_rejects_many_phdrs (env : LoadEnv)
    (hev : ∀ name file ehdr, env.filesys_open name = some file → file.ehdr = some ehdr →
      1024 < ehdr.e_phnum) :
    (∀ name, load env name = some (false, 0, 0)) ∧
    (∀ mapped mem f_name, (tokenize f_name).isSome = true →
      ∃ v, process_exec env mapped mem f_name = some (ExecResult.returned v) ∧ v = -1) ∧
    (∀ ehdr : ELF64_hdr, ehdr_ok ehdr = true ↔
      (ehdr.e_ident.take 7 = [0x7f, 0x45, 0x4c, 0x46, 2, 1, 1] ∧ ehdr.e_type = 2 ∧
        ehdr.e_machine = 0x3E ∧ ehdr.e_version = 1 ∧ ehdr.e_phentsize = sizeof_Phdr ∧
        ehdr.e_phnum ≤ 1024)) ∧
    (∀ (env1 : LoadEnv) name rip rsp, load env1 name = some (true, rip, rsp) →
      ∃ file ehdr, env1.filesys_open name = some file ∧ file.ehdr = some ehdr ∧
        ehdr_ok ehdr = true) := by
  have hl : ∀ name, load env name = some (false, 0, 0) := by
    intro name
    unfold load
    split
    · rfl
    · cases hf : env.filesys_open name with
      | none => rfl
      | some file =>
        cases he : file.ehdr with
        | none => simp only [he]
        | some ehdr =>
          have hn := hev name file ehdr hf he
          have hok : ehdr_ok ehdr = false := by
            cases hb : ehdr_ok ehdr
            · rfl
            · have := ((ehdr_ok_iff ehdr).mp hb).2.2.2.2.2
              omega
          simp only [he, hok, Bool.not_false, if_true]
  refine ⟨hl, ?_, ehdr_ok_iff, load_success_header⟩
  intro mapped mem f_name ht
  cases htk : tokenize f_name with
  | none => rw [htk] at ht; cases ht
  | some r =>
    obtain ⟨argv, argc⟩ := r
    refine ⟨-1, ?_, rfl⟩
    simp only [process_exec, htk, hl]

/-- Witness of C23: with 1025 program headers `load` fails, with one it succeeds. -/
theorem load_rejects_many_phdrs_witness :
    load (demo_env 1025) (ascii "echo") = some (false, 0, 0) ∧
    load (demo_env 1) (ascii "echo") = some (true, 0x400000, USER_STACK) := by
  have h := load_rejects_many_phdrs (demo_env 1025) (by
    intro name file ehdr hf he
    simp only [demo_env, Option.some.injEq] at hf
    subst hf
    simp only [Option.some.injEq] at he
    subst he
    decide)
  exact ⟨h.1 _, by decide⟩

/-- C24 (counterexample): a header with `p_filesz = p_memsz = 2 ^ 32` at `0x400000` is
accepted by `validate_segment`, and `load` passes `read_bytes = 0` and `zero_bytes = 0`,
not `read_bytes = (p_vaddr mod PGSIZE) + p_filesz`: the sizes are kept in `uint32_t`. -/
theorem load_segment_args_truncates :
    validate_segment KERN_BASE huge_phdr 8192 = true ∧
      load_segment_args huge_phdr = (0, 0x400000, 0, 0) ∧
      (load_segment_args huge_phdr).2.2.1 ≠ huge_phdr.p_vaddr % PGSIZE + huge_phdr.p_filesz ∧
      (load_segment_args huge_phdr).2.2.1 + (load_segment_args huge_phdr).2.2.2 ≠
        ROUND_UP (huge_phdr.p_vaddr % PGSIZE + huge_phdr.p_memsz) PGSIZE := by
  decide

/-- C24 (amended): for every header accepted by `validate_segment`, `load` passes
`load_segment` the start of the page containing `p_vaddr`, `read_bytes` equal to
`(p_vaddr mod PGSIZE) + p_filesz` modulo `2 ^ 32` when `p_filesz > 0` (0 otherwise), and
`zero_bytes` such that `read_bytes + zero_bytes` equals
`ROUND_UP ((p_vaddr mod PGSIZE) + p_memsz, PGSIZE)` modulo `2 ^ 32`; when that rounded
size is below `2 ^ 32` both equalities hold without the reduction. -/
theorem load_segment_args_spec (kern_base : Nat) (phdr : Phdr) (file_length : Int)
    (hk : kern_base ≤ 2 ^ 64) (hm : phdr.p_memsz < 2 ^ 64)
    (hv : validate_segment kern_base phdr file_length = true) :
    (load_segment_args phdr).2.1 = phdr.p_vaddr / PGSIZE * PGSIZE ∧
    (load_segment_args phdr).2.2.1 =
      (if 0 < phdr.p_filesz then (phdr.p_vaddr % PGSIZE + phdr.p_filesz) % 2 ^ 32 else 0) ∧
    ((load_segment_args phdr).2.2.1 + (load_segment_args phdr).2.2.2) % 2 ^ 32 =
      ROUND_UP (phdr.p_vaddr % PGSIZE + phdr.p_memsz) PGSIZE % 2 ^ 32 ∧
    (ROUND_UP (phdr.p_vaddr % PGSIZE + phdr.p_memsz) PGSIZE < 2 ^ 32 →
      (load_segment_args phdr).2.2.1 =
        (if 0 < phdr.p_filesz then phdr.p_vaddr % PGSIZE + phdr.p_filesz else 0) ∧
      (load_segment_args phdr).2.2.1 + (load_segment_args phdr).2.2.2 =
        ROUND_UP (phdr.p_vaddr % PGSIZE + phdr.p_memsz) PGSIZE) := by
  obtain ⟨f1, f2, f3, f4, f5⟩ := validate_segment_facts kern_base phdr file_length hk hm hv
  have hR := ROUND_UP_spec (phdr.p_vaddr % 4096 + phdr.p_memsz)
  rw [load_segment_args_eq kern_base phdr file_length hk hm hv]
  simp only [PGSIZE] at hR ⊢
  generalize ROUND_UP (phdr.p_vaddr % 4096 + phdr.p_memsz) 4096 = R at hR ⊢
  have hpo : phdr.p_vaddr % 4096 < 4096 := Nat.mod_lt _ (by norm_num)
  by_cases hf : 0 < phdr.p_filesz
  · simp only [hf, if_true]
    obtain ⟨r, hr⟩ : ∃ r, r = (phdr.p_vaddr % 4096 + phdr.p_filesz) % 2 ^ 32 := ⟨_, rfl⟩
    rw [← hr]
    have hle : r ≤ R := by
      rw [hr]; exact le_trans (Nat.mod_le _ _) (by omega)
    have e : (R + 2 ^ 64 - r) % 2 ^ 64 = R - r := by
      have : R + 2 ^ 64 - r = (R - r) + 2 ^ 64 := by omega
      rw [this, Nat.add_mod_right]; exact Nat.mod_eq_of_lt (by omega)
    rw [e]
    refine ⟨by omega, trivial, by omega, fun hlt => ⟨?_, ?_⟩⟩ <;> omega
  · simp only [hf, if_false]
    exact ⟨by omega, trivial, by omega, fun hlt => ⟨trivial, by omega⟩⟩

/-- Witness of C24: the one-page code segment is loaded with `read_bytes = 4096` and
`zero_bytes = 0` at `0x400000`. -/
theorem load_segment_args_spec_witness :
    validate_segment KERN_BASE demo_phdr 8192 = true ∧
      (load_segment_args demo_phdr).2.1 = 0x400000 ∧
      (load_segment_args demo_phdr).2.2.1 = 4096 ∧
      (load_segment_args demo_phdr).2.2.2 = 0 := by
  have h := load_segment_args_spec KERN_BASE demo_phdr 8192 (by decide) (by decide)
    (by decide)
  exact ⟨by decide, h.1, by decide, by decide⟩

/-- The function `next_thread_to_run` changes the ready list only. -/
theorem next_thread_to_run_only_ready (k : Kernel) :
    ∃ l, (next_thread_to_run k).2 = { k with ready_list := l } := by
  unfold next_thread_to_run
  split
  · exact ⟨k.ready_list, rfl⟩
  · split
    · exact ⟨_, rfl⟩
    · exact ⟨k.ready_list, rfl⟩

/-- The function `schedule` frees no page, leaves `initial_thread` alone, and either leaves
`destruction_req` as it is or appends the thread that was running, which then is dying
and is not the initial thread. -/
theorem schedule_destruction_req (k k1 : Kernel) (h : schedule k = some k1) :
    k1.freed = k.freed ∧ k1.initial_thread = k.initial_thread ∧
      (k1.destruction_req = k.destruction_req ∨
        (k1.destruction_req = k.destruction_req ++ [k.running] ∧
          (k1.threads k.running).status = THREAD_DYING ∧ k.running ≠ k.initial_thread ∧
          k1.running ≠ k.running)) ∧
      (∀ t, (k.threads t).status = THREAD_DYING →
        (k1.threads t).status = THREAD_DYING ∨ k1.running = t) := by
  unfold schedule at h
  obtain ⟨l, hl⟩ := next_thread_to_run_only_ready k
  rcases hn : next_thread_to_run k with ⟨_ | next, k0⟩
  · rw [hn] at h; cases h
  · rw [hn] at h hl
    simp only at h hl
    subst hl
    have hdy : ∀ (t : Nat), (k.threads t).status = THREAD_DYING →
        (Function.update k.threads next
          { k.threads next with status := THREAD_RUNNING } t).status = THREAD_DYING ∨
          next = t := by
      intro t ht
      by_cases htn : t = next
      · right; exact htn.symm
      · left; rw [Function.update_noteq htn]; exact ht
    split at h
    · cases h
    · split at h
      · rename_i hne
        split at h
        · rename_i hd
          simp only [Option.some.injEq] at h
          subst h
          simp only [Kernel.set_status, Kernel.modify, list_push_back] at hd ⊢
          exact ⟨trivial, trivial, Or.inr ⟨trivial, hd.1, hd.2, fun hh => hne hh.symm⟩, hdy⟩
        · simp only [Option.some.injEq] at h
          subst h
          simp only [Kernel.set_status, Kernel.modify]
          exact ⟨trivial, trivial, Or.inl trivial, hdy⟩
      · rename_i heq
        simp only [Option.some.injEq] at h
        subst h
        simp only [Kernel.set_status, Kernel.modify]
        refine ⟨trivial, trivial, Or.inl trivial, ?_⟩
        intro t ht
        rcases hdy t ht with h1 | h1
        · exact Or.inl h1
        · right; rw [← h1]; exact not_not.mp heq

/-- C36: when the running thread exits with `do_schedule (THREAD_DYING)` in a state whose
`destruction_req` holds dying threads only, the pages freed are exactly those queued
before the call, freed from the state in which the caller still runs, and the caller's
page is not among them; `schedule` itself frees nothing and only appends the caller to
`destruction_req` (when it is not the initial thread and another thread takes over), so
that afterwards the queue is empty or holds the caller alone, which is dying: a later
`do_schedule` frees it.  The initial thread is never queued. -/
theorem exiting_page_freed_later (k k1 : Kernel)
    (hinv : ∀ t ∈ k.destruction_req, (k.threads t).status = THREAD_DYING)
    (h : do_schedule k THREAD_DYING = some k1) :
    do_schedule k THREAD_DYING = schedule (Kernel.set_status
      { k with freed := k.freed ++ k.destruction_req, destruction_req := [] }
      k.running THREAD_DYING) ∧
    k1.freed = k.freed ++ k.destruction_req ∧ k.running ∉ k.destruction_req ∧
    (k1.destruction_req = [] ∨ k1.destruction_req = [k.running]) ∧
    (k.running ≠ k.initial_thread → k1.running ≠ k.running →
      k1.destruction_req = [k.running]) ∧
    k.initial_thread ∉ k1.destruction_req ∧
    (∀ t ∈ k1.destruction_req, (k1.threads t).status = THREAD_DYING) ∧
    (∀ k2 k3 : Kernel, schedule k2 = some k3 → k3.freed = k2.freed ∧
      (k3.destruction_req = k2.destruction_req ∨
        k3.destruction_req = k2.destruction_req ++ [k2.running]) ∧
      (k2.running = k2.initial_thread → k3.destruction_req = k2.destruction_req)) := by
  have hc : thread_current k = some k.running := by
    unfold do_schedule at h
    unfold thread_current at h ⊢
    split
    · rfl
    · rename_i hs; rw [if_neg hs] at h; cases h
  have hrun : (k.threads k.running).status = THREAD_RUNNING := by
    unfold thread_current at hc
    by_contra hs
    rw [if_neg hs] at hc; cases hc
  have hu := do_schedule_unfold k k.running THREAD_DYING hc
  have hnot : k.running ∉ k.destruction_req := by
    intro hmem
    have := hinv _ hmem
    rw [hrun] at this; cases this
  rw [hu] at h
  obtain ⟨f1, f2, f3, f4⟩ := schedule_destruction_req _ k1 h
  simp only [Kernel.set_status, Kernel.modify, List.nil_append] at f1 f2 f3
  have hgen : ∀ k2 k3 : Kernel, schedule k2 = some k3 → k3.freed = k2.freed ∧
      (k3.destruction_req = k2.destruction_req ∨
        k3.destruction_req = k2.destruction_req ++ [k2.running]) ∧
      (k2.running = k2.initial_thread → k3.destruction_req = k2.destruction_req) := by
    intro k2 k3 h23
    obtain ⟨g1, g2, g3, -⟩ := schedule_destruction_req k2 k3 h23
    refine ⟨g1, ?_, ?_⟩
    · rcases g3 with g | g
      · exact Or.inl g
      · exact Or.inr g.1
    · intro hi
      rcases g3 with g | g
      · exact g
      · exact absurd hi g.2.2.1
  refine ⟨hu, f1, hnot, ?_, ?_, ?_, ?_, hgen⟩
  · rcases f3 with g | g
    · exact Or.inl g
    · exact Or.inr g.1
  · intro hi hr
    rcases f3 with g | g
    · exfalso
      -- the caller is dying, is not the initial thread and another thread runs
      unfold schedule at h
      obtain ⟨l, hl⟩ := next_thread_to_run_only_ready (Kernel.set_status
        { k with freed := k.freed ++ k.destruction_req, destruction_req := [] }
        k.running THREAD_DYING)
      rcases hn : next_thread_to_run (Kernel.set_status
        { k with freed := k.freed ++ k.destruction_req, destruction_req := [] }
        k.running THREAD_DYING) with ⟨_ | next, k0⟩
      · rw [hn] at h; cases h
      · rw [hn] at h hl
        simp only at h hl
        subst hl
        simp only [Kernel.set_status, Kernel.modify, Function.update_same] at h
        split at h
        · cases h
        · split at h
          · rename_i hne
            split at h
            · simp only [Option.some.injEq] at h
              subst h
              simp only [list_push_back, List.nil_append] at g
              cases g
            · rename_i hd
              apply hd
              refine ⟨?_, hi⟩
              by_cases hnr : k.running = next
              · exact absurd hnr hne
              · rw [Function.update_noteq hnr, Function.update_same]
          · rename_i heq
            simp only [Option.some.injEq] at h
            subst h
            exact hr rfl
    · exact g.1
  · rcases f3 with g | g
    · rw [g]; exact List.not_mem_nil _
    · rw [g.1]
      intro hmem
      rw [List.mem_singleton] at hmem
      exact g.2.2.1 hmem.symm
  · intro t ht
    rcases f3 with g | g
    · rw [g] at ht; exact absurd ht (List.not_mem_nil _)
    · rw [g.1, List.mem_singleton] at ht
      rw [ht]; exact g.2.1

/-- Witness of C36: thread 3 exits while the page of thread 5 is queued: page 5 is freed,
page 3 is queued and not freed, and "main" runs. -/
theorem exiting_page_freed_later_witness :
    ∃ k1, do_schedule exiting_state THREAD_DYING = some k1 ∧ k1.freed = [5] ∧
      k1.destruction_req = [3] ∧ k1.running = 1 := by
  have hobs : (do_schedule exiting_state THREAD_DYING).map (fun k1 =>
      decide (k1.destruction_req = [3] ∧ k1.running = 1)) = some true := by decide
  cases hk : do_schedule exiting_state THREAD_DYING with
  | none => rw [hk] at hobs; cases hobs
  | some k1 =>
    rw [hk] at hobs
    simp only [Option.map_some', Option.some.injEq, decide_eq_true_eq] at hobs
    have h := exiting_page_freed_later exiting_state k1 (by decide) hk
    exact ⟨k1, rfl, h.2.1, hobs.1, hobs.2⟩

/-- The function `close` on a table of `l.length` entries: inside the table it returns and
leaves a table of the same length to the same current thread; outside it the behaviour
is undefined. -/
theorem close_result (s : SysState) (fd : Int) (l : List (Option Nat))
    (hl : s.cur.file_descriptor_table = some l) :
    (0 ≤ fd ∧ fd.toNat < l.length ∧ ∃ s1, close s fd = Outcome.returned () s1 ∧
        s1.current = s.current ∧
        ∃ l1, s1.cur.file_descriptor_table = some l1 ∧ l1.length = l.length) ∨
      ((fd < 0 ∨ l.length ≤ fd.toNat) ∧ close s fd = Outcome.fault) := by
  unfold close
  rw [hl]
  unfold fdt_get fdt_set
  simp only
  by_cases h0 : 0 ≤ fd
  · rw [if_pos h0]
    by_cases h1 : fd.toNat < l.length
    · left
      refine ⟨h0, h1, ?_⟩
      rw [List.getElem?_eq_getElem h1]
      simp only
      split
      · exact ⟨s, rfl, rfl, l, hl, rfl⟩
      · rw [if_pos ⟨h0, h1⟩]
        refine ⟨_, rfl, rfl, l.set fd.toNat none, ?_, List.length_set _ _ _⟩
        simp only [SysState.cur, SysState.modify, Function.update_same]
    · right
      refine ⟨Or.inr (by omega), ?_⟩
      rw [List.getElem?_eq_none (by omega)]
  · right
    refine ⟨Or.inl (by omega), ?_⟩
    rw [if_neg h0]

/-- The loop of `process_exit` from `fd` on, when it has more iterations left than the
table has entries from `fd` on: it reads `table[l.length]`. -/
theorem process_exit_loop_fault :
    ∀ (n : Nat) (s : SysState) (fd : Int) (l : List (Option Nat)),
      s.cur.file_descriptor_table = some l → 0 ≤ fd → fd ≤ l.length →
      (l.length : Int) < fd + n → process_exit_loop n s fd = Outcome.fault := by
  intro n
  induction n with
  | zero => intro s fd l _ _ h1 h2; omega
  | succ n ih =>
    intro s fd l hl h0 h1 h2
    unfold process_exit_loop
    rcases close_result s fd l hl with ⟨-, hlt, s1, hc, hcur, l1, hl1, hlen⟩ | ⟨-, hc⟩
    · rw [hc]
      simp only [Outcome.andThen]
      exact ih s1 (fd + 1) l1 hl1 (by omega) (by omega) (by omega)
    · rw [hc]
      rfl

/-- C34 (the code at the failing input): whenever the table has at most `FD_NUM_LIMIT`
entries, the loop of `process_exit`, which runs `fd` from 0 to `FD_NUM_LIMIT` inclusive,
reads an entry outside the table: the behaviour of `process_exit` is undefined. -/
theorem process_exit_reads_past_table (s : SysState) (l : List (Option Nat))
    (hl : s.cur.file_descriptor_table = some l) (hlen : (l.length : Int) ≤ FD_NUM_LIMIT) :
    (process_exit s).kind = OutcomeKind.fault := by
  unfold process_exit
  rw [process_exit_loop_fault _ s 0 l hl (le_refl _) (by omega)
    (by have : ((FD_NUM_LIMIT + 1).toNat : Int) = FD_NUM_LIMIT + 1 := by decide
        omega)]
  rfl

/-- The table `big_table []` has `FD_NUM_LIMIT = 3072` entries. -/
theorem big_table_nil_length : (big_table []).length = 3072 := by
  unfold big_table
  rw [List.nil_append, List.length_replicate]
  decide

/-- Witness of C34: with a table of `FD_NUM_LIMIT = 3072` entries, `close (3071)`
returns, `close (FD_NUM_LIMIT)` reads outside the table, and so does `process_exit`. -/
theorem process_exit_reads_past_table_witness :
    (process_exit full_sys).kind = OutcomeKind.fault ∧
      (close full_sys (FD_NUM_LIMIT - 1)).kind = OutcomeKind.returned ∧
      (close full_sys FD_NUM_LIMIT).kind = OutcomeKind.fault := by
  refine ⟨process_exit_reads_past_table full_sys (big_table []) rfl ?_, ?_, ?_⟩
  · rw [big_table_nil_length]; decide
  · rcases close_result full_sys (FD_NUM_LIMIT - 1) (big_table []) rfl with
      ⟨-, -, s1, hc, -⟩ | ⟨h, -⟩
    · rw [hc]; rfl
    · exfalso
      have e1 : (big_table []).length = 3072 := big_table_nil_length
      have e2 : (FD_NUM_LIMIT - 1).toNat = 3071 := by decide
      have e3 : ¬ (FD_NUM_LIMIT - 1 < 0) := by decide
      rw [e1, e2] at h
      rcases h with h | h
      · exact e3 h
      · omega
  · rcases close_result full_sys FD_NUM_LIMIT (big_table []) rfl with
      ⟨-, h, -⟩ | ⟨-, hc⟩
    · exfalso
      have e1 : (big_table []).length = 3072 := big_table_nil_length
      have e2 : FD_NUM_LIMIT.toNat = 3072 := by decide
      rw [e1, e2] at h
      omega
    · rw [hc]; rfl

/-- The function `process_wait` when no thread of the child list has the tid: it returns
-1 at once and leaves the state as it is. -/
theorem process_wait_absent (s : SysState) (child_tid : Int) (l : List Nat)
    (hl : s.cur.child_list = some l) (hno : ∀ t ∈ l, (s.threads t).tid ≠ child_tid) :
    process_wait s child_tid = Outcome.returned (-1) s := by
  unfold process_wait get_child
  rw [hl]
  have : l.find? (fun t => decide ((s.threads t).tid = child_tid)) = none := by
    rw [List.find?_eq_none]
    intro t ht
    simpa using hno t ht
  simp only [this]

/-- The function `get_child` when one thread of the child list has the tid. -/
theorem get_child_found (s : SysState) (pid : Int) (l : List Nat) (c : Nat)
    (hl : s.cur.child_list = some l) (hc : c ∈ l) (htid : (s.threads c).tid = pid)
    (huniq : ∀ t ∈ l, (s.threads t).tid = pid → t = c) :
    get_child s pid = some (some c) := by
  unfold get_child
  rw [hl]
  show some (l.find? (fun t => decide ((s.threads t).tid = pid))) = some (some c)
  congr 1
  cases hf : l.find? (fun t => decide ((s.threads t).tid = pid)) with
  | none =>
    rw [List.find?_eq_none] at hf
    have := hf c hc
    simp only [htid, decide_True, not_true_eq_false] at this
  | some t =>
    have h1 := List.find?_some hf
    have h2 := List.mem_of_find?_eq_some hf
    simp only [decide_eq_true_eq] at h1
    rw [huniq t h2 h1]

/-- The function `process_wait` when `get_child` finds `c` and `c` has signalled
`wait_sema`. -/
theorem process_wait_found (s : SysState) (child_tid : Int) (c v : Nat)
    (hg : get_child s child_tid = some (some c)) (hv : (s.threads c).wait_sema = v + 1) :
    process_wait s child_tid = Outcome.returned (s.threads c).exit_status
      (sema_up ((s.modify c (fun r => { r with wait_sema := v })).modify s.current
          (fun r => { r with child_list := r.child_list.map (fun l => l.erase c) }))
        c (fun r => r.free_sema) (fun r v => { r with free_sema := v })) := by
  unfold process_wait
  rw [hg]
  simp only [sema_down, hv, Outcome.andThen]
  congr 1
  simp only [SysState.modify, Function.update_same]

/-- The statements of `process_wait` on a child list that has been initialised and
holds the threads `l` (a state that `init_thread` and `thread_create` do not set up):
when no thread of `l` has the tid, `process_wait` returns -1 at once and changes nothing; when the thread `c` of `l` has
it (tids in `l` distinct) the caller sleeps as long as `c` has not signalled
`wait_sema`, and once it has, `process_wait` returns the `exit_status` of `c`, takes `c`
out of the child list and signals the `free_sema` of `c`; a second `process_wait` with
the same tid then returns -1. -/
theorem process_wait_on_list (s : SysState) (child_tid : Int) (l : List Nat)
    (hl : s.cur.child_list = some l) :
    ((∀ t ∈ l, (s.threads t).tid ≠ child_tid) →
      process_wait s child_tid = Outcome.returned (-1) s) ∧
    (∀ c, c ∈ l → (s.threads c).tid = child_tid →
      (∀ t ∈ l, (s.threads t).tid = child_tid → t = c) → l.Nodup →
      ((s.threads c).wait_sema = 0 → process_wait s child_tid = Outcome.blocked s) ∧
      (∀ v, (s.threads c).wait_sema = v + 1 →
        ∃ s1, process_wait s child_tid = Outcome.returned (s.threads c).exit_status s1 ∧
          s1.current = s.current ∧ s1.cur.child_list = some (l.erase c) ∧
          (s1.threads c).free_sema = (s.threads c).free_sema + 1 ∧
          (s1.threads c).wait_sema = v ∧
          (s1.threads c).exit_status = (s.threads c).exit_status ∧
          process_wait s1 child_tid = Outcome.returned (-1) s1)) := by
  refine ⟨process_wait_absent s child_tid l hl, ?_⟩
  intro c hc htid huniq hnd
  have hg := get_child_found s child_tid l c hl hc htid huniq
  constructor
  · intro h0
    unfold process_wait
    rw [hg]
    simp only [sema_down, h0, Outcome.andThen]
  · intro v hv
    rw [process_wait_found s child_tid c v hg hv]
    refine ⟨_, rfl, rfl, ?_, ?_, ?_, ?_, ?_⟩
    · simp only [SysState.cur, SysState.modify, sema_up] at hl ⊢
      by_cases hcc : c = s.current
      · subst hcc
        simp only [Function.update_same, Function.update_idem, hl, Option.map_some']
      · have hcc2 : s.current ≠ c := fun h => hcc h.symm
        simp only [Function.update_same, Function.update_noteq hcc2,
          Function.update_noteq hcc, hl, Option.map_some']
    · simp only [SysState.modify, sema_up]
      by_cases hcc : c = s.current
      · subst hcc
        simp only [Function.update_same, Function.update_idem]
      · simp only [Function.update_same, Function.update_noteq hcc]
    · simp only [SysState.modify, sema_up]
      by_cases hcc : c = s.current
      · subst hcc
        simp only [Function.update_same, Function.update_idem]
      · simp only [Function.update_same, Function.update_noteq hcc]
    · simp only [SysState.modify, sema_up]
      by_cases hcc : c = s.current
      · subst hcc
        simp only [Function.update_same, Function.update_idem]
      · simp only [Function.update_same, Function.update_noteq hcc]
    · apply process_wait_absent _ child_tid (l.erase c)
      · simp only [SysState.cur, SysState.modify, sema_up] at hl ⊢
        by_cases hcc : c = s.current
        · subst hcc
          simp only [Function.update_same, Function.update_idem, hl, Option.map_some']
        · have hcc2 : s.current ≠ c := fun h => hcc h.symm
          simp only [Function.update_same, Function.update_noteq hcc2,
            Function.update_noteq hcc, hl, Option.map_some']
      · intro t ht
        have htl : t ∈ l := List.mem_of_mem_erase ht
        have htc : t ≠ c := fun h => by
          rw [h] at ht
          exact (List.Nodup.not_mem_erase hnd) ht
        have hne : (s.threads t).tid ≠ child_tid := fun h => htc (huniq t htl h)
        simp only [sema_up, SysState.modify]
        rw [Function.update_noteq htc]
        by_cases htcur : t = s.current
        · rw [htcur, Function.update_same]
          rw [htcur] at htc hne
          show (Function.update s.threads c _ s.current).tid ≠ child_tid
          rw [Function.update_noteq htc]
          exact hne
        · rw [Function.update_noteq htcur, Function.update_noteq htc]
          exact hne

/-- The copy loop of `__do_fork` over entries of the parent's table that are all NULL
leaves the child's table as it is. -/
theorem do_fork_copy_none (env : ForkEnv) (pl : List (Option Nat)) :
    ∀ (n : Nat) (fd : Int) (ct : Option (List (Option Nat))), 0 ≤ fd →
      (∀ i : Nat, fd.toNat ≤ i → i < fd.toNat + n → pl[i]? = some none) →
      do_fork_copy env (some pl) n fd ct = some ct := by
  intro n
  induction n with
  | zero => intro fd ct _ _; rfl
  | succ n ih =>
    intro fd ct h0 hnone
    unfold do_fork_copy
    have hget : fdt_get (some pl) fd = some none := by
      unfold fdt_get
      simp only [if_pos h0]
      exact hnone fd.toNat (le_refl _) (by omega)
    rw [hget]
    simp only
    apply ih (fd + 1) ct (by omega)
    intro i hi1 hi2
    have : (fd + 1).toNat = fd.toNat + 1 := by omega
    exact hnone i (by omega) (by omega)

/-- The label `error` of `__do_fork`: the thread exits with status -1 after signalling
`fork_sema`; nothing else changes. -/
theorem do_fork_error_spec (s : SysState) :
    ∃ s1, do_fork_error s = Outcome.exited s1 ∧ s1.current = s.current ∧
      s1.cur.exit_status = -1 ∧ s1.cur.fork_sema = s.cur.fork_sema + 1 ∧
      s1.cur.file_descriptor_table = s.cur.file_descriptor_table ∧
      s1.cur.fd_idx = s.cur.fd_idx ∧
      (∀ t, t ≠ s.current → s1.threads t = s.threads t) := by
  refine ⟨_, rfl, rfl, ?_, ?_, ?_, ?_, ?_⟩
  · simp only [SysState.cur, SysState.modify, sema_up, Function.update_same, TID_ERROR]
  · simp only [SysState.cur, SysState.modify, sema_up, Function.update_same]
  · simp only [SysState.cur, SysState.modify, sema_up, Function.update_same]
  · simp only [SysState.cur, SysState.modify, sema_up, Function.update_same]
  · intro t ht
    simp only [SysState.modify, sema_up, Function.update_noteq ht]

/-- The frame of `__do_fork`: whenever it enters user mode, it does so with the parent's
`parent_if` in which `R.rax` is 0. -/
theorem do_fork_frame (env : ForkEnv) (s : SysState) (parent : Nat) (f : syscall_frame)
    (s1 : SysState) (h : __do_fork env s parent = Outcome.user_mode f s1) :
    f = { (s.threads parent).parent_if with
          R := { (s.threads parent).parent_if.R with rax := 0 } } := by
  unfold __do_fork at h
  simp only at h
  split at h
  · cases h
  · split at h
    · cases h
    · split at h
      · cases h
      · split at h
        · split at h
          · cases h
          · split at h
            · cases h
            · simp only [Outcome.user_mode.injEq] at h
              exact h.1.symm
        · cases h

/-- The function `__do_fork` when nothing fails and the parent's entries from 2 on are
NULL: the entries 0 and 1 and `fd_idx` are copied, `fork_sema` is signalled and user mode
is entered. -/
theorem do_fork_user_mode (env : ForkEnv) (s : SysState) (parent : Nat)
    (pl cl : List (Option Nat)) (e0 e1 : Option Nat)
    (h1 : env.pml4_create_ok = true) (h2 : env.duplicate_ok = true)
    (h3 : (s.threads parent).fd_idx < FD_NUM_LIMIT)
    (hp : (s.threads parent).file_descriptor_table = some pl)
    (hc : s.cur.file_descriptor_table = some cl)
    (hp0 : pl[0]? = some e0) (hp1 : pl[1]? = some e1)
    (hnone : ∀ i : Nat, 2 ≤ i → i < 3072 → pl[i]? = some none) (hcl : 2 ≤ cl.length) :
    __do_fork env s parent =
      Outcome.user_mode
        { (s.threads parent).parent_if with
          R := { (s.threads parent).parent_if.R with rax := 0 } }
        (sema_up (s.modify s.current (fun r =>
            { r with file_descriptor_table := some ((cl.set 0 e0).set 1 e1),
                     fd_idx := (s.threads parent).fd_idx }))
          s.current (fun r => r.fork_sema) (fun r v => { r with fork_sema := v })) := by
  unfold __do_fork
  simp only [h1, h2, Bool.true_eq_false, if_false, hp, hc]
  rw [if_neg (by omega)]
  have g0 : fdt_get (some pl) 0 = some e0 := by
    unfold fdt_get; simp only [le_refl, if_true]; exact hp0
  have g1 : fdt_get (some pl) 1 = some e1 := by
    unfold fdt_get; simp only [zero_le_one, if_true]; exact hp1
  have s0 : fdt_set (some cl) 0 e0 = some (cl.set 0 e0) := by
    unfold fdt_set
    simp only
    rw [if_pos ⟨le_refl _, by show 0 < cl.length; omega⟩]
    rfl
  have s1 : fdt_set (some (cl.set 0 e0)) 1 e1 = some ((cl.set 0 e0).set 1 e1) := by
    unfold fdt_set
    simp only
    rw [if_pos ⟨by decide, by rw [List.length_set]; show 1 < cl.length; omega⟩]
    rfl
  rw [g0, g1]
  simp only [s0, Option.bind, s1]
  have hcopy := do_fork_copy_none env pl (FD_NUM_LIMIT - 2).toNat 2
    (some ((cl.set 0 e0).set 1 e1)) (by decide) (by
      intro i hi1 hi2
      have e : (2 : Int).toNat = 2 := rfl
      have e2 : (FD_NUM_LIMIT - 2).toNat = 3070 := by decide
      rw [e] at hi1 hi2
      rw [e2] at hi2
      exact hnone i hi1 (by omega))
  rw [hcopy]
  rfl

/-- The ways in which `process_fork` returns: with `TID_ERROR` when `thread_create` fails,
otherwise after `sema_down` on the `fork_sema` of the thread that `get_child` finds, with
`TID_ERROR` when that thread's `exit_status` is -1 and with the tid otherwise. -/
theorem process_fork_returned (tc : SysState → Nat → Option (SysState × Int)) (s : SysState)
    (name : Nat) (if_ : syscall_frame) (v : Int) (s1 : SysState)
    (h : process_fork tc s name if_ = Outcome.returned v s1) :
    ∃ s2 pid, tc (s.modify s.current (fun r => { r with parent_if := if_ })) name =
        some (s2, pid) ∧
      ((pid = TID_ERROR ∧ v = TID_ERROR ∧ s1 = s2) ∨
        (pid ≠ TID_ERROR ∧ ∃ child w, get_child s2 pid = some (some child) ∧
          (s2.threads child).fork_sema = w + 1 ∧
          s1 = s2.modify child (fun r => { r with fork_sema := w }) ∧
          (((s1.threads child).exit_status = -1 ∧ v = TID_ERROR) ∨
            ((s1.threads child).exit_status ≠ -1 ∧ v = pid)))) := by
  unfold process_fork at h
  simp only at h
  cases htc : tc (s.modify s.current (fun r => { r with parent_if := if_ })) name with
  | none => rw [htc] at h; cases h
  | some p =>
    obtain ⟨s2, pid⟩ := p
    rw [htc] at h
    simp only at h
    refine ⟨s2, pid, rfl, ?_⟩
    by_cases hpid : pid = TID_ERROR
    · rw [if_pos hpid] at h
      simp only [Outcome.returned.injEq] at h
      exact Or.inl ⟨hpid, h.1.symm, h.2.symm⟩
    · rw [if_neg hpid] at h
      right
      refine ⟨hpid, ?_⟩
      cases hg : get_child s2 pid with
      | none => rw [hg] at h; cases h
      | some o =>
        cases o with
        | none => rw [hg] at h; cases h
        | some child =>
          rw [hg] at h
          simp only [sema_down] at h
          cases hw : (s2.threads child).fork_sema with
          | zero => rw [hw] at h; cases h
          | succ w =>
            rw [hw] at h
            simp only [Outcome.andThen] at h
            refine ⟨child, w, rfl, hw, ?_⟩
            split at h
            · rename_i he
              simp only [Outcome.returned.injEq] at h
              obtain ⟨hv, hs⟩ := h
              subst hs
              exact ⟨rfl, Or.inl ⟨he, hv.symm⟩⟩
            · rename_i he
              simp only [Outcome.returned.injEq] at h
              obtain ⟨hv, hs⟩ := h
              subst hs
              exact ⟨rfl, Or.inr ⟨he, hv.symm⟩⟩

/-- The function `process_fork` when `thread_create` returns a tid and `get_child` finds
the child: it sleeps while the child's `fork_sema` is 0, and afterwards returns
`TID_ERROR` when the child's `exit_status` is -1 and the tid otherwise. -/
theorem process_fork_child (tc : SysState → Nat → Option (SysState × Int))
    (s s2 : SysState) (name : Nat) (if_ : syscall_frame) (pid : Int) (child : Nat)
    (htc : tc (s.modify s.current (fun r => { r with parent_if := if_ })) name =
      some (s2, pid))
    (hpid : pid ≠ TID_ERROR) (hg : get_child s2 pid = some (some child)) :
    ((s2.threads child).fork_sema = 0 → process_fork tc s name if_ = Outcome.blocked s2) ∧
    (∀ w, (s2.threads child).fork_sema = w + 1 →
      ((s2.threads child).exit_status = -1 →
        process_fork tc s name if_ =
          Outcome.returned TID_ERROR (s2.modify child (fun r => { r with fork_sema := w }))) ∧
      ((s2.threads child).exit_status ≠ -1 →
        process_fork tc s name if_ =
          Outcome.returned pid (s2.modify child (fun r => { r with fork_sema := w })))) := by
  constructor
  · intro h0
    unfold process_fork
    simp only [htc, if_neg hpid, hg, sema_down, h0, Outcome.andThen]
  · intro w hw
    constructor
    · intro he
      unfold process_fork
      simp only [htc, if_neg hpid, hg, sema_down, hw, Outcome.andThen]
      rw [if_pos]
      simp only [SysState.modify, Function.update_same]
      exact he
    · intro he
      unfold process_fork
      simp only [htc, if_neg hpid, hg, sema_down, hw, Outcome.andThen]
      rw [if_neg]
      simp only [SysState.modify, Function.update_same]
      exact he

/-- The thread that `get_child` returns has the tid asked for and is on the child list. -/
theorem get_child_tid (s : SysState) (pid : Int) (c : Nat)
    (h : get_child s pid = some (some c)) :
    (s.threads c).tid = pid ∧ ∃ l, s.cur.child_list = some l ∧ c ∈ l := by
  unfold get_child at h
  cases hl : s.cur.child_list with
  | none => rw [hl] at h; cases h
  | some l =>
    rw [hl] at h
    simp only [Option.some.injEq] at h
    have h1 := List.find?_some h
    simp only [decide_eq_true_eq] at h1
    exact ⟨h1, l, rfl, List.mem_of_find?_eq_some h⟩

set_option maxRecDepth 100000 in
/-- C28 (the code at the failing input): `thread_create`, called by thread 1 of
`demo_sys`, returns tid 2 for the new thread at page 7, whose child list is not
initialised and whose table pointer is NULL; the creator's child list is still empty, so
`get_child (2)` returns NULL and `process_fork` dereferences it. -/
theorem thread_create_leaves_child_unlinked :
    (thread_create_fields (some 7) demo_sys 0x400000).map (fun p =>
        decide (p.2 = 2 ∧ get_child p.1 2 = some none ∧ p.1.cur.child_list = some [] ∧
          (p.1.threads 7).child_list = none ∧
          (p.1.threads 7).file_descriptor_table = none)) = some true ∧
      (process_fork (thread_create_fields (some 7)) demo_sys 0x400000 demo_frame).kind =
        OutcomeKind.fault := by
  decide

set_option maxRecDepth 100000 in
/-- C29 (the code at the failing input): with the descriptors 0, 1, 2 and 4 in use,
descriptor 3 free and `fd_idx = 4`, `open` returns 5; in a process whose table is empty
and whose `fd_idx` is 0, `open` returns 0. -/
theorem open_skips_free_descriptor :
    fdt_get demo_sys.cur.file_descriptor_table 3 = some none ∧
      (sys_open demo_fs demo_sys 0x400000).value = some 5 ∧
      (sys_open demo_fs fresh_sys 0x400000).value = some 0 := by
  decide

set_option maxRecDepth 100000 in
/-- C30 (the code at the failing input): `open` returns the descriptor 5, has stored the
file pointer 900 at index 5 and has passed the same pointer to `file_close`. -/
theorem open_closes_stored_file :
    (sys_open demo_fs demo_sys 0x400000).value = some 5 ∧
      (sys_open demo_fs demo_sys 0x400000).state.map (fun s =>
        decide (s.closed = [900] ∧
          fdt_get s.cur.file_descriptor_table 5 = some (some 900))) = some true := by
  decide

set_option maxRecDepth 100000 in
/-- C31 (the code at the failing input): `write` to descriptor 2 and to the open
descriptor 4 ends without returning a value; `write` to descriptor 1 returns -1. -/
theorem write_returns_no_value :
    (write demo_fs demo_sys 2 0x400000 5).value = some none ∧
      (write demo_fs demo_sys 4 0x400000 5).value = some none ∧
      (write demo_fs demo_sys 1 0x400000 5).value = some (some (-1)) := by
  decide

set_option maxRecDepth 100000 in
/-- C32 (the code at the failing input): `filesize` returns 0 for the descriptors -1 and
`FD_NUM_LIMIT + 1`; it returns -1 for the free descriptor 3 and the length for the open
descriptor 4. -/
theorem filesize_out_of_range_is_zero :
    (filesize demo_fs demo_sys (-1)).value = some 0 ∧
      (filesize demo_fs demo_sys (FD_NUM_LIMIT + 1)).value = some 0 ∧
      (filesize demo_fs demo_sys 3).value = some (-1) ∧
      (filesize demo_fs demo_sys 4).value = some 10 := by
  decide

set_option maxRecDepth 100000 in
/-- C33 (the code at the failing input): descriptor 4 holds the file object at 104, whose
position is 7; `tell (4)` reads a file object at the address 4: where none lives the
behaviour is undefined, and where one lives (`low_fs`, position 99) `tell` returns its
position, 99, not 7. -/
theorem tell_reads_descriptor_as_file :
    fdt_get demo_sys.cur.file_descriptor_table 4 = some (some 104) ∧
      demo_fs.file_tell 104 = some 7 ∧ low_fs.file_tell 104 = some 7 ∧
      (tell demo_fs demo_sys 4).kind = OutcomeKind.fault ∧
      (tell low_fs demo_sys 4).value = some (some 99) := by
  decide

set_option maxRecDepth 100000 in
/-- C35 (the code at the failing input): `fork` with a NULL name calls `process_fork`
without `check_address`: the assertion `name != NULL` of `init_thread` fails in
`thread_create`; `create` with a NULL name ends in `exit (-1)`. -/
theorem fork_does_not_check_name :
    (fork (thread_create_fields (some 7)) demo_sys 0 demo_frame).kind = OutcomeKind.fault ∧
      (create demo_fs demo_sys 0 0).kind = OutcomeKind.exited ∧
      (create demo_fs demo_sys 0 0).state.map (fun s => s.cur.exit_status) = some (-1) := by
  decide

set_option maxRecDepth 100000 in
/-- C38 (the code at the failing input): for a name that `filesys_open` does not find,
`open` returns -1 and the caller still holds `filesys_lock`; its next `open` acquires a
lock that it holds. -/
theorem open_failure_keeps_lock :
    (sys_open demo_fs demo_sys 0x400800).value = some (-1) ∧
      (sys_open demo_fs demo_sys 0x400800).state.map (fun s => s.filesys_lock) =
        some (some 1) ∧
      (sys_open demo_fs demo_sys 0x400800).state.map
        (fun s => (sys_open demo_fs s 0x400000).kind) = some OutcomeKind.fault := by
  decide

set_option maxRecDepth 100000 in
/-- C39 (the code at the failing input): the table has `FDT_ENTRIES = 1536` entries and
the range checks admit the descriptors up to `FD_NUM_LIMIT = 3072`: `filesize (2000)`
reads entry 2000; `read`, `write`, `seek`, `tell` and `close` read the entry before they
test the descriptor: entry -1, or entry 5000. -/
theorem descriptor_read_outside_table :
    FDT_ENTRIES = 1536 ∧ FD_NUM_LIMIT = 3072 ∧
      demo_sys.cur.file_descriptor_table.map List.length = some 1536 ∧
      (filesize demo_fs demo_sys 2000).kind = OutcomeKind.fault ∧
      (read demo_fs demo_sys (-1) 0x400000 1).kind = OutcomeKind.fault ∧
      (write demo_fs demo_sys (-1) 0x400000 1).kind = OutcomeKind.fault ∧
      (seek demo_sys 5000 0).kind = OutcomeKind.fault ∧
      (tell demo_fs demo_sys (-1)).kind = OutcomeKind.fault ∧
      (close demo_sys (-1)).kind = OutcomeKind.fault ∧
      (close demo_sys 2000).kind = OutcomeKind.fault := by
  decide

/-! ### Chains that end at a free lock; an array of 128 arguments; threads as
`thread_create` leaves them -/

/-- The thread that `thread_create` makes has a child list that is not initialised and a
NULL table pointer. -/
theorem thread_create_fields_new (s s2 : SysState) (t name : Nat) (tid : Int)
    (h : thread_create_fields (some t) s name = some (s2, tid)) :
    name ≠ 0 ∧ tid = s.next_tid ∧ s2.current = s.current ∧
      s2.threads t = { zero_uthread with tid := tid } ∧
      (∀ x, x ≠ t → s2.threads x = s.threads x) := by
  unfold thread_create_fields at h
  simp only at h
  split at h
  · cases h
  · rename_i hn
    simp only [Option.some.injEq, Prod.mk.injEq] at h
    obtain ⟨h1, h2⟩ := h
    subst h1
    subst h2
    refine ⟨hn, rfl, rfl, ?_, ?_⟩
    · simp only [Function.update_same]
    · intro x hx
      simp only [Function.update_noteq hx]

/-- C25 (the code at the failing input): for a caller whose child list is as
`init_thread` leaves it, `process_fork` with the `thread_create` of `thread.c` returns no
value but `TID_ERROR`: when a page is allocated for the child, `get_child` walks the list
that was never initialised and the behaviour is undefined; and the thread that
`thread_create` has made never enters user mode from `__do_fork`, as its table pointer
is NULL. -/
theorem process_fork_never_succeeds (env : ForkEnv) (s : SysState) (page : Option Nat)
    (name : Nat) (if_ : syscall_frame) (hcl : s.cur.child_list = none) :
    (∀ v s1, process_fork (thread_create_fields page) s name if_ = Outcome.returned v s1 →
      v = TID_ERROR) ∧
    (∀ t, page = some t → s.next_tid ≠ TID_ERROR →
      process_fork (thread_create_fields page) s name if_ = Outcome.fault) ∧
    (∀ t s2 tid parent, thread_create_fields (some t) s name = some (s2, tid) →
      (__do_fork env { s2 with current := t } parent).kind ≠ OutcomeKind.user_mode) := by
  have hfault : ∀ t, s.next_tid ≠ TID_ERROR →
      process_fork (thread_create_fields (some t)) s name if_ = Outcome.fault := by
    intro t hnt
    unfold process_fork
    simp only
    cases htc : thread_create_fields (some t)
        (s.modify s.current (fun r => { r with parent_if := if_ })) name with
    | none => rfl
    | some p =>
      obtain ⟨s2, pid⟩ := p
      obtain ⟨-, hpid, hcur, hnew, hold⟩ := thread_create_fields_new _ s2 t name pid htc
      simp only
      have hpid2 : pid ≠ TID_ERROR := by
        rw [hpid]; exact hnt
      rw [if_neg hpid2]
      have hg : get_child s2 pid = none := by
        unfold get_child SysState.cur
        rw [hcur]
        by_cases hx : s.current = t
        · have : (s.modify s.current (fun r => { r with parent_if := if_ })).current = t := hx
          rw [this, hnew]
          rfl
        · have hx2 : (s.modify s.current (fun r => { r with parent_if := if_ })).current ≠ t :=
            hx
          rw [hold _ hx2]
          simp only [SysState.modify, Function.update_same]
          simp only [SysState.cur] at hcl
          rw [hcl]
      rw [hg]
  refine ⟨?_, ?_, ?_⟩
  · intro v s1 h
    cases page with
    | none =>
      unfold process_fork thread_create_fields at h
      simp only [if_true, Outcome.returned.injEq] at h
      exact h.1.symm
    | some t =>
      by_cases hnt : s.next_tid = TID_ERROR
      · obtain ⟨s2, pid, htc, hcase⟩ := process_fork_returned _ s name if_ v s1 h
        obtain ⟨-, hpid, -⟩ := thread_create_fields_new _ s2 t name pid htc
        rcases hcase with ⟨-, hv, -⟩ | ⟨hne, -⟩
        · exact hv
        · exfalso
          apply hne
          rw [hpid]
          exact hnt
      · rw [hfault t hnt] at h
        cases h
  · intro t hp hnt
    rw [hp]
    exact hfault t hnt
  · intro t s2 tid parent htc
    obtain ⟨-, -, -, hnew, -⟩ := thread_create_fields_new s s2 t name tid htc
    have htab : (SysState.cur { s2 with current := t }).file_descriptor_table = none := by
      simp only [SysState.cur]
      rw [hnew]
      rfl
    intro hk
    unfold __do_fork at hk
    simp only at hk
    rw [htab] at hk
    split at hk
    · cases hk
    · split at hk
      · cases hk
      · split at hk
        · cases hk
        · split at hk
          · simp only [fdt_set, Option.bind] at hk
            cases hk
          · cases hk

set_option maxRecDepth 100000 in
/-- Witness of C25: thread 1, fresh from `init_thread`, forks with page 7 for the child:
`process_fork` has no result, and the child's `__do_fork` does not enter user mode. -/
theorem process_fork_never_succeeds_witness :
    (process_fork (thread_create_fields (some 7)) init_sys 0x400000 demo_frame).kind =
        OutcomeKind.fault ∧
      (thread_create_fields (some 7) init_sys 0x400000).map (fun p =>
        (__do_fork demo_fork_env { p.1 with current := 7 } 1).kind) =
        some OutcomeKind.fault := by
  have h := process_fork_never_succeeds demo_fork_env init_sys (some 7) 0x400000 demo_frame
    rfl
  refine ⟨?_, by decide⟩
  rw [h.2.1 7 rfl (by decide)]
  rfl

/-- C27 (the code at the failing input): for a caller whose child list is as
`init_thread` leaves it, and every thread that `thread_create` makes is such a caller,
`get_child` walks a list that was never initialised and `process_wait` has no result,
whatever the tid. -/
theorem process_wait_uninitialised (s : SysState) (child_tid : Int)
    (hcl : s.cur.child_list = none) :
    get_child s child_tid = none ∧ process_wait s child_tid = Outcome.fault ∧
      zero_uthread.child_list = none ∧
      (∀ (s0 s2 : SysState) (t name : Nat) (tid : Int),
        thread_create_fields (some t) s0 name = some (s2, tid) →
        (s2.threads t).child_list = none) := by
  have hg : get_child s child_tid = none := by
    unfold get_child
    rw [hcl]
  refine ⟨hg, ?_, rfl, ?_⟩
  · unfold process_wait
    rw [hg]
  · intro s0 s2 t name tid h
    rw [(thread_create_fields_new s0 s2 t name tid h).2.2.2.1]
    rfl

/-- Witness of C27: thread 1, fresh from `init_thread`, waits for the tid 5, which is
no child of it: `process_wait` does not return -1. -/
theorem process_wait_uninitialised_witness :
    init_sys.cur.child_list = none ∧
      (process_wait init_sys 5).kind = OutcomeKind.fault := by
  have h := process_wait_uninitialised init_sys 5 rfl
  refine ⟨rfl, ?_⟩
  rw [h.2.1]
  rfl

end Pintos
